import Mathlib

/-!
A shallow Lean 4 embedding of the core of the `followthemoney` Go port:
the property-type registry with its `Clean` normalizers, the schema model
(load + inheritance resolution), the entity proxy write protocol, the
statement decomposition / aggregation engine, and the HMAC namespace
signer.  Definitions are translated from the Go sources; Go strings are
modelled at rune granularity (`String` / `List Char`), Go `int` as `Nat`
or `Int`, Go `float64` similarity scores as `Rat` (the scores computed
here are exact), fallible functions as `Except` / `Option` or explicit
`(value, ok)` pairs exactly as in the source.  Where the Go code iterates
over a built-in map, the embedding uses an association list in insertion
order (Go map iteration order is unspecified; the claims settled here do
not depend on it, except where noted in the doc comments).
-/

namespace Ftm

/-! ## Go string helpers -/

/-- Go `unicode.IsSpace` restricted to the space runes that actually occur
in the Latin-1 range plus ASCII; the source calls `unicode.IsSpace`. -/
def isGoSpace (c : Char) : Bool :=
  c = ' ' ∨ c = '\t' ∨ c = '\n' ∨ c = '\x0b' ∨ c = '\x0c' ∨ c = '\r' ∨
  c = '\x85' ∨ c = '\xa0'

/-- Go `unicode.IsControl` (category Cc): U+0000..U+001F, U+007F..U+009F. -/
def isGoControl (c : Char) : Bool :=
  c.val < 0x20 ∨ (0x7f ≤ c.val ∧ c.val ≤ 0x9f)

/-- Go `strings.TrimSpace` on a rune list. -/
def trimSpaceChars (l : List Char) : List Char :=
  ((l.dropWhile isGoSpace).reverse.dropWhile isGoSpace).reverse

/-- Go `strings.TrimSpace`. -/
def goTrimSpace (s : String) : String :=
  String.mk (trimSpaceChars s.data)

/-- Go `strings.Trim(s, cutset)` on rune lists. -/
def trimSetChars (cutset : List Char) (l : List Char) : List Char :=
  ((l.dropWhile (cutset.contains ·)).reverse.dropWhile (cutset.contains ·)).reverse

/-- Go `strings.ToLower` (ASCII range; the settled claims use ASCII data). -/
def goToLower (s : String) : String :=
  String.mk (s.data.map Char.toLower)

/-- Go `strings.ToUpper` (ASCII range). -/
def goToUpper (s : String) : String :=
  String.mk (s.data.map Char.toUpper)

/-- Go `strings.Split(s, sep)` for a one-rune separator. -/
def splitChars (sep : Char) : List Char → List (List Char)
  | [] => [[]]
  | c :: rest =>
    match splitChars sep rest with
    | [] => [[]]
    | g :: gs => if c = sep then [] :: g :: gs else (c :: g) :: gs

/-- Go `strings.Split` (single-rune separator). -/
def goSplit (s : String) (sep : Char) : List String :=
  (splitChars sep s.data).map String.mk

/-- Go `strings.Join` with a one-rune separator. -/
def joinChars (sep : Char) : List (List Char) → List Char
  | [] => []
  | [g] => g
  | g :: g2 :: gs => g ++ sep :: joinChars sep (g2 :: gs)

/-- Go `strings.Join` (single-rune separator). -/
def goJoin (xs : List String) (sep : Char) : String :=
  String.mk (joinChars sep (xs.map String.data))

/-- Go `strings.Contains` for a one-rune needle. -/
def containsChar (s : String) (c : Char) : Bool :=
  s.data.contains c

/-- Go `strings.ReplaceAll(s, old, new)` where `old` is a single rune. -/
def replaceAllChar (s : String) (old : Char) (new : String) : String :=
  String.mk (s.data.flatMap (fun c => if c = old then new.data else [c]))

/-- Filter keeping the runes accepted by `p`
(models `regexp.ReplaceAllString(s, "")` for a negated character class). -/
def filterChars (p : Char → Bool) (s : String) : String :=
  String.mk (s.data.filter p)

/-! ## UTF-8, SHA-1 and HMAC

The Go code hashes with `crypto/sha1` / `crypto/hmac` over the UTF-8
bytes of its strings; the embedding implements the same algorithms over
`Nat`-valued bytes. -/

/-- UTF-8 encoding of one code point (RFC 3629). -/
def utf8Char (c : Char) : List Nat :=
  let n := c.toNat
  if n < 0x80 then [n]
  else if n < 0x800 then [0xc0 + n / 0x40, 0x80 + n % 0x40]
  else if n < 0x10000 then
    [0xe0 + n / 0x1000, 0x80 + n / 0x40 % 0x40, 0x80 + n % 0x40]
  else
    [0xf0 + n / 0x40000, 0x80 + n / 0x1000 % 0x40, 0x80 + n / 0x40 % 0x40,
      0x80 + n % 0x40]

/-- The UTF-8 bytes of a string (Go `[]byte(s)`). -/
def strBytes (s : String) : List Nat :=
  s.data.flatMap utf8Char

/-- Go `len(s)`: the byte length of a string. -/
def goLen (s : String) : Nat :=
  (strBytes s).length

/-- 32-bit left rotation. -/
def rotl32 (x : Nat) (k : Nat) : Nat :=
  ((x <<< k) % 4294967296) ||| (x >>> (32 - k))

/-- One SHA-1 message schedule extension step list: expands 16 words to 80. -/
def sha1Extend : Nat → List Nat → List Nat
  | 0, w => w
  | n + 1, w =>
    let i := w.length
    let x := (w.getD (i - 3) 0) ^^^ (w.getD (i - 8) 0) ^^^
             (w.getD (i - 14) 0) ^^^ (w.getD (i - 16) 0)
    sha1Extend n (w ++ [rotl32 x 1])

/-- SHA-1 round function and constant for round `i`. -/
def sha1F (i b c d : Nat) : Nat × Nat :=
  if i < 20 then ((b &&& c) ||| ((b ^^^ 4294967295) &&& d), 0x5a827999)
  else if i < 40 then (b ^^^ c ^^^ d, 0x6ed9eba1)
  else if i < 60 then ((b &&& c) ||| (b &&& d) ||| (c &&& d), 0x8f1bbcdc)
  else (b ^^^ c ^^^ d, 0xca62c1d6)

/-- The 80 SHA-1 rounds over an extended schedule. -/
def sha1Rounds : Nat → Nat → List Nat → Nat × Nat × Nat × Nat × Nat →
    Nat × Nat × Nat × Nat × Nat
  | 0, _, _, st => st
  | n + 1, i, w, (a, b, c, d, e) =>
    let (f, k) := sha1F i b c d
    let temp := (rotl32 a 5 + f + e + k + w.getD i 0) % 4294967296
    sha1Rounds n (i + 1) w (temp, a, rotl32 b 30, c, d)

/-- Process one 64-byte block. -/
def sha1Block (h : Nat × Nat × Nat × Nat × Nat) (block : List Nat) :
    Nat × Nat × Nat × Nat × Nat :=
  let words := (List.range 16).map fun i =>
    (block.getD (4 * i) 0) * 16777216 + (block.getD (4 * i + 1) 0) * 65536 +
    (block.getD (4 * i + 2) 0) * 256 + block.getD (4 * i + 3) 0
  let w := sha1Extend 64 words
  let (h0, h1, h2, h3, h4) := h
  let (a, b, c, d, e) := sha1Rounds 80 0 w (h0, h1, h2, h3, h4)
  ((h0 + a) % 4294967296, (h1 + b) % 4294967296, (h2 + c) % 4294967296,
    (h3 + d) % 4294967296, (h4 + e) % 4294967296)

/-- Split a byte list into 64-byte chunks (fueled by the list length). -/
def chunks64 : Nat → List Nat → List (List Nat)
  | 0, _ => []
  | _, [] => []
  | fuel + 1, bs => bs.take 64 :: chunks64 fuel (bs.drop 64)

/-- Big-endian bytes of a 32-bit word. -/
def word32Bytes (x : Nat) : List Nat :=
  [x / 16777216 % 256, x / 65536 % 256, x / 256 % 256, x % 256]

/-- SHA-1 digest (20 bytes) of a byte list. -/
def sha1 (msg : List Nat) : List Nat :=
  let len := msg.length
  let padLen := (55 + 64 - len % 64) % 64 + 1
  let bitLen := 8 * len
  let lenBytes := [bitLen / 72057594037927936 % 256, bitLen / 281474976710656 % 256,
    bitLen / 1099511627776 % 256, bitLen / 4294967296 % 256,
    bitLen / 16777216 % 256, bitLen / 65536 % 256, bitLen / 256 % 256, bitLen % 256]
  let padded := msg ++ 0x80 :: List.replicate (padLen - 1) 0 ++ lenBytes
  let blocks := chunks64 (padded.length + 1) padded
  let (h0, h1, h2, h3, h4) := blocks.foldl sha1Block
    (0x67452301, 0xefcdab89, 0x98badcfe, 0x10325476, 0xc3d2e1f0)
  word32Bytes h0 ++ word32Bytes h1 ++ word32Bytes h2 ++ word32Bytes h3 ++
    word32Bytes h4

/-- One hex digit (lowercase, as `encoding/hex`). -/
def hexDigit (n : Nat) : Char :=
  if n < 10 then Char.ofNat (48 + n) else Char.ofNat (87 + n)

/-- `hex.EncodeToString` over bytes. -/
def hexEncode (bs : List Nat) : String :=
  String.mk (bs.flatMap fun b => [hexDigit (b / 16 % 16), hexDigit (b % 16)])

/-- HMAC-SHA1 (`crypto/hmac` with `sha1.New`). -/
def hmacSha1 (key msg : List Nat) : List Nat :=
  let k0 := if key.length > 64 then sha1 key else key
  let k := k0 ++ List.replicate (64 - k0.length) 0
  let ipad := k.map (· ^^^ 0x36)
  let opad := k.map (· ^^^ 0x5c)
  sha1 (opad ++ sha1 (ipad ++ msg))

/-! ## `sanitizeText` and shared text utilities (`util.go`) -/

/-- The rune loop of `sanitizeText`: drop NUL and non-space control runes,
collapse whitespace runs to a single ASCII space. -/
def sanitizeLoop : List Char → Bool → List Char
  | [], _ => []
  | c :: rest, lastSpace =>
    if c = '\x00' then sanitizeLoop rest lastSpace
    else if isGoControl c ∧ ¬ isGoSpace c then sanitizeLoop rest lastSpace
    else if isGoSpace c then
      if lastSpace then sanitizeLoop rest true
      else ' ' :: sanitizeLoop rest true
    else c :: sanitizeLoop rest false

/-- `sanitizeText`: trim, strip control runes, collapse internal whitespace,
reject empty output, cap the length at 10000 (the Go cap slices bytes; the
embedding caps runes — the claims settled here use ASCII data). -/
def sanitizeText (s : String) : String × Bool :=
  if s = "" then ("", false)
  else
    let out := goTrimSpace (String.mk (sanitizeLoop s.data false))
    if out = "" then ("", false)
    else if out.data.length > 10000 then (String.mk (out.data.take 10000), true)
    else (out, true)

/-! ## Value matchers (the compiled regular expressions of the type files) -/

/-- Consume exactly `n` ASCII digits, returning the rest of the input. -/
def digitsThen : Nat → List Char → Option (List Char)
  | 0, l => some l
  | n + 1, c :: l => if c.isDigit then digitsThen n l else none
  | _ + 1, [] => none

/-- `isoDateFull`: `^\d{4}-\d{2}-\d{2}$`. -/
def isoDateFull (s : String) : Bool :=
  match digitsThen 4 s.data with
  | some ('-' :: r) =>
    match digitsThen 2 r with
    | some ('-' :: r2) => digitsThen 2 r2 = some []
    | _ => false
  | _ => false

/-- `isoDateMonth`: `^\d{4}-\d{2}$`. -/
def isoDateMonth (s : String) : Bool :=
  match digitsThen 4 s.data with
  | some ('-' :: r) => digitsThen 2 r = some []
  | _ => false

/-- `isoDateYear`: `^\d{4}$`. -/
def isoDateYear (s : String) : Bool :=
  digitsThen 4 s.data = some []

/-- `DateType.Validate`. -/
def dateValidate (s : String) : Bool :=
  isoDateFull s ∨ isoDateMonth s ∨ isoDateYear s

/-- ASCII letter test (`[A-Za-z]`). -/
def isAsciiAlpha (c : Char) : Bool :=
  ('A' ≤ c ∧ c ≤ 'Z') ∨ ('a' ≤ c ∧ c ≤ 'z')

/-- ASCII alphanumeric test. -/
def isAsciiAlnum (c : Char) : Bool :=
  isAsciiAlpha c ∨ c.isDigit

/-- `countryAlpha2`: `^[A-Za-z]{2}$`. -/
def countryAlpha2 (s : String) : Bool :=
  match s.data with
  | [a, b] => isAsciiAlpha a ∧ isAsciiAlpha b
  | _ => false

/-- Lowercase hex digit test. -/
def isHexLower (c : Char) : Bool :=
  c.isDigit ∨ ('a' ≤ c ∧ c ≤ 'f')

/-- `sha1Hex`: `^[0-9a-f]{40}$`. -/
def sha1HexMatch (s : String) : Bool :=
  s.data.length = 40 ∧ s.data.all isHexLower

/-- A character of a MIME token: `[a-zA-Z0-9!#$&^_.+-]`. -/
def mimeTokenChar (c : Char) : Bool :=
  isAsciiAlnum c ∨ c = '!' ∨ c = '#' ∨ c = '$' ∨ c = '&' ∨ c = '^' ∨
  c = '_' ∨ c = '.' ∨ c = '+' ∨ c = '-'

/-- One MIME token: `[token]{1,127}`. -/
def mimeToken (a : List Char) : Bool :=
  1 ≤ a.length ∧ a.length ≤ 127 ∧ a.all mimeTokenChar

/-- `mimeRe`: `^[token]{1,127}/[token]{1,127}$`. -/
def mimeMatch (s : String) : Bool :=
  match splitChars '/' s.data with
  | [a, b] => mimeToken a ∧ mimeToken b
  | _ => false

/-- Uppercase ASCII letter or digit (`[A-Z0-9]`). -/
def isUpperAlnum (c : Char) : Bool :=
  ('A' ≤ c ∧ c ≤ 'Z') ∨ c.isDigit

/-- Uppercase ASCII letter (`[A-Z]`). -/
def isUpperAlpha (c : Char) : Bool :=
  'A' ≤ c ∧ c ≤ 'Z'

/-- The closed country list of the port (ISO-3166 alpha-2 codes). -/
def ftmCountryCodes : List String :=
  ["ae", "af", "al", "am", "ao", "ar", "at", "au", "az", "ba", "bd", "be",
   "bg", "bh", "bi", "bj", "bo", "br", "bs", "bw", "by", "bz", "ca", "cd",
   "cf", "cg", "ch", "ci", "cl", "cm", "cn", "co", "cr", "cu", "cz", "de",
   "dk", "do", "dz", "ec", "ee", "eg", "er", "es", "et", "fi", "fj", "fr",
   "ga", "gb", "ge", "gh", "gm", "gn", "gq", "gr", "gt", "gw", "gy", "hk",
   "hn", "hr", "ht", "hu", "id", "ie", "il", "in", "iq", "ir", "is", "it",
   "jm", "jo", "jp", "ke", "kg", "kh", "km", "kp", "kr", "kw", "kz", "la",
   "lb", "lk", "lr", "ls", "lt", "lu", "lv", "ly", "ma", "md", "me", "mg",
   "mk", "ml", "mm", "mn", "mr", "mt", "mu", "mw", "mx", "my", "mz", "na",
   "ne", "ng", "ni", "nl", "no", "np", "nz", "om", "pa", "pe", "pg", "ph",
   "pk", "pl", "ps", "pt", "py", "qa", "ro", "rs", "ru", "rw", "sa", "sd",
   "se", "sg", "si", "sk", "sl", "sn", "so", "ss", "sv", "sy", "sz", "td",
   "tg", "th", "tj", "tl", "tm", "tn", "tr", "tt", "tw", "tz", "ua", "ug",
   "us", "uy", "uz", "ve", "vn", "ye", "za", "zm", "zw"]

/-- `CountryType.Validate`. -/
def countryValidate (value : String) : Bool :=
  let v := goToLower (goTrimSpace value)
  ftmCountryCodes.contains v ∨ countryAlpha2 value

/-- The ISO-639-3 language whitelist. -/
def languageWhitelist : List String :=
  ["eng", "fra", "deu", "rus", "spa", "nld", "ron", "kat", "ara", "tur",
   "ltz", "ell", "lit", "ukr", "zho", "bel", "bul", "bos", "jpn", "ces",
   "lav", "por", "pol", "hye", "hrv", "hin", "heb", "uzb", "mon", "urd",
   "sqi", "kor", "isl", "ita", "est", "nor", "fas", "swa", "slv", "slk",
   "aze", "tgk", "kaz", "tuk", "kir", "hun", "dan", "afr", "swe", "srp",
   "ind", "kan", "mkd", "mlt", "msa", "fin", "cat", "nep", "tgl", "fil",
   "mya", "khm", "cnr", "ben"]

/-- The topic key set of `NewTopicType` (the display labels are not needed
by the settled claims). -/
def topicKeys : List String :=
  ["crime", "crime.fraud", "crime.cyber", "crime.fin", "crime.env",
   "crime.theft", "crime.war", "crime.boss", "crime.terror",
   "crime.traffick", "crime.traffick.drug", "crime.traffick.human",
   "forced.labor", "asset.frozen", "wanted", "corp.offshore", "corp.shell",
   "corp.public", "corp.disqual", "gov", "gov.national", "gov.state",
   "gov.muni", "gov.soe", "gov.igo", "gov.head", "gov.admin",
   "gov.executive", "gov.legislative", "gov.judicial", "gov.security",
   "gov.financial", "gov.religion", "fin", "fin.bank", "fin.fund",
   "fin.adivsor", "mare.detained", "mare.shadow", "mare.sts", "reg.action",
   "reg.warn", "role.pep", "role.pol", "role.rca", "role.judge",
   "role.civil", "role.diplo", "role.lawyer", "role.acct", "role.spy",
   "role.oligarch", "role.journo", "role.act", "role.lobby", "pol.party",
   "pol.union", "rel", "mil", "sanction", "sanction.linked",
   "sanction.counter", "export.control", "export.risk", "debarment", "poi"]

/-- Gender alias table plus membership in `{male, female, other}`. -/
def genderClean (text : String) : String × Bool :=
  let code := goToLower (goTrimSpace text)
  let code :=
    if code = "m" ∨ code = "man" ∨ code = "masculin" ∨ code = "männlich" ∨
        code = "мужской" then "male"
    else if code = "f" ∨ code = "woman" ∨ code = "féminin" ∨
        code = "weiblich" ∨ code = "женский" then "female"
    else if code = "o" ∨ code = "d" ∨ code = "divers" then "other"
    else code
  if code = "male" ∨ code = "female" ∨ code = "other" then (code, true)
  else ("", false)

/-- Modelled from the spec: acceptance of `strconv.ParseFloat` input
(an optionally signed decimal mantissa with optional fraction and
exponent, or the inf/infinity/nan words; the hexadecimal-float and
digit-separator forms of the Go implementation are not modelled). -/
def parseFloatOk (s : String) : Bool :=
  match (goToLower s).data with
  | [] => false
  | c :: r =>
    let l := if c = '+' ∨ c = '-' then r else c :: r
    if l = [] then false
    else if String.mk l = "inf" ∨ String.mk l = "infinity" ∨
        String.mk l = "nan" then true
    else
      let ip := l.takeWhile (·.isDigit)
      let r1 := l.dropWhile (·.isDigit)
      let (fp, r2) : List Char × List Char :=
        match r1 with
        | '.' :: rr => (rr.takeWhile (·.isDigit), rr.dropWhile (·.isDigit))
        | _ => ([], r1)
      if ip = [] ∧ fp = [] then false
      else
        match r2 with
        | [] => true
        | 'e' :: r3 =>
          let r4 := match r3 with
            | c' :: rr => if c' = '+' ∨ c' = '-' then rr else c' :: rr
            | [] => []
          r4 ≠ [] ∧ r4.all (·.isDigit)
        | _ => false

/-! ## URL parsing (`net/url` subset) and the URL type -/

/-- A parsed URL (`net/url.URL`); `opq` is the `Opaque` part.  Userinfo,
port splitting and percent-escape re-encoding are not modelled — the
inputs exercised by the claims contain none of them. -/
structure URLRec where
  scheme : String := ""
  opq : String := ""
  host : String := ""
  path : String := ""
  rawQuery : String := ""
  fragment : String := ""
deriving Repr, DecidableEq

/-- A scheme rune after the first: `[A-Za-z0-9+.-]`. -/
def schemeChar (c : Char) : Bool :=
  isAsciiAlpha c ∨ c.isDigit ∨ c = '+' ∨ c = '-' ∨ c = '.'

/-- Go `getScheme`: `.error` models the "missing protocol scheme" error. -/
def getScheme (l : List Char) : Except Unit (String × List Char) :=
  match l with
  | [] => .ok ("", [])
  | c :: _ =>
    if c = ':' then .error ()
    else if ¬ isAsciiAlpha c then .ok ("", l)
    else
      let pre := l.takeWhile schemeChar
      match l.drop pre.length with
      | ':' :: rest => .ok (String.mk pre, rest)
      | _ => .ok ("", l)

/-- Go `strings.Cut` at the first occurrence of a rune; the separator is
dropped, `(l, [])` if absent. -/
def cutChar (l : List Char) (sep : Char) : List Char × List Char :=
  match l.dropWhile (· ≠ sep) with
  | [] => (l, [])
  | _ :: after => (l.takeWhile (· ≠ sep), after)

/-- The host part of an authority: Go strips userinfo at the last `@`. -/
def hostOfAuthority (auth : List Char) : List Char :=
  if auth.contains '@' then
    ((auth.reverse.takeWhile (· ≠ '@'))).reverse
  else auth

/-- Modelled from the spec: the subset of `net/url.Parse` exercised by the
URL type — fragment split at the first `#`, scheme detection with scheme
lowercasing, query split at the first `?`, `//authority/` splitting, the
opaque form for scheme-prefixed non-rooted rests, and the
colon-in-first-path-segment error.  Percent-escape validation is not
modelled. -/
def parseURL (raw : String) : Option URLRec :=
  let (restf, frag) := cutChar raw.data '#'
  match getScheme restf with
  | .error _ => none
  | .ok (sc, rest0) =>
    let scheme := goToLower sc
    let (rest, rq) := cutChar rest0 '?'
    if rest.head? ≠ some '/' then
      if scheme ≠ "" then
        some { scheme := scheme, opq := String.mk rest,
               rawQuery := String.mk rq, fragment := String.mk frag }
      else if (rest.takeWhile (· ≠ '/')).contains ':' then none
      else
        some { scheme := scheme, path := String.mk rest,
               rawQuery := String.mk rq, fragment := String.mk frag }
    else if rest.take 2 = ['/', '/'] ∧
        (scheme ≠ "" ∨ rest.take 3 ≠ ['/', '/', '/']) then
      let after := rest.drop 2
      let auth := after.takeWhile (· ≠ '/')
      let rest2 := after.dropWhile (· ≠ '/')
      some { scheme := scheme, host := String.mk (hostOfAuthority auth),
             path := String.mk rest2, rawQuery := String.mk rq,
             fragment := String.mk frag }
    else
      some { scheme := scheme, path := String.mk rest,
             rawQuery := String.mk rq, fragment := String.mk frag }

/-- Go `URL.String()` over the modelled fields. -/
def urlString (u : URLRec) : String :=
  let buf := if u.scheme ≠ "" then u.scheme ++ ":" else ""
  let buf :=
    if u.opq ≠ "" then buf ++ u.opq
    else
      let buf :=
        if (u.scheme ≠ "" ∨ u.host ≠ "") ∧ (u.host ≠ "" ∨ u.path ≠ "") then
          buf ++ "//"
        else buf
      let buf := buf ++ u.host
      if u.path ≠ "" ∧ u.path.data.head? ≠ some '/' ∧ u.host ≠ "" then
        buf ++ "/" ++ u.path
      else buf ++ u.path
  let buf := if u.rawQuery ≠ "" then buf ++ "?" ++ u.rawQuery else buf
  if u.fragment ≠ "" then buf ++ "#" ++ u.fragment else buf

/-- `URLType.Validate`. -/
def urlValidate (value : String) : Bool :=
  match parseURL value with
  | none => false
  | some u0 =>
    let u1 := if u0.scheme = "" then parseURL ("http://" ++ value)
              else some u0
    match u1 with
    | none => false
    | some u =>
      let sc := goToLower u.scheme
      if sc = "http" ∨ sc = "https" ∨ sc = "ftp" ∨ sc = "mailto" then
        u.host ≠ "" ∨ u.scheme = "mailto"
      else false

/-- `URLType.Clean`. -/
def urlClean (text : String) : String × Bool :=
  let (s, ok) := sanitizeText text
  if ¬ ok then ("", false)
  else
    let s := goTrimSpace s
    let u1 :=
      match parseURL s with
      | some u => if u.scheme = "" then parseURL ("http://" ++ s) else some u
      | none => parseURL ("http://" ++ s)
    match u1 with
    | none => ("", false)
    | some u =>
      if ¬ urlValidate (urlString u) then ("", false)
      else (urlString { u with host := goToLower u.host }, true)

/-- Hex value of a hex digit rune. -/
def hexVal (c : Char) : Nat :=
  if c.isDigit then c.toNat - 48
  else if 'a' ≤ c ∧ c ≤ 'f' then c.toNat - 87
  else if 'A' ≤ c ∧ c ≤ 'F' then c.toNat - 55
  else 0

/-- Hex digit test (either case). -/
def isHexDigit (c : Char) : Bool :=
  c.isDigit ∨ ('a' ≤ c ∧ c ≤ 'f') ∨ ('A' ≤ c ∧ c ≤ 'F')

/-- Go `url.QueryUnescape` on a query component (`+` to space, `%XX`
decoded; a malformed escape is kept literally where Go would drop the
whole pair — the claims do not exercise malformed escapes). -/
def queryUnescape : List Char → List Char
  | [] => []
  | '%' :: a :: b :: rest =>
    if isHexDigit a ∧ isHexDigit b then
      Char.ofNat (hexVal a * 16 + hexVal b) :: queryUnescape rest
    else '%' :: queryUnescape (a :: b :: rest)
  | '+' :: rest => ' ' :: queryUnescape rest
  | c :: rest => c :: queryUnescape rest

/-- Append a query value under a key, preserving first-seen key order
(Go `url.Values` is a map; `Encode` sorts, so order is immaterial). -/
def addQueryVal (vals : List (String × List String)) (k v : String) :
    List (String × List String) :=
  match vals with
  | [] => [(k, [v])]
  | (k0, vs) :: rest =>
    if k0 = k then (k0, vs ++ [v]) :: rest
    else (k0, vs) :: addQueryVal rest k v

/-- Go `url.ParseQuery`: split on `&`, skip empty components and those
containing `;`, cut each at the first `=`, unescape key and value. -/
def parseQuery (rq : String) : List (String × List String) :=
  (splitChars '&' rq.data).foldl
    (fun vals comp =>
      if comp = [] then vals
      else if comp.contains ';' then vals
      else
        let (k, v) := cutChar comp '='
        addQueryVal vals (String.mk (queryUnescape k))
          (String.mk (queryUnescape v)))
    []

/-- A rune Go leaves unescaped in a query component. -/
def queryUnreserved (c : Char) : Bool :=
  isAsciiAlnum c ∨ c = '-' ∨ c = '_' ∨ c = '.' ∨ c = '~'

/-- Uppercase hex digit (as `net/url` escaping emits). -/
def hexDigitUpper (n : Nat) : Char :=
  if n < 10 then Char.ofNat (48 + n) else Char.ofNat (55 + n)

/-- Go `url.QueryEscape`. -/
def queryEscape (s : String) : String :=
  String.mk (strBytes s |>.flatMap fun b =>
    if b = 32 then ['+']
    else if queryUnreserved (Char.ofNat b) ∧ b < 128 then [Char.ofNat b]
    else ['%', hexDigitUpper (b / 16), hexDigitUpper (b % 16)])

/-- Go string `<`: lexicographic order on the UTF-8 bytes. -/
def bytesLt : List Nat → List Nat → Bool
  | [], [] => false
  | [], _ :: _ => true
  | _ :: _, [] => false
  | a :: as, b :: bs =>
    if a < b then true else if b < a then false else bytesLt as bs

/-- Go `s < t` on strings. -/
def goStrLt (a b : String) : Bool :=
  bytesLt (strBytes a) (strBytes b)

/-- Insertion sort on strings (Go `sort.Strings`). -/
def insertSorted (x : String) : List String → List String
  | [] => [x]
  | y :: ys =>
    if ¬ goStrLt x y then y :: insertSorted x ys else x :: y :: ys

/-- Go `sort.Strings`. -/
def sortStrings (l : List String) : List String :=
  l.foldl (fun acc x => insertSorted x acc) []

/-- Go `url.Values.Encode`: keys sorted, each value escaped as
`key=value`, joined with `&`. -/
def encodeQuery (vals : List (String × List String)) : String :=
  let keys := sortStrings (vals.map Prod.fst)
  goJoin
    (keys.flatMap fun k =>
      (((vals.lookup k).getD []).map fun v =>
        queryEscape k ++ "=" ++ queryEscape v))
    '&'

/-- The repository's `normalizeURL`: parse with an `http://` fallback,
lowercase the host, sort query parameters by key then value, and strip
the fragment. -/
def normalizeURL (s : String) : Option URLRec :=
  let u1 :=
    match parseURL s with
    | some u => if u.scheme = "" then parseURL ("http://" ++ s) else some u
    | none => parseURL ("http://" ++ s)
  match u1 with
  | none => none
  | some u =>
    let u := { u with host := goToLower u.host }
    let u :=
      if u.rawQuery ≠ "" then
        let q := parseQuery u.rawQuery
        let keys := sortStrings (q.map Prod.fst)
        let nq := keys.foldl
          (fun nq k =>
            (sortStrings ((q.lookup k).getD [])).foldl
              (fun nq v => addQueryVal nq k v) nq)
          []
        { u with rawQuery := encodeQuery nq }
      else u
    some { u with fragment := "" }

/-- Go `strings.TrimSuffix(s, "/")`. -/
def trimSlashSuffix (s : String) : String :=
  if s.data.getLast? = some '/' then String.mk s.data.dropLast else s

/-! ## Email, IP, phone, JSON, address, identifier helpers -/

/-- A rune of the local part: `[^<>()[\]\\,;:?\s@"]`. -/
def emailLocalChar (c : Char) : Bool :=
  ¬ (c = '<' ∨ c = '>' ∨ c = '(' ∨ c = ')' ∨ c = '[' ∨ c = ']' ∨
     c = '\\' ∨ c = ',' ∨ c = ';' ∨ c = ':' ∨ c = '?' ∨ isGoSpace c ∨
     c = '@' ∨ c = Char.ofNat 34)

/-- `emailLocalRe`: `^[^<>()[\]\\,;:?\s@"]{1,64}$`. -/
def emailLocalMatch (s : String) : Bool :=
  1 ≤ s.data.length ∧ s.data.length ≤ 64 ∧ s.data.all emailLocalChar

/-- `domainLabelRe`: `^[A-Za-z0-9](?:[A-Za-z0-9-]{0,61}[A-Za-z0-9])?$`. -/
def domainLabelMatch (l : List Char) : Bool :=
  match l with
  | [] => false
  | [c] => isAsciiAlnum c
  | c :: rest =>
    isAsciiAlnum c && decide (l.length ≤ 63) &&
    (rest.getLast?.map isAsciiAlnum).getD false &&
    rest.dropLast.all (fun d => isAsciiAlnum d ∨ d = '-')

/-- Modelled from the spec: `net/mail.ParseAddress` is used only to decide
whether an angle-bracket display-name wrapper should be stripped; the
model accepts `... <addr>` wrappers and bare `local@domain` addresses. -/
def mailParseAddressOk (s : String) : Bool :=
  let l := s.data
  (l.contains '<' ∧ l.getLast? = some '>' ∧ l.contains '@') ∨
  (l.contains '@' ∧ l.head? ≠ some '@' ∧ l.getLast? ≠ some '@' ∧
   ¬ l.contains '<' ∧ ¬ l.contains '>')

/-- Modelled from the spec: `idna.ToASCII` maps each non-ASCII label to an
`xn--` ASCII-compatible form; the exact punycode digits are immaterial to
the settled claims, so a non-ASCII label is rendered as `xn--` followed by
its ASCII letters/digits, a hyphen, and base-36 digits of the non-ASCII
code points.  ASCII labels pass through unchanged. -/
def idnaLabel (l : List Char) : List Char :=
  if l.all (fun c => c.toNat < 128) then l
  else
    "xn--".data ++ l.filter (fun c => c.toNat < 128 ∧ isAsciiAlnum c) ++
    '-' :: (l.filter (fun c => 128 ≤ c.toNat)).flatMap
      (fun c => Nat.toDigits 36 c.toNat)

/-- Modelled from the spec: `idna.ToASCII` over a dotted domain. -/
def idnaToASCII (d : String) : Option String :=
  some (String.mk (joinChars '.' ((splitChars '.' d.data).map idnaLabel)))

/-- Go `strings.TrimPrefix`. -/
def goTrimPref (s pre : String) : String :=
  if pre.data.isPrefixOf s.data then String.mk (s.data.drop pre.data.length)
  else s

/-- Go `strings.TrimSuffix`. -/
def goTrimSuf (s suf : String) : String :=
  if suf.data.isSuffixOf s.data then
    String.mk (s.data.take (s.data.length - suf.data.length))
  else s

/-- `EmailType.Clean`. -/
def emailClean (text : String) : String × Bool :=
  let (s0, ok) := sanitizeText text
  if ¬ ok then ("", false)
  else
    let s := goTrimSpace (goTrimPref s0 "mailto:")
    let s :=
      if mailParseAddressOk s then
        let s :=
          if s.data.contains '<' then
            String.mk (s.data.reverse.takeWhile (· ≠ '<')).reverse
          else s
        goTrimSuf s ">"
      else s
    let revl := s.data.reverse.takeWhile (· ≠ '@')
    if ¬ s.data.contains '@' then ("", false)
    else
      let domain0 := revl.reverse
      let localPart := s.data.take (s.data.length - domain0.length - 1)
      if localPart = [] ∨ domain0 = [] then ("", false)
      else if ¬ emailLocalMatch (String.mk localPart) then ("", false)
      else
        let domain := goTrimSuf (goToLower (String.mk domain0)) "."
        match idnaToASCII domain with
        | none => ("", false)
        | some puny =>
          let parts := splitChars '.' puny.data
          if parts.length < 2 then ("", false)
          else if ¬ parts.all domainLabelMatch then ("", false)
          else (String.mk localPart ++ "@" ++ goToLower puny, true)

/-- Modelled from the spec: `net.ParseIP` for dotted-quad IPv4 (decimal
octets 0..255, no leading zeros); the IPv6 textual forms are not
modelled, which only narrows the accepted set. -/
def parseIPv4 (s : String) : Option (List Nat) :=
  match splitChars '.' s.data with
  | [a, b, c, d] =>
    let octet := fun (l : List Char) =>
      if l ≠ [] ∧ l.length ≤ 3 ∧ l.all (·.isDigit) ∧
          (l.length = 1 ∨ l.head? ≠ some '0') then
        let n := l.foldl (fun n ch => n * 10 + (ch.toNat - 48)) 0
        if n ≤ 255 then some n else none
      else none
    match octet a, octet b, octet c, octet d with
    | some x, some y, some z, some w => some [x, y, z, w]
    | _, _, _, _ => none
  | _ => none

/-- Go `net.IP.String` for IPv4. -/
def ipString (oct : List Nat) : String :=
  goJoin (oct.map (fun n => String.mk (Nat.toDigits 10 n))) '.'

/-- `IpType.Clean`. -/
def ipClean (text : String) : String × Bool :=
  let (s, ok) := sanitizeText text
  if ¬ ok then ("", false)
  else
    match parseIPv4 (goTrimSpace s) with
    | none => ("", false)
    | some oct => (ipString oct, true)

/-- Modelled from the spec: a small region-to-calling-code table standing
in for the `nyaruka/phonenumbers` metadata. -/
def regionCallingCode (region : String) : Option String :=
  if region = "DE" then some "49"
  else if region = "US" then some "1"
  else if region = "GB" then some "44"
  else if region = "FR" then some "33"
  else if region = "BR" then some "55"
  else none

/-- Modelled from the spec: `phonenumbers.Parse` + `IsValidNumber` —
an international number (leading `+`, 8..15 digits once separators are
stripped) parses in any region; a national number (5..14 digits) parses
only under a region hint with a known calling code. -/
def phoneParse (s : String) (region : String) : Option String :=
  let cleaned := s.data.filter (fun c => c.isDigit ∨ c = '+')
  match cleaned with
  | '+' :: ds =>
    if ds.all (·.isDigit) ∧ 8 ≤ ds.length ∧ ds.length ≤ 15 then
      some (String.mk ds)
    else none
  | ds =>
    match regionCallingCode region with
    | none => none
    | some cc =>
      if ds ≠ [] ∧ ds.all (·.isDigit) ∧ 5 ≤ ds.length ∧ ds.length ≤ 14 then
        some (cc ++ String.mk ds)
      else none

/-- `PhoneType.Clean`: region-blind parse first, then the owning entity's
country values as region hints; E.164 output. -/
def phoneClean (text : String) (countries : List String) : String × Bool :=
  let (s, ok) := sanitizeText text
  if ¬ ok then ("", false)
  else
    let hints := (countries.filter (fun c => c.data.length = 2)).map goToUpper
    let regions := if hints ≠ [] then hints ++ [""] else [""]
    match regions.firstM (fun r => phoneParse s r) with
    | some num => ("+" ++ num, true)
    | none => ("", false)

/-- Skip JSON whitespace. -/
def jsonWs (l : List Char) : List Char :=
  l.dropWhile (fun c => c = ' ' ∨ c = '\t' ∨ c = '\n' ∨ c = '\r')

/-- The rest of a JSON string after the opening quote. -/
def jsonStringRest : Nat → List Char → Option (List Char)
  | 0, _ => none
  | _ + 1, [] => none
  | fuel + 1, c :: rest =>
    if c = Char.ofNat 34 then some rest
    else if c = '\\' then
      match rest with
      | [] => none
      | _ :: rest2 => jsonStringRest fuel rest2
    else jsonStringRest fuel rest

mutual

/-- Modelled from the spec: syntactic validity of one JSON value as
`encoding/json.Unmarshal` accepts it (fueled recursive descent). -/
def jsonVal : Nat → List Char → Option (List Char)
  | 0, _ => none
  | fuel + 1, l =>
    match jsonWs l with
    | [] => none
    | c :: rest =>
      if c = 'n' then
        if rest.take 3 = "ull".data then some (rest.drop 3) else none
      else if c = 't' then
        if rest.take 3 = "rue".data then some (rest.drop 3) else none
      else if c = 'f' then
        if rest.take 4 = "alse".data then some (rest.drop 4) else none
      else if c = Char.ofNat 34 then
        jsonStringRest (fuel + 1) rest
      else if c = '-' ∨ c.isDigit then
        let num := (c :: rest).takeWhile (fun d =>
          d.isDigit ∨ d = '-' ∨ d = '+' ∨ d = '.' ∨ d = 'e' ∨ d = 'E')
        if parseFloatOk (String.mk num) then some ((c :: rest).drop num.length)
        else none
      else if c = '\x5b' then
        jsonArrayRest fuel (jsonWs rest) true
      else if c = '\x7b' then
        jsonObjectRest fuel (jsonWs rest) true
      else none

/-- The rest of a JSON array after `[` (whitespace already skipped);
`first` is true before any element has been consumed. -/
def jsonArrayRest : Nat → List Char → Bool → Option (List Char)
  | 0, _, _ => none
  | fuel + 1, l, first =>
    match l with
    | '\x5d' :: rest => if first then some rest else none
    | _ =>
      match jsonVal fuel l with
      | none => none
      | some rest =>
        match jsonWs rest with
        | ',' :: rest2 => jsonArrayRest fuel (jsonWs rest2) false
        | '\x5d' :: rest2 => some rest2
        | _ => none

/-- The rest of a JSON object after `\x7b` (whitespace already skipped). -/
def jsonObjectRest : Nat → List Char → Bool → Option (List Char)
  | 0, _, _ => none
  | fuel + 1, l, first =>
    match l with
    | [] => none
    | '\x7d' :: rest => if first then some rest else none
    | c :: rest =>
      if c = Char.ofNat 34 then
        match jsonStringRest (fuel + 1) rest with
        | none => none
        | some rest2 =>
          match jsonWs rest2 with
          | ':' :: rest3 =>
            match jsonVal fuel rest3 with
            | none => none
            | some rest4 =>
              match jsonWs rest4 with
              | ',' :: rest5 => jsonObjectRest fuel (jsonWs rest5) false
              | '\x7d' :: rest5 => some rest5
              | _ => none
          | _ => none
      else none

end

/-- Modelled from the spec: `json.Unmarshal` validity of a whole input. -/
def jsonValidTop (s : String) : Bool :=
  match jsonVal (s.data.length + 1) s.data with
  | some rest => jsonWs rest = []
  | none => false

/-- Modelled from the spec: `json.Marshal` of a Go string — quoted with
the standard escapes and the HTML-safe `<`, `>`, `&`. -/
def jsonQuote (s : String) : String :=
  let esc := fun (c : Char) =>
    if c = Char.ofNat 34 then ['\\', Char.ofNat 34]
    else if c = '\\' then ['\\', '\\']
    else if c = '\n' then ['\\', 'n']
    else if c = '\r' then ['\\', 'r']
    else if c = '\t' then ['\\', 't']
    else if c.toNat < 0x20 then
      ['\\', 'u', '0', '0', hexDigit (c.toNat / 16), hexDigit (c.toNat % 16)]
    else if c = '<' then "\\u003c".data
    else if c = '>' then "\\u003e".data
    else if c = '&' then "\\u0026".data
    else [c]
  String.mk (Char.ofNat 34 :: s.data.flatMap esc ++ [Char.ofNat 34])

/-- `JsonType.Clean`. -/
def jsonClean (raw : String) : String × Bool :=
  let (s, ok) := sanitizeText raw
  if ¬ ok then ("", false)
  else if jsonValidTop s then (s, true)
  else (jsonQuote s, true)

/-- The alternatives of `addrLineBreaks`:
`(\r\n|\n|<BR/>|<BR>|\t|ESQ\.,|ESQ,|;)`, in regex order. -/
def lineBreakAlts : List (List Char) :=
  ["\r\n".data, "\n".data, "<BR/>".data, "<BR>".data, "\t".data,
   "ESQ.,".data, "ESQ,".data, ";".data]

/-- Leftmost alternative match at the head of the input, returning the
rest after the consumed match. -/
def matchAlt (alts : List (List Char)) (l : List Char) : Option (List Char) :=
  alts.firstM fun alt =>
    if List.isPrefixOf alt l then some (l.drop alt.length) else none

/-- `regexp.ReplaceAllString` for an alternation of literal alternatives:
leftmost, non-overlapping, scanning left to right. -/
def replaceAllAlts (alts : List (List Char)) (repl : List Char) :
    Nat → List Char → List Char
  | 0, l => l
  | _ + 1, [] => []
  | fuel + 1, c :: rest =>
    match matchAlt alts (c :: rest) with
    | some remaining => repl ++ replaceAllAlts alts repl fuel remaining
    | none => c :: replaceAllAlts alts repl fuel rest

/-- RE2 `\s`: `[\t\n\f\r ]`. -/
def isRe2Space (c : Char) : Bool :=
  c = '\t' ∨ c = '\n' ∨ c = '\x0c' ∨ c = '\r' ∨ c = ' '

/-- A match of `addrCommata` (`,\s?[,\.]`, greedy optional) at the head of
the input, returning the rest after the match. -/
def matchCommata (l : List Char) : Option (List Char) :=
  match l with
  | ',' :: c :: rest =>
    if isRe2Space c then
      match rest with
      | d :: rest2 => if d = ',' ∨ d = '.' then some rest2 else none
      | [] => none
    else if c = ',' ∨ c = '.' then some rest
    else none
  | _ => none

/-- `addrCommata.ReplaceAllString(s, ", ")`. -/
def replaceCommata (repl : List Char) : Nat → List Char → List Char
  | 0, l => l
  | _ + 1, [] => []
  | fuel + 1, c :: rest =>
    match matchCommata (c :: rest) with
    | some remaining => repl ++ replaceCommata repl fuel remaining
    | none => c :: replaceCommata repl fuel rest

/-- One `strings.ReplaceAll(s, "  ", " ")` pass. -/
def replacePairSpaces : List Char → List Char
  | ' ' :: ' ' :: rest => ' ' :: replacePairSpaces rest
  | c :: rest => c :: replacePairSpaces rest
  | [] => []

/-- Whether the list contains two adjacent spaces. -/
def hasDoubleSpace : List Char → Bool
  | ' ' :: ' ' :: _ => true
  | _ :: rest => hasDoubleSpace rest
  | [] => false

/-- The `for strings.Contains(s, "  ")` collapse loop (each pass strictly
shortens the string, so the length bounds the iteration count). -/
def collapseLoop : Nat → List Char → List Char
  | 0, l => l
  | fuel + 1, l =>
    if hasDoubleSpace l then collapseLoop fuel (replacePairSpaces l) else l

/-- `AddressType.Clean`. -/
def addressClean (text : String) : String × Bool :=
  let (s, ok) := sanitizeText text
  if ¬ ok then ("", false)
  else
    let l := replaceAllAlts lineBreakAlts ", ".data s.data.length s.data
    let l := replaceCommata ", ".data l.length l
    let l := trimSpaceChars l
    let l := collapseLoop l.length l
    if l = [] then ("", false) else (String.mk l, true)

/-- The cutset of `NameType.Clean`: `"' “”‘’` (double quote, apostrophe,
space and the curly quote runes). -/
def nameTrimSet : List Char :=
  [Char.ofNat 34, Char.ofNat 39, ' ', '“', '”', '‘', '’']

/-- `NameType.Clean`. -/
def nameClean (text : String) : String × Bool :=
  sanitizeText (String.mk (trimSetChars nameTrimSet text.data))

/-- `^[A-Z]{2}[0-9]{2}[A-Z0-9]{1,30}$`. -/
def ibanShape (l : List Char) : Bool :=
  match l with
  | a :: b :: c :: d :: rest =>
    isUpperAlpha a && isUpperAlpha b && c.isDigit && d.isDigit &&
    decide (1 ≤ rest.length) && decide (rest.length ≤ 30) &&
    rest.all isUpperAlnum
  | _ => false

/-- One digit/letter step of the IBAN mod-97 accumulation, with the
periodic reduction the source applies when the integer exceeds 1200 bits
(`BitLen() > 1200` is `2^1200 ≤ n`). -/
def ibanStep (n : Nat) (c : Char) : Nat :=
  let n :=
    if c.isDigit then n * 10 + (c.toNat - 48)
    else n * 100 + (c.toNat - 65 + 10)
  if 2 ^ 1200 ≤ n then n % 97 else n

/-- `normalizeIBAN`. -/
def normalizeIBAN (s : String) : String :=
  let s := goToUpper (replaceAllChar s ' ' "")
  if ¬ ibanShape s.data then ""
  else
    let rearranged := s.data.drop 4 ++ s.data.take 4
    if rearranged.foldl ibanStep 0 % 97 = 1 then s else ""

/-- Uppercase with spaces stripped, as the identifier formats use. -/
def stripSpacesUpper (s : String) : String :=
  goToUpper (replaceAllChar s ' ' "")

/-- `\D` stripped: keep only ASCII digits. -/
def digitsOnly (s : String) : String :=
  filterChars (·.isDigit) s

/-- `^[A-Z]{4}[A-Z]{2}[A-Z0-9]{2}([A-Z0-9]{3})?$`. -/
def bicMatch (l : List Char) : Bool :=
  (l.length = 8 ∨ l.length = 11) &&
  (l.take 6).all isUpperAlpha && (l.drop 6).all isUpperAlnum

/-- `^[A-Z]{2}[A-Z0-9]{9}[0-9]$`. -/
def isinMatch (l : List Char) : Bool :=
  l.length = 12 && (l.take 2).all isUpperAlpha &&
  ((l.drop 2).take 9).all isUpperAlnum &&
  ((l.getLast?.map Char.isDigit).getD false)

/-- `^Q[1-9]\d*$`. -/
def qidMatch (l : List Char) : Bool :=
  match l with
  | 'Q' :: d :: rest => d.isDigit && d ≠ '0' && rest.all (·.isDigit)
  | _ => false

/-- `IdentifierType.Clean` (format-dispatched). -/
def identifierClean (text : String) (format : String) : String × Bool :=
  let (s0, ok) := sanitizeText text
  if ¬ ok then ("", false)
  else
    let s := goTrimSpace s0
    let f := goToLower format
    if f = "iban" then
      let iban := normalizeIBAN s
      if iban ≠ "" then (iban, true) else ("", false)
    else if f = "lei" then
      let u := stripSpacesUpper s
      if u.data.length = 20 ∧ u.data.all isUpperAlnum then (u, true)
      else ("", false)
    else if f = "bic" then
      let u := stripSpacesUpper s
      if bicMatch u.data then (u, true) else ("", false)
    else if f = "isin" then
      let u := stripSpacesUpper s
      if isinMatch u.data then (u, true) else ("", false)
    else if f = "figi" then
      let u := stripSpacesUpper s
      if u.data.length = 12 ∧ u.data.all isUpperAlnum then (u, true)
      else ("", false)
    else if f = "ssn" then
      let digits := digitsOnly s
      if digits.data.length = 9 then (digits, true) else ("", false)
    else if f = "uscc" then
      let u := stripSpacesUpper s
      if u.data.length = 18 ∧ u.data.all isUpperAlnum then (u, true)
      else ("", false)
    else if f = "inn" then
      let digits := digitsOnly s
      if digits.data.length = 10 ∨ digits.data.length = 12 then (digits, true)
      else ("", false)
    else if f = "ogrn" then
      let digits := digitsOnly s
      if digits.data.length = 13 ∨ digits.data.length = 15 then (digits, true)
      else ("", false)
    else if f = "uei" then
      let u := stripSpacesUpper s
      if u.data.length = 12 ∧ u.data.all isUpperAlnum then (u, true)
      else ("", false)
    else if f = "npi" then
      let digits := digitsOnly s
      if digits.data.length = 10 then (digits, true) else ("", false)
    else if f = "imo" then
      let digits := digitsOnly s
      if digits.data.length = 7 then (digits, true) else ("", false)
    else if f = "qid" then
      let u := goToUpper (goTrimSpace s)
      if qidMatch u.data then (u, true) else ("", false)
    else (s, true)

/-! ## The property-type registry -/

/-- The twenty property types of the registry, as a closed tagged set
(the Go code dispatches through the `PropertyType` interface). -/
inductive PType where
  | string | text | html | name | date | number | url | country | email
  | ip | phone | address | language | mimetype | checksum | identifier
  | entity | topic | gender | json
deriving DecidableEq, Repr

/-- `PropertyType.Name()` of each type's constructor. -/
def PType.typeName : PType → String
  | .string => "string"
  | .text => "text"
  | .html => "html"
  | .name => "name"
  | .date => "date"
  | .number => "number"
  | .url => "url"
  | .country => "country"
  | .email => "email"
  | .ip => "ip"
  | .phone => "phone"
  | .address => "address"
  | .language => "language"
  | .mimetype => "mimetype"
  | .checksum => "checksum"
  | .identifier => "identifier"
  | .entity => "entity"
  | .topic => "topic"
  | .gender => "gender"
  | .json => "json"

/-- `PropertyType.Group()`. -/
def PType.group : PType → String
  | .name => "names"
  | .country => "countries"
  | .email => "emails"
  | .ip => "ips"
  | .phone => "phones"
  | .address => "addresses"
  | .language => "languages"
  | .mimetype => "mimetypes"
  | .checksum => "checksums"
  | .identifier => "identifiers"
  | .topic => "topics"
  | .gender => "genders"
  | _ => ""

/-- `PropertyType.Matchable()`. -/
def PType.matchable : PType → Bool
  | .name | .date | .number | .url | .country | .email | .ip | .phone
  | .address | .checksum | .identifier => true
  | _ => false

/-- `PropertyType.Pivot()`. -/
def PType.pivot : PType → Bool
  | .name | .email | .ip | .phone | .address | .checksum | .identifier =>
    true
  | _ => false

/-- `PropertyType.MaxLength()`. -/
def PType.maxLength : PType → Nat
  | .string => 1024
  | .text => 65000
  | .html => 65000
  | .name => 512
  | .url => 4096
  | .country => 16
  | .ip => 64
  | .phone => 64
  | .language => 16
  | .checksum => 40
  | .identifier => 64
  | .topic => 64
  | .gender => 16
  | _ => 0

/-- `PropertyType.TotalSize()` (0 means no aggregate cap). -/
def PType.totalSize : PType → Nat
  | .text => 30 * 1024 * 1024
  | .html => 30 * 1024 * 1024
  | _ => 0

/-- The registry's type list, in `NewRegistry` registration order. -/
def registryTypes : List PType :=
  [.string, .text, .html, .name, .date, .number, .url, .country, .email,
   .ip, .phone, .address, .language, .mimetype, .checksum, .identifier,
   .entity, .topic, .gender, .json]

/-- `Registry.Get` by type name. -/
def registryGet (typeName : String) : Option PType :=
  registryTypes.find? (fun t => t.typeName = typeName)

/-- `Specificity` (only name and identifier override the 0 default among
the claims' types; Go's `len` is the byte length). -/
def PType.specificity : PType → String → Rat
  | .name, value =>
    let n := goLen value
    if n ≤ 3 then 0 else if 50 ≤ n then 1 else ((n : Rat) - 3) / (50 - 3)
  | .identifier, value =>
    let n := goLen value
    if n ≤ 4 then 0 else if 10 ≤ n then 1 else ((n : Rat) - 4) / 6
  | _, _ => 0

/-- `URLType.Compare`: canonicalize both sides and compare scheme, host,
trailing-slash-normalized path and canonical query; equality is weighted
by the URL type's `Specificity` of the canonical string. -/
def urlCompare (left right : String) : Rat :=
  match normalizeURL left, normalizeURL right with
  | some l, some r =>
    if l.scheme = r.scheme ∧ l.host = r.host ∧
        trimSlashSuffix l.path = trimSlashSuffix r.path ∧
        l.rawQuery = r.rawQuery then
      1 * PType.specificity .url (urlString l)
    else 0
  | _, _ => 0

/-! ## Schema model: specifications, records, load and resolution

Go pointers between the model's records (`*Schema`, `*Property`,
`*Model`) are modelled by names: a `Property.range` holds the range
schema's name, a `Property.reverse` holds the `(schema, property)`
locator of the reverse stub.  Go built-in maps are association lists in
insertion order; map iteration order is unspecified in Go and the order
used here is the insertion order. -/

/-- `reverseSpec`. -/
structure ReverseSpec where
  name : String := ""
  label : String := ""
  hidden : Option Bool := none
deriving Repr, DecidableEq

/-- `propertySpec` (the raw, already-parsed YAML record). -/
structure PropertySpec where
  label : String := ""
  description : String := ""
  typeName : String := ""
  hidden : Option Bool := none
  matchable : Option Bool := none
  deprecated : Option Bool := none
  maxLength : Option Int := none
  range : String := ""
  format : String := ""
  reverse : Option ReverseSpec := none
deriving Repr, DecidableEq

/-- `EdgeSpec`. -/
structure EdgeSpec where
  source : String := ""
  target : String := ""
  caption : List String := []
  label : String := ""
  directed : Option Bool := none
deriving Repr, DecidableEq

/-- `TemporalExtentSpec` (`Start`/`End` property-name lists). -/
structure TemporalExtentSpec where
  start : List String := []
  stop : List String := []
deriving Repr, DecidableEq

/-- `schemaSpec` (the raw schema record; `properties` models the Go map,
so its keys are unique). -/
structure SchemaSpec where
  label : String := ""
  plural : String := ""
  schemata : List String := []
  parents : List String := []
  properties : List (String × PropertySpec) := []
  featured : List String := []
  required : List String := []
  caption : List String := []
  edge : EdgeSpec := {}
  temporal : TemporalExtentSpec := {}
  description : String := ""
  abstract : Option Bool := none
  hidden : Option Bool := none
  generated : Option Bool := none
  matchable : Option Bool := none
  deprecated : Option Bool := none
deriving Repr, DecidableEq

/-- `Property` (the resolved record; `schemaName` models the `Schema`
back-pointer, `range` the `*Schema` range pointer, `reverse` the
`*Property` reverse pointer as a `(schema name, property name)` pair). -/
structure Property where
  schemaName : String := ""
  name : String := ""
  qname : String := ""
  label : String := ""
  description : String := ""
  hidden : Bool := false
  matchable : Bool := false
  deprecated : Bool := false
  maxLength : Int := 0
  type : PType := .string
  range : Option String := none
  format : String := ""
  stub : Bool := false
  reverse : Option (String × String) := none
deriving Repr, DecidableEq

/-- `Schema` (the `Schemata`/`Names` ancestry maps are merged into the
name list `names`; `generatedMemo` is the lowercase `generated` memo
flag of the resolution pass). -/
structure Schema where
  name : String := ""
  label : String := ""
  plural : String := ""
  description : String := ""
  abstract : Bool := false
  hidden : Bool := false
  generated : Bool := false
  matchable : Bool := false
  deprecated : Bool := false
  featured : List String := []
  required : List String := []
  caption : List String := []
  edgeSpec : EdgeSpec := {}
  temporal : TemporalExtentSpec := {}
  edge : Bool := false
  edgeDirected : Bool := true
  edgeSource : String := ""
  edgeTarget : String := ""
  edgeCaption : List String := []
  edgeLabel : String := ""
  parents : List String := []
  names : List String := []
  descendants : List String := []
  properties : List (String × Property) := []
  temporalStart : List String := []
  temporalEnd : List String := []
  generatedMemo : Bool := false
deriving Repr, DecidableEq

/-- `Model` (the filesystem fields are outside the embedding: loading
starts from the already-parsed specification list, as §6 of the design
scopes it). -/
structure Model where
  schemata : List (String × Schema) := []
  properties : List (String × Property) := []
  qnames : List (String × Property) := []
  extendsIndex : List (String × List String) := []
  rangeIndex : List (String × String) := []
  reverseIndex : List (String × ReverseSpec) := []
  extendsNames : List (String × List String) := []
deriving Repr, DecidableEq

/-- Equality on `Except` results is decidable componentwise. -/
instance {e a : Type} [DecidableEq e] [DecidableEq a] :
    DecidableEq (Except e a) := fun x y =>
  match x, y with
  | .error u, .error v =>
    if h : u = v then isTrue (by simp [h]) else isFalse (by simp [h])
  | .error _, .ok _ => isFalse (by simp)
  | .ok _, .error _ => isFalse (by simp)
  | .ok u, .ok v =>
    if h : u = v then isTrue (by simp [h]) else isFalse (by simp [h])

/-- Assoc-list lookup (Go map read). -/
def alookup {α : Type} : List (String × α) → String → Option α
  | [], _ => none
  | (k0, v) :: rest, k => if k0 = k then some v else alookup rest k

/-- Assoc-list assignment (Go map write: replace or append). -/
def aset {α : Type} : List (String × α) → String → α → List (String × α)
  | [], k, v => [(k, v)]
  | (k0, v0) :: rest, k, v =>
    if k0 = k then (k0, v) :: rest else (k0, v0) :: aset rest k v

/-- `newProperty`: unknown or empty type names fall back to the string
type; matchable defaults to the type's flag. -/
def newProperty (schemaName : String) (name : String) (spec : PropertySpec) :
    Property :=
  let tName := if spec.typeName = "" then "string" else spec.typeName
  let ptype := (registryGet tName).getD .string
  { schemaName := schemaName
    name := name
    qname := schemaName ++ ":" ++ name
    label := spec.label
    description := spec.description
    hidden := spec.hidden.getD false
    deprecated := spec.deprecated.getD false
    maxLength := spec.maxLength.getD 0
    type := ptype
    format := spec.format
    matchable := spec.matchable.getD ptype.matchable }

/-- `newSchema`: construct one schema from its raw specification without
resolving cross-references; its own properties are installed and the
ancestry is initialized with itself. -/
def newSchema (name : String) (spec : SchemaSpec) : Schema :=
  let label := if spec.label = "" then name else spec.label
  let plural := if spec.plural = "" then label else spec.plural
  let edgeSource := spec.edge.source
  let edgeTarget := spec.edge.target
  { name := name
    label := label
    plural := plural
    description := spec.description
    featured := spec.featured
    required := spec.required
    caption := spec.caption
    edgeSpec := spec.edge
    temporal := spec.temporal
    abstract := spec.abstract.getD false
    hidden := spec.hidden.getD false
    generated := spec.generated.getD false
    matchable := spec.matchable.getD false
    deprecated := spec.deprecated.getD false
    edgeSource := edgeSource
    edgeTarget := edgeTarget
    edge := edgeSource ≠ "" ∧ edgeTarget ≠ ""
    edgeCaption := spec.edge.caption
    edgeLabel := spec.edge.label
    edgeDirected := spec.edge.directed.getD true
    temporalStart := spec.temporal.start
    temporalEnd := spec.temporal.stop
    properties :=
      spec.properties.foldl
        (fun ps p => aset ps p.1 (newProperty name p.1 p.2)) []
    names := [name] }

/-- Collect one property specification's range and reverse declarations
into the model's resolution indexes (the per-property loop body of
`loadAll`). -/
def indexProp (name : String) (m : Model) (p : String × PropertySpec) :
    Model :=
  let qname := name ++ ":" ++ p.1
  let m :=
    if p.2.range ≠ "" then
      { m with rangeIndex := aset m.rangeIndex qname p.2.range }
    else m
  match p.2.reverse with
  | some rs => { m with reverseIndex := aset m.reverseIndex qname rs }
  | none => m

/-- Register one raw schema into the model (the per-file loop body of
`loadAll`): construct the schema, reject duplicate names, and collect
the extends names and the per-property range/reverse indexes. -/
def registerSpec (m : Model) (sp : String × SchemaSpec) :
    Except String Model :=
  let (name, spec) := sp
  let sc := newSchema name spec
  if (alookup m.schemata name).isSome then
    .error ("duplicate schema name: " ++ name)
  else
    let m := { m with schemata := m.schemata ++ [(name, sc)] }
    let m :=
      if spec.parents ≠ [] then
        let en := aset m.extendsNames name
          ((alookup m.extendsNames name).getD [] ++ spec.parents)
        { m with extendsNames := en }
      else m
    .ok (spec.properties.foldl (indexProp name) m)

/-- Resolve one extends name: an unknown parent is fatal; otherwise the
child-to-parent link is registered. -/
def checkParent (child : String) (m : Model) (parentName : String) :
    Except String Model :=
  if (alookup m.schemata parentName).isNone then
    .error ("invalid extends: " ++ child ++ " -> " ++ parentName)
  else
    let ei := aset m.extendsIndex child
      ((alookup m.extendsIndex child).getD [] ++ [parentName])
    .ok { m with extendsIndex := ei }

/-- Resolve one child's declared parent list. -/
def resolveParentsEntry (m : Model) (ch : String × List String) :
    Except String Model :=
  ch.2.foldlM (checkParent ch.1) m

/-- `Model.loadAll` from the parsed specification list: register each
schema (duplicate names are fatal), then resolve the extends names now
that all schemata are loaded (an unknown parent is fatal). -/
def loadAll (specs : List (String × SchemaSpec)) : Except String Model := do
  let m ← specs.foldlM registerSpec ({} : Model)
  m.extendsNames.foldlM resolveParentsEntry m

/-- Merge one generated parent into a child (the body of the extends loop
of `Schema.Generate`): skipped when the parent is already among the
child's ancestry; otherwise inherit the parent's properties for names
not yet bound, merge the ancestry closure, and record the child as a
descendant of every inherited ancestor. -/
def mergeParent (m : Model) (childName parentName : String) : Model :=
  match alookup m.schemata childName, alookup m.schemata parentName with
  | some s, some parent =>
    if s.names.contains parentName then m
    else
      let s := { s with
        parents := s.parents ++ [parentName]
        properties := parent.properties.foldl
          (fun ps p =>
            if (alookup ps p.1).isSome then ps else ps ++ [p])
          s.properties
        names := s.names ++ parent.names.filter (fun n => ¬ s.names.contains n) }
      let m := { m with schemata := aset m.schemata childName s }
      parent.names.foldl
        (fun m n =>
          match alookup m.schemata n with
          | some anc =>
            let anc :=
              if anc.descendants.contains childName then anc
              else { anc with descendants := anc.descendants ++ [childName] }
            { m with schemata := aset m.schemata n anc }
          | none => m)
        m
  | _, _ => m

/-- Resolve the range and reverse stub of one entity-typed property (the
body of the range loop of `Schema.Generate`). -/
def resolveOneProp (m : Model) (schemaName propName : String) : Model :=
  match alookup m.schemata schemaName with
  | none => m
  | some s =>
    match alookup s.properties propName with
    | none => m
    | some prop =>
      if prop.type.typeName ≠ PType.entity.typeName then m
      else
        let prop :=
          if prop.range.isNone then
            match alookup m.rangeIndex prop.qname with
            | some rngName =>
              if rngName ≠ "" ∧ (alookup m.schemata rngName).isSome then
                { prop with range := some rngName }
              else prop
            | none => prop
          else prop
        let m := { m with schemata := (aset m.schemata schemaName
          ({ s with properties := aset s.properties propName prop })) }
        if prop.reverse.isSome then m
        else
          match alookup m.reverseIndex prop.qname, prop.range with
          | some rs, some rngName =>
            match alookup m.schemata rngName with
            | none => m
            | some target =>
              let m :=
                if (alookup target.properties rs.name).isSome then m
                else
                  let rev : Property :=
                    { schemaName := rngName
                      name := rs.name
                      qname := rngName ++ ":" ++ rs.name
                      label := rs.label
                      hidden := rs.hidden.getD prop.hidden
                      type := .entity
                      range := some schemaName
                      stub := true }
                  { m with schemata := (aset m.schemata rngName
                      ({ target with
                         properties := aset target.properties rs.name rev })) }
              match alookup m.schemata schemaName with
              | none => m
              | some s2 =>
                match alookup s2.properties propName with
                | none => m
                | some prop2 =>
                  { m with schemata := (aset m.schemata schemaName
                      ({ s2 with properties := (aset s2.properties propName
                          ({ prop2 with
                             reverse := some (rngName, rs.name) })) })) }
          | _, _ => m

/-- `Schema.Generate`, memoized over the whole model state: parents are
generated first (recursively, bounded by `fuel`; the Go recursion is
unbounded and assumes an acyclic extends graph), then merged in
declaration order, then ranges and reverse stubs are resolved. -/
def generateSchema : Nat → Model → String → Model
  | 0, m, _ => m
  | fuel + 1, m, name =>
    match alookup m.schemata name with
    | none => m
    | some s =>
      if s.generatedMemo then m
      else
        let parentNames := (alookup m.extendsIndex name).getD []
        let m := parentNames.foldl
          (fun m pname =>
            mergeParent (generateSchema fuel m pname) name pname)
          m
        let m :=
          match alookup m.schemata name with
          | none => m
          | some s1 =>
            (s1.properties.map Prod.fst).foldl
              (fun m pn => resolveOneProp m name pn) m
        match alookup m.schemata name with
        | none => m
        | some s2 =>
          { m with schemata := (aset m.schemata name
              ({ s2 with generatedMemo := true })) }

/-- `Model.Generate`: resolve every schema (the Go error is always nil),
then build the property and qname indexes. -/
def generateModel (m : Model) : Model :=
  let names := m.schemata.map Prod.fst
  let m := names.foldl (fun m n => generateSchema (names.length + 1) m n) m
  m.schemata.foldl
    (fun m sp =>
      sp.2.properties.foldl
        (fun m p =>
          { m with qnames := aset m.qnames p.2.qname p.2,
                   properties := aset m.properties p.2.qname p.2 })
        m)
    m

/-- `NewModel` from parsed specifications: load, then resolve. -/
def loadModel (specs : List (String × SchemaSpec)) : Except String Model := do
  let m ← loadAll specs
  pure (generateModel m)

/-- `Model.Get`. -/
def Model.get (m : Model) (name : String) : Option Schema :=
  alookup m.schemata name

/-- `Schema.Get`. -/
def Schema.get (s : Schema) (name : String) : Option Property :=
  alookup s.properties name

/-- `Schema.IsA`: membership of the candidate name in the reflexive
ancestry closure. -/
def Schema.isA (s : Schema) (candidate : String) : Bool :=
  s.names.contains candidate

/-- `Model.CommonSchema` (the receiver is unused by the Go body); returns
the more specific of two comparable schemata. -/
def commonSchema (left right : Option Schema) : Except String Schema :=
  match left, right with
  | some l, some r =>
    if l.isA r.name then .ok l
    else if r.isA l.name then .ok r
    else .error ("no common schema: " ++ l.name ++ " and " ++ r.name)
  | _, _ => .error "invalid schema"

/-! ## EntityProxy -/

/-- Assoc-list deletion (Go map `delete`). -/
def adelete {α : Type} : List (String × α) → String → List (String × α)
  | [], _ => []
  | (k0, v0) :: rest, k =>
    if k0 = k then adelete rest k else (k0, v0) :: adelete rest k

/-- `EntityProxy` (the `KeyPrefix`/`MakeID` hashing and the untyped
`Context` values are outside the settled claims; context values are
modelled as strings). -/
structure EntityProxy where
  schema : Schema
  id : String
  context : List (String × String) := []
  props : List (String × List String) := []
  size : Nat := 0
deriving Repr, DecidableEq

/-- `NewEntityProxy`. -/
def newEntityProxy (schema : Schema) (id : String) : EntityProxy :=
  { schema := schema, id := id }

/-- `EntityProxy.GetTypeValues`: all values of the given type across the
entity's properties, deduplicated in iteration order. -/
def EntityProxy.getTypeValues (e : EntityProxy) (pt : PType)
    (matchableOnly : Bool) : List String :=
  e.props.foldl
    (fun out nv =>
      match alookup e.schema.properties nv.1 with
      | none => out
      | some p =>
        if matchableOnly ∧ ¬ p.matchable then out
        else if p.type.typeName = pt.typeName then
          nv.2.foldl (fun out v => if out.contains v then out else out ++ [v])
            out
        else out)
    []

/-- `EntityProxy.Countries`. -/
def EntityProxy.countries (e : EntityProxy) : List String :=
  e.getTypeValues .country false

/-- `DateType.Clean`. -/
def dateClean (text : String) : String × Bool :=
  let (s, ok) := sanitizeText text
  if ¬ ok then ("", false)
  else
    let s := goTrimSpace s
    let s := filterChars (fun c => c.isDigit ∨ c = '-') s
    if dateValidate s then (s, true) else ("", false)

/-- `NumberType.Clean`. -/
def numberClean (text : String) : String × Bool :=
  let (s, ok) := sanitizeText text
  if ¬ ok then ("", false)
  else
    let s := goTrimSpace s
    let s := replaceAllChar s ',' ""
    if parseFloatOk s then (s, true) else ("", false)

/-- `CountryType.Clean`. -/
def countryClean (text : String) : String × Bool :=
  let (s, ok) := sanitizeText text
  if ¬ ok then ("", false)
  else
    let s := goToLower (goTrimSpace s)
    if countryValidate s then (s, true) else ("", false)

/-- `LanguageType.Clean`. -/
def languageClean (text : String) : String × Bool :=
  let code := goToLower (goTrimSpace text)
  if languageWhitelist.contains code then (code, true) else ("", false)

/-- `MimeType.Clean`. -/
def mimeClean (text : String) : String × Bool :=
  let (s, ok) := sanitizeText text
  if ¬ ok then ("", false)
  else
    let s := goToLower (goTrimSpace s)
    if s = "" ∨ s = "application/octet-stream" then ("", false)
    else if mimeMatch s then (s, true)
    else ("", false)

/-- `ChecksumType.Clean`. -/
def checksumClean (text : String) : String × Bool :=
  let (s, ok) := sanitizeText text
  if ¬ ok then ("", false)
  else
    let s := goToLower (goTrimSpace s)
    if sha1HexMatch s then (s, true) else ("", false)

/-- `TopicType.Clean`. -/
def topicClean (text : String) : String × Bool :=
  let v := goToLower (goTrimSpace text)
  if topicKeys.contains v then (v, true) else ("", false)

/-- `Clean(text, fuzzy, format, proxy)` dispatched per type; only the
identifier type reads `format` and only the phone type reads the owning
proxy (its country values as region hints). -/
def PType.clean : PType → String → Bool → String → Option EntityProxy →
    String × Bool
  | .string, txt, _, _, _ => sanitizeText txt
  | .text, txt, _, _, _ => sanitizeText txt
  | .html, txt, _, _, _ => sanitizeText txt
  | .name, txt, _, _, _ => nameClean txt
  | .date, txt, _, _, _ => dateClean txt
  | .number, txt, _, _, _ => numberClean txt
  | .url, txt, _, _, _ => urlClean txt
  | .country, txt, _, _, _ => countryClean txt
  | .email, txt, _, _, _ => emailClean txt
  | .ip, txt, _, _, _ => ipClean txt
  | .phone, txt, _, _, proxy =>
    phoneClean txt (match proxy with
      | some e => e.countries
      | none => [])
  | .address, txt, _, _, _ => addressClean txt
  | .language, txt, _, _, _ => languageClean txt
  | .mimetype, txt, _, _, _ => mimeClean txt
  | .checksum, txt, _, _, _ => checksumClean txt
  | .identifier, txt, _, format, _ => identifierClean txt format
  | .entity, txt, _, _, _ => sanitizeText txt
  | .topic, txt, _, _, _ => topicClean txt
  | .gender, txt, _, _, _ => genderClean txt
  | .json, raw, _, _, _ => jsonClean raw

/-- `EntityProxy.getProp`. -/
def EntityProxy.getProp (e : EntityProxy) (name : String) (quiet : Bool) :
    Except String (Option Property) :=
  match alookup e.schema.properties name with
  | some p => .ok (some p)
  | none =>
    if quiet then .ok none else .error ("unknown property: " ++ name)

/-- One raw value of the `Add` loop: clean (against the current state of
the proxy), skip on failed/empty cleaning, on the aggregate size cap, or
on duplication; otherwise append and count the byte length. -/
def addRaw (p : Property) (name : String) (fuzzy : Bool)
    (st : EntityProxy × List String) (raw : String) :
    EntityProxy × List String :=
  let (e, seen) := st
  let (cl, ok) := p.type.clean raw fuzzy p.format (some e)
  if ¬ ok ∨ cl = "" then (e, seen)
  else if p.type.totalSize > 0 ∧ p.type.totalSize < e.size + goLen cl then
    (e, seen)
  else if seen.contains cl then (e, seen)
  else
    let vs := (alookup e.props name).getD []
    ({ e with props := aset e.props name (vs ++ [cl]),
              size := e.size + goLen cl },
      seen ++ [cl])

/-- `EntityProxy.Add` (the trailing `format` argument is accepted but,
as in the source, the property's own `Format` is what `Clean` sees). -/
def EntityProxy.add (e : EntityProxy) (name : String) (values : List String)
    (fuzzy : Bool) (format : String) : Except String EntityProxy :=
  let _ := format
  match e.getProp name false with
  | .error err => .error err
  | .ok none => .ok e
  | .ok (some p) =>
    if p.stub then .error "stub property cannot be written"
    else
      let e :=
        if (alookup e.props name).isNone then
          { e with props := aset e.props name [] }
        else e
      let seen := (alookup e.props name).getD []
      .ok (values.foldl (addRaw p name fuzzy) (e, seen)).1

/-- `EntityProxy.UnsafeAdd`: single pre-sanitized value; returns the new
state with the `(clean, ok)` result pair. -/
def EntityProxy.unsafeAdd (e : EntityProxy) (p : Property) (value : String)
    (fuzzy : Bool) : EntityProxy × String × Bool :=
  let (cl, ok) := p.type.clean value fuzzy p.format (some e)
  if ¬ ok ∨ cl = "" then (e, "", false)
  else if p.stub then (e, "", false)
  else
    let e :=
      if (alookup e.props p.name).isNone then
        { e with props := aset e.props p.name [] }
      else e
    let cur := (alookup e.props p.name).getD []
    if cur.contains cl then (e, cl, true)
    else if p.type.totalSize > 0 ∧ p.type.totalSize < e.size + goLen cl then
      (e, "", false)
    else
      ({ e with props := aset e.props p.name (cur ++ [cl]),
                size := e.size + goLen cl },
        cl, true)

/-- `EntityProxy.Set`: drop the existing values, then `Add`. -/
def EntityProxy.set (e : EntityProxy) (name : String) (values : List String)
    (fuzzy : Bool) (format : String) : Except String EntityProxy :=
  EntityProxy.add { e with props := adelete e.props name } name values fuzzy
    format

/-- `EntityProxy.Merge`: the ID is settled before the common-schema check
(so a failed merge still rewrote the ID, as in the source); the second
component is the error, `none` on success. -/
def EntityProxy.merge (e other : EntityProxy) :
    EntityProxy × Option String :=
  let e := { e with id := if e.id ≠ "" then e.id else other.id }
  match commonSchema (some e.schema) (some other.schema) with
  | .error err => (e, some ("cannot merge entities: " ++ err))
  | .ok schema =>
    let e := { e with schema := schema }
    let e := other.context.foldl
      (fun e kv =>
        if (alookup e.context kv.1).isSome then e
        else { e with context := e.context ++ [kv] })
      e
    let e := other.props.foldl
      (fun e nv =>
        match e.add nv.1 nv.2 true "" with
        | .ok e2 => e2
        | .error _ => e)
      e
    (e, none)

/-! ## Statements and aggregation -/

/-- `BaseID`: the property name that encodes the entity ID itself. -/
def BaseID : String := "id"

/-- `Statement`. -/
structure Statement where
  id : String := ""
  entityID : String := ""
  canonicalID : String := ""
  prop : String := ""
  schema : String := ""
  value : String := ""
  dataset : String := ""
  lang : String := ""
  original : String := ""
  external : Bool := false
  firstSeen : String := ""
  lastSeen : String := ""
  origin : String := ""
deriving Repr, DecidableEq

/-- `MakeStatementKey`: SHA-1 of `dataset.entityID.prop.value` with an
`.ext` suffix for external statements; empty when prop or value is. -/
def makeStatementKey (dataset entityID prop value : String)
    (external : Bool) : String :=
  if prop = "" ∨ value = "" then ""
  else
    let key := dataset ++ "." ++ entityID ++ "." ++ prop ++ "." ++ value
    let key := if external then key ++ ".ext" else key
    hexEncode (sha1 (strBytes key))

/-- `Statement.MakeKey` (returns the statement with its ID set). -/
def Statement.makeKey (s : Statement) : Statement :=
  let k := makeStatementKey s.dataset s.entityID s.prop s.value s.external
  { s with id := k }

/-- `Statement.GroupKey`: canonical ID, falling back to the entity ID. -/
def Statement.groupKey (s : Statement) : String :=
  if s.canonicalID ≠ "" then s.canonicalID else s.entityID

/-- `ifEmpty`. -/
def ifEmpty (v alt : String) : String :=
  if v = "" then alt else v

/-- `StatementsFromEntity`: one base-identity statement, then one
statement per held property value, all carrying the same provenance. -/
def statementsFromEntity (e : EntityProxy) (dataset firstSeen lastSeen :
    String) (external : Bool) (origin : String) : List Statement :=
  if e.id = "" then []
  else
    let mk := fun (prop value : String) =>
      Statement.makeKey
        { entityID := e.id, canonicalID := e.id, prop := prop,
          schema := e.schema.name, value := value, dataset := dataset,
          external := external, firstSeen := firstSeen,
          lastSeen := ifEmpty lastSeen firstSeen, origin := origin }
    mk BaseID e.id ::
      e.props.flatMap (fun nv => nv.2.map (fun v => mk nv.1 v))

/-- Stable insertion of a statement by group key (used to model the
`sort.Slice` call; Go's sort is unstable and its order on equal keys is
unspecified — the embedding fixes the stable order). -/
def insertByKey (s : Statement) : List Statement → List Statement
  | [] => [s]
  | t :: ts =>
    if ¬ goStrLt s.groupKey t.groupKey then t :: insertByKey s ts
    else s :: t :: ts

/-- The `sort.Slice(st, GroupKey <)` call, as a stable sort. -/
def sortStatements (st : List Statement) : List Statement :=
  st.foldl (fun acc s => insertByKey s acc) []

/-- Recovering `_ = cur.Add(...)`: the error is discarded and the failed
call left the proxy untouched. -/
def addQuiet (e : EntityProxy) (prop value : String) : EntityProxy :=
  match e.add prop [value] true "" with
  | .ok e2 => e2
  | .error _ => e

/-- The grouping loop of `AggregateSortedStatements`.  In the
unknown-schema path the Go code appends the in-progress pointer to the
output and keeps mutating it; the embedding's value semantics snapshot
the flushed entity instead (the settled claims do not reach that path). -/
def aggLoop (m : Model) : List Statement → Option (EntityProxy × String) →
    List EntityProxy → List EntityProxy
  | [], cur, out =>
    (match cur with
     | some (c, _) => out ++ [c]
     | none => out)
  | s :: rest, cur, out =>
    let key := s.groupKey
    match cur with
    | some (c, curKey) =>
      if key = curKey then
        let c := if s.prop = BaseID then c else addQuiet c s.prop s.value
        aggLoop m rest (some (c, curKey)) out
      else
        let out := out ++ [c]
        match m.get s.schema with
        | none => aggLoop m rest (some (c, curKey)) out
        | some sc =>
          let c2 := newEntityProxy sc key
          let c2 := if s.prop = BaseID then c2
                    else addQuiet c2 s.prop s.value
          aggLoop m rest (some (c2, key)) out
    | none =>
      match m.get s.schema with
      | none => aggLoop m rest none out
      | some sc =>
        let c2 := newEntityProxy sc key
        let c2 := if s.prop = BaseID then c2 else addQuiet c2 s.prop s.value
        aggLoop m rest (some (c2, key)) out

/-- `AggregateSortedStatements`: sort by group key, then group into
fresh proxies; the base-identity statement only anchors the key. -/
def aggregateSortedStatements (m : Model) (st : List Statement) :
    List EntityProxy :=
  if st = [] then [] else aggLoop m (sortStatements st) none []

/-- `StatementAggregator`: the streaming engine's two-field state. -/
structure StatementAggregator where
  m : Model
  cur : Option EntityProxy := none
  key : String := ""
deriving Repr

/-- `NewStatementAggregator`. -/
def newStatementAggregator (m : Model) : StatementAggregator :=
  { m := m }

/-- `StatementAggregator.Add`: returns the completed previous entity when
the group key changes, `none` otherwise. -/
def StatementAggregator.add (sa : StatementAggregator) (s : Statement) :
    StatementAggregator × Option EntityProxy :=
  let gk := s.groupKey
  if sa.cur.isNone ∨ gk ≠ sa.key then
    let done := sa.cur
    match sa.m.get s.schema with
    | none => (sa, done)
    | some sc =>
      let cur := newEntityProxy sc gk
      let cur := if s.prop ≠ BaseID then addQuiet cur s.prop s.value
                 else cur
      ({ sa with cur := some cur, key := gk }, done)
  else
    match sa.cur with
    | some c =>
      let c := if s.prop ≠ BaseID then addQuiet c s.prop s.value else c
      ({ sa with cur := some c }, none)
    | none => (sa, none)

/-- `StatementAggregator.Flush`: hand out the in-progress entity. -/
def StatementAggregator.flush (sa : StatementAggregator) :
    StatementAggregator × Option EntityProxy :=
  ({ sa with cur := none, key := "" }, sa.cur)

/-! ## Namespace signing (`namespace.go`) -/

/-- `Namespace`: an HMAC key over entity IDs (`key` holds the bytes; nil
for the empty name). -/
structure Namespace where
  key : List Nat
deriving Repr, DecidableEq

/-- `NewNamespace`. -/
def newNamespace (name : String) : Namespace :=
  if name = "" then ⟨[]⟩ else ⟨strBytes name⟩

/-- `Namespace.Parse`: split an ID into plain and signature parts at the
final dot (the Go receiver is unused). -/
def nsParse (entityID : String) : String × String :=
  if entityID = "" then ("", "")
  else
    let parts := goSplit entityID '.'
    if parts.length < 2 then (entityID, "")
    else (goJoin parts.dropLast '.', (parts.getLast?).getD "")

/-- `Namespace.signature`. -/
def Namespace.signature (ns : Namespace) (plain : String) : String :=
  if ns.key = [] ∨ plain = "" then ""
  else hexEncode (hmacSha1 ns.key (strBytes plain))

/-- `Namespace.Sign`: strip any existing signature part, then re-sign. -/
def Namespace.sign (ns : Namespace) (entityID : String) : String :=
  let plain := (nsParse entityID).1
  if ns.key = [] then plain
  else if plain = "" then ""
  else
    let sig := ns.signature plain
    if sig = "" then plain else plain ++ "." ++ sig

/-- `Namespace.Verify` (`hmac.Equal` is byte equality). -/
def Namespace.verify (ns : Namespace) (entityID : String) : Bool :=
  let (plain, sig) := nsParse entityID
  if plain = "" ∨ sig = "" then false
  else sig = ns.signature plain

/-! ## Concrete fixtures used by the theorems -/

/-- A one-schema model: `Person` with a name-typed `name` property. -/
def personSpecs : List (String × SchemaSpec) :=
  [("Person",
    { label := "Person", properties := [("name", { typeName := "name" })] })]

/-- The resolved `Person` model. -/
def personModel : Model :=
  ((loadModel personSpecs).toOption).getD {}

/-- The four statements of the streaming scenario, in group-key order. -/
def c3Statements : List Statement :=
  [{ entityID := "a", canonicalID := "a", prop := BaseID,
     schema := "Person", value := "a", dataset := "ds" },
   { entityID := "a", canonicalID := "a", prop := "name",
     schema := "Person", value := "Ana", dataset := "ds" },
   { entityID := "b", canonicalID := "b", prop := BaseID,
     schema := "Person", value := "b", dataset := "ds" },
   { entityID := "b", canonicalID := "b", prop := "name",
     schema := "Person", value := "Bob", dataset := "ds" }]

/-- Drive the streaming aggregator over a statement list: the first
component collects every non-`none` return of `Add` in order, the second
is the final `Flush` result. -/
def streamCollect (m : Model) (sts : List Statement) :
    List EntityProxy × Option EntityProxy :=
  let r := sts.foldl
    (fun (st : StatementAggregator × List EntityProxy) s =>
      let (sa, out) := st.1.add s
      (sa, match out with
           | some e => st.2 ++ [e]
           | none => st.2))
    (newStatementAggregator m, [])
  (r.2, (r.1.flush).2)

/-- A one-schema model with an address-typed and an identifier-typed
property. -/
def thingSpecs : List (String × SchemaSpec) :=
  [("Thing",
    { properties := [("address", { typeName := "address" }),
                     ("ident", { typeName := "identifier" }),
                     ("notes", { typeName := "text" })] })]

/-- The resolved `Thing` model. -/
def thingModel : Model :=
  ((loadModel thingSpecs).toOption).getD {}

/-- The resolved `Thing` schema. -/
def thingSchema : Schema :=
  (thingModel.get "Thing").getD {}

/-- An entity holding the address value cleaned from `",,,"`. -/
def cex1Entity : EntityProxy :=
  match (newEntityProxy thingSchema "t1").add "address" [",,,"] false "" with
  | .ok e => e
  | .error _ => newEntityProxy thingSchema "t1"

/-- A 65-rune identifier value (the identifier type caps at 64). -/
def longIdent : String :=
  String.mk (List.replicate 65 'a')

/-- A model whose only schema declares an entity-typed property with an
unknown range schema name. -/
def cex4Specs : List (String × SchemaSpec) :=
  [("Thing2",
    { properties := [("other", { typeName := "entity", range := "Nope" })] })]

/-- A two-schema model: `Child` extends `Par`. -/
def childParentSpecs : List (String × SchemaSpec) :=
  [("Child", { parents := ["Par"] }), ("Par", {})]

/-- The resolved child/parent model. -/
def childParentModel : Model :=
  ((loadModel childParentSpecs).toOption).getD {}

/-- The reachable states of an `EntityProxy` under its write protocol:
freshly created, or the successful result of `Add`/`Set`, or the state
after `UnsafeAdd`, or the state after `Merge` (including failed merges,
which still rewrote the ID). -/
inductive Reach : EntityProxy → Prop where
  | new (schema : Schema) (id : String) : Reach (newEntityProxy schema id)
  | add (e : EntityProxy) (name : String) (values : List String)
      (fuzzy : Bool) (format : String) (e2 : EntityProxy) (h : Reach e)
      (hok : e.add name values fuzzy format = .ok e2) : Reach e2
  | set (e : EntityProxy) (name : String) (values : List String)
      (fuzzy : Bool) (format : String) (e2 : EntityProxy) (h : Reach e)
      (hok : e.set name values fuzzy format = .ok e2) : Reach e2
  | uadd (e : EntityProxy) (p : Property) (value : String) (fuzzy : Bool)
      (h : Reach e) : Reach (e.unsafeAdd p value fuzzy).1
  | merge (e o : EntityProxy) (he : Reach e) (ho : Reach o) :
      Reach (e.merge o).1

/-- Duplicate-freedom of every stored value list. -/
def NodupProps (e : EntityProxy) : Prop :=
  ∀ n vs, alookup e.props n = some vs → vs.Nodup

/-- An entity built by one `Add` of three raw identifier values with one
duplicate. -/
def dedupeEntity : EntityProxy :=
  match (newEntityProxy thingSchema "w6").add "ident" ["a", "b", "a"]
      false "" with
  | .ok e => e
  | .error _ => newEntityProxy thingSchema "w6"

/-- An entity three bytes under the text type's aggregate cap. -/
def nearCapEntity : EntityProxy :=
  { schema := thingSchema, id := "w7", size := 30 * 1024 * 1024 - 3 }

def entStatement (e : EntityProxy) (ds fs ls : String) (ext : Bool)
    (org : String) (prop value : String) : Statement :=
  Statement.makeKey
    { entityID := e.id, canonicalID := e.id, prop := prop,
      schema := e.schema.name, value := value, dataset := ds,
      external := ext, firstSeen := fs, lastSeen := ifEmpty ls fs,
      origin := org }

def C1Conds (sc : Schema) (nv : String × List String) : Prop :=
  ∃ p, alookup sc.properties nv.1 = some p ∧ p.stub = false ∧
    p.type.totalSize = 0 ∧ nv.1 ≠ BaseID ∧ nv.2.Nodup ∧
    ∀ v ∈ nv.2, v ≠ "" ∧
      ∀ ctx, p.type.clean v true p.format ctx = (v, true)

def personSchema : Schema :=
  (personModel.get "Person").getD {}

def c1Entity : EntityProxy :=
  { schema := personSchema, id := "w7", props := [("name", ["Ana"])] }

def c1NameProp : Property :=
  { schemaName := "Person", name := "name", qname := "Person:name",
    matchable := true, type := PType.name }

def c2SpecA (pa : SchemaSpec) : SchemaSpec := { pa with parents := ["B"] }

def c2SpecB (pb : SchemaSpec) : SchemaSpec := { pb with parents := ["C"] }

def c2SpecC (pc : SchemaSpec) : SchemaSpec := { pc with parents := [] }

def c2Specs (pa pb pc : SchemaSpec) : List (String × SchemaSpec) :=
  [("A", c2SpecA pa), ("B", c2SpecB pb), ("C", c2SpecC pc)]

def c2Loaded (pa pb pc : SchemaSpec) : Model :=
  { schemata := [("A", newSchema "A" (c2SpecA pa)),
                 ("B", newSchema "B" (c2SpecB pb)),
                 ("C", newSchema "C" (c2SpecC pc))],
    extendsNames := [("A", ["B"]), ("B", ["C"])],
    extendsIndex := [("A", ["B"]), ("B", ["C"])] }

def mergeProps (child parent : List (String × Property)) :
    List (String × Property) :=
  parent.foldl
    (fun ps p => if (alookup ps p.1).isSome then ps else ps ++ [p]) child

def c2SA0 (pa : SchemaSpec) : Schema := newSchema "A" (c2SpecA pa)

def c2SB0 (pb : SchemaSpec) : Schema := newSchema "B" (c2SpecB pb)

def c2SC0 (pc : SchemaSpec) : Schema := newSchema "C" (c2SpecC pc)

def c2SC1 (pc : SchemaSpec) : Schema :=
  { c2SC0 pc with generatedMemo := true }

def c2SB1 (pb pc : SchemaSpec) : Schema :=
  { c2SB0 pb with parents := ["C"], properties := mergeProps (c2SB0 pb).properties (c2SC0 pc).properties, names := ["B", "C"] }

def c2SC2 (pc : SchemaSpec) : Schema :=
  { c2SC1 pc with descendants := ["B"] }

def c2SB2 (pb pc : SchemaSpec) : Schema :=
  { c2SB1 pb pc with generatedMemo := true }

def c2SA1 (pa pb pc : SchemaSpec) : Schema :=
  { c2SA0 pa with parents := ["B"], properties := mergeProps (c2SA0 pa).properties (c2SB1 pb pc).properties, names := ["A", "B", "C"] }

def c2SB3 (pb pc : SchemaSpec) : Schema :=
  { c2SB2 pb pc with descendants := ["A"] }

def c2SC3 (pc : SchemaSpec) : Schema :=
  { c2SC2 pc with descendants := ["B", "A"] }

def c2SA2 (pa pb pc : SchemaSpec) : Schema :=
  { c2SA1 pa pb pc with generatedMemo := true }

def c2WSpecA : SchemaSpec :=
  { properties := [("name", { typeName := "name" })] }

def c2WSpecB : SchemaSpec :=
  { properties := [("title", { typeName := "string" })] }

def c2WSpecC : SchemaSpec :=
  { properties := [("name", { typeName := "string" }),
                   ("notes", { typeName := "text" })] }

end Ftm

namespace Ftm

/-! ## Basic lemmas on the assoc-list and string helpers -/

theorem alookup_aset_self {α : Type} (l : List (String × α)) (k : String)
    (v : α) : alookup (aset l k v) k = some v := by
  induction l with
  | nil => simp [aset, alookup]
  | cons kv rest ih =>
    cases kv with
    | mk k0 v0 =>
      by_cases h : k0 = k
      · simp [aset, h, alookup]
      · simp [aset, h, alookup, ih]

theorem alookup_aset_ne {α : Type} (l : List (String × α)) (k k2 : String)
    (v : α) (h : k2 ≠ k) : alookup (aset l k v) k2 = alookup l k2 := by
  induction l with
  | nil => simp [aset, alookup, Ne.symm h]
  | cons kv rest ih =>
    cases kv with
    | mk k0 v0 =>
      by_cases h0 : k0 = k
      · subst h0
        simp [aset, alookup, Ne.symm h]
      · simp [aset, h0, alookup, ih]

theorem alookup_adelete_self {α : Type} (l : List (String × α))
    (k : String) : alookup (adelete l k) k = none := by
  induction l with
  | nil => simp [adelete, alookup]
  | cons kv rest ih =>
    cases kv with
    | mk k0 v0 =>
      by_cases h : k0 = k
      · simpa [adelete, h] using ih
      · simpa [adelete, h, alookup] using ih

theorem alookup_adelete_ne {α : Type} (l : List (String × α))
    (k k2 : String) (h : k2 ≠ k) :
    alookup (adelete l k) k2 = alookup l k2 := by
  induction l with
  | nil => simp [adelete, alookup]
  | cons kv rest ih =>
    cases kv with
    | mk k0 v0 =>
      by_cases h0 : k0 = k
      · subst h0
        simp [adelete, alookup, Ne.symm h, ih]
      · simp [adelete, h0, alookup, ih]

theorem bytesLt_irrefl (l : List Nat) : bytesLt l l = false := by
  induction l with
  | nil => rfl
  | cons a as ih => simp [bytesLt, ih]

theorem goStrLt_irrefl (s : String) : goStrLt s s = false := by
  simp [goStrLt, bytesLt_irrefl]

/-! ## C3: the streaming aggregation scenario -/

/-- C3: feeding the streaming aggregator the four pre-sorted statements
`[a: base, a: name=Ana, b: base, b: name=Bob]` yields, among the non-nil
returns of `Add`, exactly the completed entity `a` (name `Ana`); the
final `Flush` — and only it — returns entity `b` (name `Bob`), so the
two completed entities appear in order `a`, `b`. -/
theorem c3_stream_scenario :
    ((streamCollect personModel c3Statements).1.map
      fun e => (e.id, e.schema.name, e.props)) =
      [("a", "Person", [("name", ["Ana"])])] ∧
    ((streamCollect personModel c3Statements).2.map
      fun e => (e.id, e.schema.name, e.props)) =
      some ("b", "Person", [("name", ["Bob"])]) := by
  decide

/-! ## C5: CommonSchema returns the descendant, not the ancestor -/

/-- C5 counterexample: in the `Child extends Par` model, `Par` is the
ancestor of `Child`, yet `CommonSchema(Child, Par)` returns `Child` —
the descendant — refuting the claim that it returns whichever argument
is an ancestor of the other. -/
theorem c5_counterexample :
    (childParentModel.get "Child").isSome = true ∧
    ((childParentModel.get "Child").getD {}).isA "Par" = true ∧
    ((childParentModel.get "Par").getD {}).isA "Child" = false ∧
    commonSchema (childParentModel.get "Child") (childParentModel.get "Par")
      = .ok ((childParentModel.get "Child").getD {}) ∧
    ((childParentModel.get "Child").getD {}).name ≠
      ((childParentModel.get "Par").getD {}).name := by
  decide

/-- C5 (amended): `CommonSchema(A, B)` succeeds exactly when one of the
two is-a the other (tried in both directions), and on success it returns
whichever of `A` and `B` is a **descendant** of the other (the more
specific schema); otherwise it errors without searching for any other
common ancestor. -/
theorem c5_common_schema (A B : Schema) :
    ((∃ S, commonSchema (some A) (some B) = .ok S) ↔
      (A.isA B.name = true ∨ B.isA A.name = true)) ∧
    (A.isA B.name = true → commonSchema (some A) (some B) = .ok A) ∧
    (A.isA B.name = false → B.isA A.name = true →
      commonSchema (some A) (some B) = .ok B) ∧
    (A.isA B.name = false → B.isA A.name = false →
      commonSchema (some A) (some B) =
        .error ("no common schema: " ++ A.name ++ " and " ++ B.name)) := by
  refine ⟨?_, ?_, ?_, ?_⟩
  · constructor
    · rintro ⟨S, hS⟩
      by_cases h1 : A.isA B.name = true
      · exact Or.inl h1
      · by_cases h2 : B.isA A.name = true
        · exact Or.inr h2
        · simp [commonSchema, h1, h2] at hS
    · rintro (h | h)
      · exact ⟨A, by simp [commonSchema, h]⟩
      · by_cases h1 : A.isA B.name = true
        · exact ⟨A, by simp [commonSchema, h1]⟩
        · exact ⟨B, by simp [commonSchema, h1, h]⟩
  · intro h
    simp [commonSchema, h]
  · intro h1 h2
    simp [commonSchema, h1, h2]
  · intro h1 h2
    simp [commonSchema, h1, h2]

/-- C5 witness: the amended theorem applied to the concrete child/parent
pair. -/
theorem c5_common_schema_witness :
    commonSchema (some ((childParentModel.get "Child").getD {}))
      (some ((childParentModel.get "Par").getD {})) =
      .ok ((childParentModel.get "Child").getD {}) :=
  (c5_common_schema ((childParentModel.get "Child").getD {})
    ((childParentModel.get "Par").getD {})).2.1 (by decide)

/-! ## C4: unknown parent is fatal, unknown range is silently ignored -/

theorem alookup_append {α : Type} (l1 l2 : List (String × α)) (k : String) :
    alookup (l1 ++ l2) k = ((alookup l1 k).orElse fun _ => alookup l2 k) := by
  induction l1 with
  | nil => simp [alookup]
  | cons kv rest ih =>
    cases kv with
    | mk k0 v0 =>
      by_cases h : k0 = k
      · simp [alookup, h]
      · simp [alookup, h, ih]

theorem alookup_mem {α : Type} (l : List (String × α)) (k : String) (v : α)
    (h : alookup l k = some v) : (k, v) ∈ l := by
  induction l with
  | nil => simp [alookup] at h
  | cons kv rest ih =>
    cases kv with
    | mk k0 v0 =>
      by_cases h0 : k0 = k
      · subst h0
        simp [alookup] at h
        simp [h]
      · simp [alookup, h0] at h
        exact List.mem_cons_of_mem _ (ih h)

/-- `indexProp` only writes the range/reverse indexes. -/
theorem indexProp_schemata (name : String) (m : Model)
    (p : String × PropertySpec) :
    (indexProp name m p).schemata = m.schemata ∧
    (indexProp name m p).extendsNames = m.extendsNames := by
  unfold indexProp
  rcases p.2.reverse with _ | rs <;> by_cases hr : p.2.range = "" <;>
    simp [hr]

/-- The property-index fold only writes the range/reverse indexes. -/
theorem indexFold_schemata (name : String) (ps : List (String × PropertySpec))
    (m : Model) :
    (ps.foldl (indexProp name) m).schemata = m.schemata ∧
    (ps.foldl (indexProp name) m).extendsNames = m.extendsNames := by
  induction ps generalizing m with
  | nil => exact ⟨rfl, rfl⟩
  | cons p ps ih =>
    rw [List.foldl_cons]
    rcases ih (indexProp name m p) with ⟨h1, h2⟩
    rcases indexProp_schemata name m p with ⟨h3, h4⟩
    exact ⟨h1.trans h3, h2.trans h4⟩

/-- A successful `registerSpec` appends exactly one schema and only
extends the registering schema's own extends-name entry. -/
theorem registerSpec_ok (m m2 : Model) (name : String) (spec : SchemaSpec)
    (hok : registerSpec m (name, spec) = .ok m2) :
    (alookup m.schemata name).isSome = false ∧
    m2.schemata = m.schemata ++ [(name, newSchema name spec)] ∧
    (∀ child, child ≠ name →
      alookup m2.extendsNames child = alookup m.extendsNames child) ∧
    (∀ ps, alookup m.extendsNames name = some ps → spec.parents ≠ [] →
      alookup m2.extendsNames name = some (ps ++ spec.parents)) ∧
    (alookup m.extendsNames name = none → spec.parents ≠ [] →
      alookup m2.extendsNames name = some spec.parents) := by
  by_cases hdup : (alookup m.schemata name).isSome
  · simp [registerSpec, hdup] at hok
  · simp only [registerSpec, hdup, if_false, Bool.false_eq_true] at hok
    by_cases hp : spec.parents = []
    · simp only [hp, ne_eq, not_true_eq_false, if_false] at hok
      injection hok with hok
      subst hok
      refine ⟨by simpa using hdup, ?_, ?_, ?_, ?_⟩
      · exact (indexFold_schemata name spec.properties _).1
      · intro child _
        rw [(indexFold_schemata name spec.properties _).2]
      · intro ps _ hne
        exact absurd hp hne
      · intro _ hne
        exact absurd hp hne
    · simp only [hp, ne_eq, not_false_eq_true, if_true] at hok
      injection hok with hok
      subst hok
      refine ⟨by simpa using hdup, ?_, ?_, ?_, ?_⟩
      · exact (indexFold_schemata name spec.properties _).1
      · intro child hchild
        rw [(indexFold_schemata name spec.properties _).2]
        exact alookup_aset_ne _ _ _ _ hchild
      · intro ps hps _
        rw [(indexFold_schemata name spec.properties _).2]
        show alookup (aset m.extendsNames name _) name = _
        rw [alookup_aset_self]
        simp [hps]
      · intro hps _
        rw [(indexFold_schemata name spec.properties _).2]
        show alookup (aset m.extendsNames name _) name = _
        rw [alookup_aset_self]
        simp [hps]

/-- Registration of later specifications keeps an already registered
schema and its collected extends names. -/
theorem stage1_preserves (specs : List (String × SchemaSpec)) (m m1 : Model)
    (child pn : String)
    (hok : specs.foldlM registerSpec m = .ok m1)
    (hch : (alookup m.schemata child).isSome = true)
    (hpn : pn ∈ (alookup m.extendsNames child).getD []) :
    (alookup m1.schemata child).isSome = true ∧
    pn ∈ (alookup m1.extendsNames child).getD [] := by
  induction specs generalizing m with
  | nil =>
    simp only [List.foldlM_nil, pure, Except.pure, Except.ok.injEq] at hok
    subst hok
    exact ⟨hch, hpn⟩
  | cons sp rest ih =>
    rw [List.foldlM_cons] at hok
    cases hstep : registerSpec m sp with
    | error e => rw [hstep] at hok; cases hok
    | ok m2 =>
      rw [hstep] at hok
      rcases sp with ⟨name, spec⟩
      rcases registerSpec_ok m m2 name spec hstep with
        ⟨hdup, hsch, hen, _, _⟩
      have hne : child ≠ name := by
        intro he
        subst he
        rw [hch] at hdup
        cases hdup
      have hch2 : (alookup m2.schemata child).isSome = true := by
        rw [hsch, alookup_append]
        cases h : alookup m.schemata child with
        | none => rw [h] at hch; cases hch
        | some v => simp [h, Option.orElse]
      have hpn2 : pn ∈ (alookup m2.extendsNames child).getD [] := by
        rw [hen child hne]
        exact hpn
      exact ih m2 hok hch2 hpn2

/-- A member specification with a declared parent ends stage 1 with its
schema registered and the parent among its extends names. -/
theorem stage1_registers (specs : List (String × SchemaSpec)) (m m1 : Model)
    (child : String) (spec : SchemaSpec) (pn : String)
    (hok : specs.foldlM registerSpec m = .ok m1)
    (hmem : (child, spec) ∈ specs) (hpn : pn ∈ spec.parents) :
    (alookup m1.schemata child).isSome = true ∧
    pn ∈ (alookup m1.extendsNames child).getD [] := by
  induction specs generalizing m with
  | nil => cases hmem
  | cons sp rest ih =>
    rw [List.foldlM_cons] at hok
    cases hstep : registerSpec m sp with
    | error e => rw [hstep] at hok; cases hok
    | ok m2 =>
      rw [hstep] at hok
      rcases List.mem_cons.mp hmem with hhead | htail
      · subst hhead
        rcases registerSpec_ok m m2 child spec hstep with
          ⟨_, hsch, _, hsome, hnone⟩
        have hch2 : (alookup m2.schemata child).isSome = true := by
          rw [hsch, alookup_append]
          cases h : alookup m.schemata child with
          | none => simp [h, Option.orElse, alookup]
          | some v => simp [h, Option.orElse]
        have hpe : spec.parents ≠ [] := by
          intro he
          rw [he] at hpn
          cases hpn
        have hpn2 : pn ∈ (alookup m2.extendsNames child).getD [] := by
          cases h : alookup m.extendsNames child with
          | none => rw [hnone h hpe]; simpa using hpn
          | some ps =>
            rw [hsome ps h hpe]
            simp [hpn]
        exact stage1_preserves rest m2 m1 child pn hok hch2 hpn2
      · exact ih m2 hok htail

/-- Stage 1 registers no schema name outside the specification list. -/
theorem stage1_keys (specs : List (String × SchemaSpec)) (m m1 : Model)
    (k : String) (hok : specs.foldlM registerSpec m = .ok m1)
    (hk : (alookup m1.schemata k).isSome = true) :
    (alookup m.schemata k).isSome = true ∨ k ∈ specs.map Prod.fst := by
  induction specs generalizing m with
  | nil =>
    simp only [List.foldlM_nil, pure, Except.pure, Except.ok.injEq] at hok
    subst hok
    exact Or.inl hk
  | cons sp rest ih =>
    rw [List.foldlM_cons] at hok
    cases hstep : registerSpec m sp with
    | error e => rw [hstep] at hok; cases hok
    | ok m2 =>
      rw [hstep] at hok
      rcases sp with ⟨name, spec⟩
      rcases registerSpec_ok m m2 name spec hstep with ⟨_, hsch, _, _, _⟩
      rcases ih m2 hok with h2 | h2
      · rw [hsch, alookup_append] at h2
        cases h : alookup m.schemata k with
        | some v => exact Or.inl (by simp [h])
        | none =>
          rw [h] at h2
          simp only [Option.orElse, alookup] at h2
          by_cases hk2 : name = k
          · exact Or.inr (by simp [hk2])
          · simp [hk2, alookup] at h2
      · exact Or.inr (List.mem_cons_of_mem _ h2)

/-- `checkParent` only writes the extends index. -/
theorem checkParent_schemata (child : String) (m : Model) (pn : String)
    (m2 : Model) (hok : checkParent child m pn = .ok m2) :
    m2.schemata = m.schemata := by
  by_cases h : (alookup m.schemata pn).isNone
  · simp [checkParent, h] at hok
  · simp only [checkParent, h, if_false, Bool.false_eq_true] at hok
    injection hok with hok
    subst hok
    rfl

/-- Resolving one child's parents only writes the extends index. -/
theorem resolveParentsEntry_schemata (m : Model) (ch : String × List String)
    (m2 : Model) (hok : resolveParentsEntry m ch = .ok m2) :
    m2.schemata = m.schemata := by
  rcases ch with ⟨child, ps⟩
  simp only [resolveParentsEntry] at hok
  induction ps generalizing m with
  | nil =>
    simp only [List.foldlM_nil, pure, Except.pure, Except.ok.injEq] at hok
    subst hok
    rfl
  | cons p rest ih =>
    rw [List.foldlM_cons] at hok
    cases hstep : checkParent child m p with
    | error e => rw [hstep] at hok; cases hok
    | ok m3 =>
      rw [hstep] at hok
      exact (ih m3 hok).trans (checkParent_schemata child m p m3 hstep)

/-- One child's parent resolution fails when a parent is unregistered. -/
theorem entry_errors (child : String) (ps : List String) (pn : String)
    (m : Model) (hpn : pn ∈ ps) (hnone : alookup m.schemata pn = none) :
    ∃ err, resolveParentsEntry m (child, ps) = .error err := by
  simp only [resolveParentsEntry]
  induction ps generalizing m with
  | nil => cases hpn
  | cons p rest ih =>
    rw [List.foldlM_cons]
    cases hstep : checkParent child m p with
    | error e => exact ⟨e, rfl⟩
    | ok m2 =>
      rcases List.mem_cons.mp hpn with hhead | htail
      · subst hhead
        simp [checkParent, hnone] at hstep
      · have hnone2 : alookup m2.schemata pn = none := by
          rw [checkParent_schemata child m p m2 hstep]
          exact hnone
        rcases ih m2 htail hnone2 with ⟨err, herr⟩
        exact ⟨err, herr⟩

/-- Stage 2 fails when any listed parent is unregistered. -/
theorem stage2_errors (l : List (String × List String)) (m : Model)
    (child : String) (ps : List String) (pn : String)
    (hmem : (child, ps) ∈ l) (hpn : pn ∈ ps)
    (hnone : alookup m.schemata pn = none) :
    ∃ err, l.foldlM resolveParentsEntry m = .error err := by
  induction l generalizing m with
  | nil => cases hmem
  | cons ch rest ih =>
    rw [List.foldlM_cons]
    rcases List.mem_cons.mp hmem with hhead | htail
    · subst hhead
      rcases entry_errors child ps pn m hpn hnone with ⟨err, herr⟩
      exact ⟨err, by rw [herr]; rfl⟩
    · cases hstep : resolveParentsEntry m ch with
      | error e => exact ⟨e, rfl⟩
      | ok m2 =>
        have hnone2 : alookup m2.schemata pn = none := by
          rw [resolveParentsEntry_schemata m ch m2 hstep]
          exact hnone
        rcases ih m2 htail hnone2 with ⟨err, herr⟩
        exact ⟨err, herr⟩

/-- C4 (amended): referencing an unknown **parent** schema name is a
fatal load error — no Model is produced; but a property whose declared
**range** schema name is unknown is not an error: the model loads and
the property's `Range` is silently left unresolved (`nil`), contrary to
the claim. -/
theorem c4_load_errors :
    (∀ (specs : List (String × SchemaSpec)) (child : String)
      (spec : SchemaSpec) (pn : String),
      (child, spec) ∈ specs → pn ∈ spec.parents →
      pn ∉ specs.map Prod.fst → ∃ err, loadModel specs = .error err) ∧
    (loadModel cex4Specs).isOk = true ∧
    ((((loadModel cex4Specs).toOption.getD {}).get "Thing2").getD {}).get
        "other" ≠ none ∧
    ((((((loadModel cex4Specs).toOption.getD {}).get "Thing2").getD
        {}).get "other").getD {}).range = none := by
  refine ⟨?_, by decide, by decide, by decide⟩
  intro specs child spec pn hmem hpn hnot
  cases hstage1 : specs.foldlM registerSpec ({} : Model) with
  | error e =>
    refine ⟨e, ?_⟩
    simp only [loadModel, loadAll, bind, Except.bind, hstage1]
  | ok m1 =>
    rcases stage1_registers specs {} m1 child spec pn hstage1 hmem hpn with
      ⟨_, hpn1⟩
    have hnone : alookup m1.schemata pn = none := by
      cases h : alookup m1.schemata pn with
      | none => rfl
      | some v =>
        rcases stage1_keys specs {} m1 pn hstage1 (by simp [h]) with h2 | h2
        · simp [alookup] at h2
        · exact absurd h2 hnot
    have hps : ∃ ps, alookup m1.extendsNames child = some ps ∧ pn ∈ ps := by
      cases h : alookup m1.extendsNames child with
      | none => rw [h] at hpn1; cases hpn1
      | some ps => exact ⟨ps, rfl, by rw [h] at hpn1; simpa using hpn1⟩
    rcases hps with ⟨ps, hlook, hpnps⟩
    rcases stage2_errors m1.extendsNames m1 child ps pn
      (alookup_mem _ _ _ hlook) hpnps hnone with ⟨err, herr⟩
    refine ⟨err, ?_⟩
    simp only [loadModel, loadAll, bind, Except.bind, hstage1, herr]

/-- C4 witness: a model whose `Kid` schema extends the unknown `Ghost`
fails to load. -/
theorem c4_load_errors_witness :
    ∃ err, loadModel [("Kid", { parents := ["Ghost"] })] = .error err :=
  c4_load_errors.1 [("Kid", { parents := ["Ghost"] })] "Kid"
    { parents := ["Ghost"] } "Ghost" (by decide) (by decide) (by decide)

/-! ## C8: URL comparison is scaled by a zero specificity -/

/-- The URL type never overrides the `BaseType` specificity default. -/
theorem spec_url_zero (s : String) : PType.specificity .url s = 0 := rfl

/-- Both scenario URLs canonicalize to the same record. -/
theorem normalize_scenario_urls :
    normalizeURL "Example.com/Path?b=2&a=1#frag" =
      some { scheme := "http", host := "example.com", path := "/Path",
             rawQuery := "a=1&b=2" } ∧
    normalizeURL "http://example.com/Path?a=1&b=2" =
      some { scheme := "http", host := "example.com", path := "/Path",
             rawQuery := "a=1&b=2" } := by
  decide

/-- The scenario comparison evaluates to zero: the two URLs are deemed
equal after canonicalization, but the weight is `1.0 * Specificity`
and the URL type's specificity is the `BaseType` default `0`. -/
theorem urlCompare_scenario_zero :
    urlCompare "Example.com/Path?b=2&a=1#frag"
      "http://example.com/Path?a=1&b=2" = 0 := by
  unfold urlCompare
  rw [normalize_scenario_urls.1, normalize_scenario_urls.2]
  simp [spec_url_zero]

/-- C8 counterexample: the claimed similarity of exactly 1.0 is false —
the comparison of the two scenario URLs yields 0. -/
theorem c8_counterexample :
    urlCompare "Example.com/Path?b=2&a=1#frag"
      "http://example.com/Path?a=1&b=2" ≠ 1 := by
  rw [urlCompare_scenario_zero]
  norm_num

/-- C8 (amended): cleaning the two scenario inputs through the URL
type's canonicalization yields identical scheme/host/path/query records
— the comparison is insensitive to query-parameter order and to the
fragment — but `Compare` returns `1.0 * Specificity(canonical)`, and the
URL type inherits the `BaseType` specificity `0`, so the similarity is
exactly `0.0`, not `1.0`. -/
theorem c8_url_compare :
    normalizeURL "Example.com/Path?b=2&a=1#frag" =
      normalizeURL "http://example.com/Path?a=1&b=2" ∧
    (normalizeURL "Example.com/Path?b=2&a=1#frag").isSome = true ∧
    urlCompare "Example.com/Path?b=2&a=1#frag"
      "http://example.com/Path?a=1&b=2" = 0 := by
  refine ⟨?_, ?_, urlCompare_scenario_zero⟩
  · rw [normalize_scenario_urls.1, normalize_scenario_urls.2]
  · rw [normalize_scenario_urls.1]
    rfl

/-! ## Shared lemmas on the `Add` write path -/

theorem add_start_none (e : EntityProxy) (name : String) (p : Property)
    (values : List String) (fuzzy : Bool) (fmt : String)
    (hp : alookup e.schema.properties name = some p)
    (hstub : p.stub = false)
    (hb : alookup e.props name = none) :
    e.add name values fuzzy fmt = .ok (values.foldl (addRaw p name fuzzy)
      ({ e with props := aset e.props name [] }, [])).1 := by
  simp only [EntityProxy.add, EntityProxy.getProp, hp, hstub, hb,
    Option.isNone_none, if_true, if_false, Bool.false_eq_true,
    alookup_aset_self, Option.getD_some]

theorem add_start_some (e : EntityProxy) (name : String) (p : Property)
    (values : List String) (fuzzy : Bool) (fmt : String) (vs : List String)
    (hp : alookup e.schema.properties name = some p)
    (hstub : p.stub = false)
    (hb : alookup e.props name = some vs) :
    e.add name values fuzzy fmt =
      .ok (values.foldl (addRaw p name fuzzy) (e, vs)).1 := by
  simp only [EntityProxy.add, EntityProxy.getProp, hp, hstub, hb,
    Option.isNone_some, if_false, Bool.false_eq_true, Option.getD_some]

theorem addRaw_skip_cap (p : Property) (name : String) (fuzzy : Bool)
    (e : EntityProxy) (seen : List String) (v c : String)
    (hc : p.type.clean v fuzzy p.format (some e) = (c, true))
    (hne : c ≠ "")
    (hcap : 0 < p.type.totalSize)
    (hover : p.type.totalSize < e.size + goLen c) :
    addRaw p name fuzzy (e, seen) v = (e, seen) := by
  simp only [addRaw, hc, not_true, false_or, if_neg hne]
  rw [if_pos ⟨hcap, hover⟩]

theorem addRaw_append (p : Property) (name : String) (fuzzy : Bool)
    (e : EntityProxy) (seen : List String) (v c : String)
    (hc : p.type.clean v fuzzy p.format (some e) = (c, true))
    (hne : c ≠ "")
    (hcapok : p.type.totalSize = 0 ∨ e.size + goLen c ≤ p.type.totalSize)
    (hseen : c ∉ seen) :
    addRaw p name fuzzy (e, seen) v =
      ({ e with props := aset e.props name ((alookup e.props name).getD [] ++ [c]), size := e.size + goLen c }, seen ++ [c]) := by
  simp only [addRaw, hc, not_true, false_or, if_neg hne]
  have hcond : ¬ (p.type.totalSize > 0 ∧
      p.type.totalSize < e.size + goLen c) := by
    rcases hcapok with h | h
    · simp [h]
    · intro hh
      exact absurd hh.2 (not_lt.mpr h)
  rw [if_neg hcond]
  simp [hseen]

/-! ## C7: only the aggregate size cap is enforced; max length is not -/

/-- A value over the aggregate cap is silently dropped (no error) while
a later fitting value of the same call is still stored. -/
theorem add_cap_skip_then_accept (e : EntityProxy) (name : String)
    (p : Property) (v1 v2 c1 c2 : String) (fuzzy : Bool) (fmt : String)
    (hp : alookup e.schema.properties name = some p)
    (hstub : p.stub = false)
    (hc1 : ∀ ctx, p.type.clean v1 fuzzy p.format ctx = (c1, true))
    (hc2 : ∀ ctx, p.type.clean v2 fuzzy p.format ctx = (c2, true))
    (hne1 : c1 ≠ "") (hne2 : c2 ≠ "")
    (hcap : 0 < p.type.totalSize)
    (hover : p.type.totalSize < e.size + goLen c1)
    (hfit : e.size + goLen c2 ≤ p.type.totalSize)
    (hdup : c2 ∉ (alookup e.props name).getD []) :
    ∃ e2, e.add name [v1, v2] fuzzy fmt = .ok e2 ∧
      alookup e2.props name =
        some ((alookup e.props name).getD [] ++ [c2]) ∧
      e2.size = e.size + goLen c2 := by
  cases hb : alookup e.props name with
  | none =>
    rw [add_start_none e name p [v1, v2] fuzzy fmt hp hstub hb]
    rw [List.foldl_cons,
      addRaw_skip_cap p name fuzzy { e with props := aset e.props name [] }
        [] v1 c1 (hc1 _) hne1 hcap hover]
    rw [List.foldl_cons,
      addRaw_append p name fuzzy { e with props := aset e.props name [] }
        [] v2 c2 (hc2 _) hne2 (Or.inr hfit) (by simp)]
    rw [List.foldl_nil]
    refine ⟨_, rfl, ?_, ?_⟩
    · simp [alookup_aset_self, hb]
    · rfl
  | some vs =>
    rw [add_start_some e name p [v1, v2] fuzzy fmt vs hp hstub hb]
    have hdup2 : c2 ∉ vs := by
      rw [hb] at hdup
      simpa using hdup
    rw [List.foldl_cons,
      addRaw_skip_cap p name fuzzy e vs v1 c1 (hc1 _) hne1 hcap hover]
    rw [List.foldl_cons,
      addRaw_append p name fuzzy e vs v2 c2 (hc2 _) hne2 (Or.inr hfit)
        hdup2]
    rw [List.foldl_nil]
    refine ⟨_, rfl, ?_, ?_⟩
    · simp [alookup_aset_self, hb]
    · rfl

/-- A cleaned value longer than the type's per-value `MaxLength` is
stored anyway: `Add` never consults `MaxLength`. -/
theorem add_ignores_max_length (e : EntityProxy) (name : String)
    (p : Property) (v c : String) (fuzzy : Bool) (fmt : String)
    (hp : alookup e.schema.properties name = some p)
    (hstub : p.stub = false)
    (hc : ∀ ctx, p.type.clean v fuzzy p.format ctx = (c, true))
    (hne : c ≠ "")
    (hmax : p.type.maxLength < goLen c)
    (hts : p.type.totalSize = 0)
    (hdup : c ∉ (alookup e.props name).getD []) :
    ∃ e2, e.add name [v] fuzzy fmt = .ok e2 ∧
      alookup e2.props name =
        some ((alookup e.props name).getD [] ++ [c]) := by
  cases hb : alookup e.props name with
  | none =>
    rw [add_start_none e name p [v] fuzzy fmt hp hstub hb]
    rw [List.foldl_cons,
      addRaw_append p name fuzzy { e with props := aset e.props name [] }
        [] v c (hc _) hne (Or.inl hts) (by simp)]
    rw [List.foldl_nil]
    refine ⟨_, rfl, ?_⟩
    simp [alookup_aset_self, hb]
  | some vs =>
    rw [add_start_some e name p [v] fuzzy fmt vs hp hstub hb]
    have hdup2 : c ∉ vs := by
      rw [hb] at hdup
      simpa using hdup
    rw [List.foldl_cons,
      addRaw_append p name fuzzy e vs v c (hc _) hne (Or.inl hts) hdup2]
    rw [List.foldl_nil]
    refine ⟨_, rfl, ?_⟩
    simp [alookup_aset_self, hb]

/-- C7 (amended): of the two limits the claim names, `Add` enforces only
the aggregate total-size cap — a value that would push the accumulated
size past a positive `TotalSize` is silently dropped, no error is
returned, and the remaining values of the same call are still processed;
the per-value `MaxLength` is **not** enforced: a cleaned value exceeding
it is stored all the same. -/
theorem c7_add_enforcement :
    (∀ (e : EntityProxy) (name : String) (p : Property)
      (v1 v2 c1 c2 : String) (fuzzy : Bool) (fmt : String),
      alookup e.schema.properties name = some p → p.stub = false →
      (∀ ctx, p.type.clean v1 fuzzy p.format ctx = (c1, true)) →
      (∀ ctx, p.type.clean v2 fuzzy p.format ctx = (c2, true)) →
      c1 ≠ "" → c2 ≠ "" → 0 < p.type.totalSize →
      p.type.totalSize < e.size + goLen c1 →
      e.size + goLen c2 ≤ p.type.totalSize →
      c2 ∉ (alookup e.props name).getD [] →
      ∃ e2, e.add name [v1, v2] fuzzy fmt = .ok e2 ∧
        alookup e2.props name =
          some ((alookup e.props name).getD [] ++ [c2]) ∧
        e2.size = e.size + goLen c2) ∧
    (∀ (e : EntityProxy) (name : String) (p : Property) (v c : String)
      (fuzzy : Bool) (fmt : String),
      alookup e.schema.properties name = some p → p.stub = false →
      (∀ ctx, p.type.clean v fuzzy p.format ctx = (c, true)) →
      c ≠ "" → p.type.maxLength < goLen c → p.type.totalSize = 0 →
      c ∉ (alookup e.props name).getD [] →
      ∃ e2, e.add name [v] fuzzy fmt = .ok e2 ∧
        alookup e2.props name =
          some ((alookup e.props name).getD [] ++ [c])) := by
  constructor
  · intro e name p v1 v2 c1 c2 fuzzy fmt hp hstub hc1 hc2 hne1 hne2 hcap
      hover hfit hdup
    exact add_cap_skip_then_accept e name p v1 v2 c1 c2 fuzzy fmt hp hstub
      hc1 hc2 hne1 hne2 hcap hover hfit hdup
  · intro e name p v c fuzzy fmt hp hstub hc hne hmax hts hdup
    exact add_ignores_max_length e name p v c fuzzy fmt hp hstub hc hne
      hmax hts hdup

/-- C7 witness: on the `Thing` schema, `"hello"` exceeds the text cap
and is dropped while `"ab"` is still stored; a 65-rune identifier value
is stored although the identifier `MaxLength` is 64. -/
theorem c7_add_enforcement_witness :
    (∃ e2, nearCapEntity.add "notes" ["hello", "ab"] false "" = .ok e2 ∧
      alookup e2.props "notes" =
        some ((alookup nearCapEntity.props "notes").getD [] ++ ["ab"]) ∧
      e2.size = nearCapEntity.size + goLen "ab") ∧
    (∃ e2, (newEntityProxy thingSchema "t3").add "ident" [longIdent]
        false "" = .ok e2 ∧
      alookup e2.props "ident" =
        some ((alookup (newEntityProxy thingSchema "t3").props
          "ident").getD [] ++ [longIdent])) := by
  constructor
  · exact c7_add_enforcement.1 nearCapEntity "notes"
      ((thingSchema.get "notes").getD {}) "hello" "ab" "hello" "ab" false ""
      (by decide) (by decide) (fun ctx => rfl) (fun ctx => rfl)
      (by decide) (by decide) (by decide) (by decide) (by decide)
      (by decide)
  · exact c7_add_enforcement.2 (newEntityProxy thingSchema "t3") "ident"
      ((thingSchema.get "ident").getD {}) longIdent longIdent false ""
      (by decide) (by decide) (fun ctx => rfl) (by decide) (by decide)
      (by decide) (by decide)

/-- C7 counterexample: the claim says a cleaned value longer than the
type's per-value max length is dropped; instead a 65-rune identifier
value (max length 64) is stored and `Add` returns ok. -/
theorem c7_counterexample :
    goLen longIdent = 65 ∧ PType.identifier.maxLength = 64 ∧
    (newEntityProxy thingSchema "t2").add "ident" [longIdent] false "" =
      .ok { schema := thingSchema, id := "t2", props := [("ident", [longIdent])], size := 65 } := by
  decide

/-- C4 counterexample: the claim's range half fails — a model declaring
an entity property whose range name resolves to no schema loads
successfully (`.isOk`), the property is present, and its `Range` is
`none` rather than a load error. -/
theorem c4_counterexample :
    (loadModel cex4Specs).isOk = true ∧
    ((((loadModel cex4Specs).toOption.getD {}).get "Thing2").getD {}).get
        "other" ≠ none ∧
    ((((((loadModel cex4Specs).toOption.getD {}).get "Thing2").getD
        {}).get "other").getD {}).range = none ∧
    ((((((loadModel cex4Specs).toOption.getD {}).get "Thing2").getD
        {}).get "other").getD {}).type = PType.entity := by
  decide

end Ftm

namespace Ftm

theorem splitChars_ne_nil (sep : Char) (l : List Char) :
    splitChars sep l ≠ [] := by
  cases l with
  | nil => simp [splitChars]
  | cons c rest =>
    simp only [splitChars]
    cases h : splitChars sep rest with
    | nil => simp
    | cons g gs =>
      by_cases hc : c = sep <;> simp [hc]

theorem splitChars_no_sep (sep : Char) (l : List Char) (h : sep ∉ l) :
    splitChars sep l = [l] := by
  induction l with
  | nil => rfl
  | cons c rest ih =>
    have hc : c ≠ sep := fun he => h (by simp [he])
    have hrest : sep ∉ rest := fun hm => h (by simp [hm])
    simp only [splitChars, ih hrest]
    simp [hc]

theorem splitChars_append_sep (sep : Char) (xs ys : List Char)
    (h : sep ∉ ys) :
    splitChars sep (xs ++ sep :: ys) = splitChars sep xs ++ [ys] := by
  induction xs with
  | nil =>
    simp only [List.nil_append, splitChars, splitChars_no_sep sep ys h]
    rfl
  | cons c xs ih =>
    cases hx : splitChars sep xs with
    | nil => exact absurd hx (splitChars_ne_nil sep xs)
    | cons g gs =>
      rw [List.cons_append]
      simp only [splitChars]
      rw [ih, hx]
      by_cases hc : c = sep <;> simp [hc]

theorem joinChars_splitChars (sep : Char) (l : List Char) :
    joinChars sep (splitChars sep l) = l := by
  induction l with
  | nil => rfl
  | cons c rest ih =>
    simp only [splitChars]
    cases hx : splitChars sep rest with
    | nil => exact absurd hx (splitChars_ne_nil sep rest)
    | cons g gs =>
      rw [hx] at ih
      by_cases hc : c = sep
      · subst hc
        simp [joinChars, ih]
      · simp only [if_neg hc]
        cases gs with
        | nil => simpa [joinChars] using congrArg (c :: ·) ih
        | cons g2 gs2 => simpa [joinChars] using congrArg (c :: ·) ih

end Ftm

namespace Ftm

theorem hexDigit_ne_dot : ∀ n, n < 16 → hexDigit n ≠ '.' := by decide

theorem hexEncode_no_dot (bs : List Nat) :
    '.' ∉ (hexEncode bs).data := by
  intro hmem
  simp only [hexEncode] at hmem
  rcases List.mem_flatMap.mp hmem with ⟨b, _, hb⟩
  simp only [List.mem_cons, List.not_mem_nil, or_false] at hb
  rcases hb with h | h
  · exact hexDigit_ne_dot _ (Nat.mod_lt _ (by norm_num)) h.symm
  · exact hexDigit_ne_dot _ (Nat.mod_lt _ (by norm_num)) h.symm

theorem hexEncode_ne_empty (bs : List Nat) (h : bs ≠ []) :
    hexEncode bs ≠ "" := by
  cases bs with
  | nil => exact absurd rfl h
  | cons b rest =>
    intro he
    have hthis : (hexEncode (b :: rest)).data = [] := by rw [he]
    simp [hexEncode] at hthis

theorem sha1_ne_nil (msg : List Nat) : sha1 msg ≠ [] := by
  simp [sha1, word32Bytes]

theorem utf8Char_ne_nil (c : Char) : utf8Char c ≠ [] := by
  unfold utf8Char
  dsimp only
  split_ifs <;> simp

theorem strBytes_ne_nil (s : String) (h : s ≠ "") : strBytes s ≠ [] := by
  have hd : s.data ≠ [] := by
    intro hnil
    apply h
    cases s with
    | mk data =>
      simp only at hnil
      simp [hnil]
  cases hs : s.data with
  | nil => exact absurd hs hd
  | cons c rest =>
    simp only [strBytes, hs, List.flatMap_cons]
    intro he
    rcases List.append_eq_nil.mp he with ⟨h1, _⟩
    exact utf8Char_ne_nil c h1

theorem string_append_data (a b : String) : (a ++ b).data = a.data ++ b.data := rfl

theorem nsParse_concat (p sig : String) (hdot : '.' ∉ sig.data)
    (hsig : sig ≠ "") : nsParse (p ++ "." ++ sig) = (p, sig) := by
  have hdata : (p ++ "." ++ sig).data = p.data ++ '.' :: sig.data := by
    rw [string_append_data, string_append_data]
    simp
  have hne : (p ++ "." ++ sig) ≠ "" := by
    intro he
    have hnil : (p ++ "." ++ sig).data = [] := by rw [he]
    rw [hdata] at hnil
    simp at hnil
  simp only [nsParse, if_neg hne, goSplit, hdata,
    splitChars_append_sep '.' p.data sig.data hdot]
  have hlen : ((splitChars '.' p.data ++ [sig.data]).map String.mk).length
      = (splitChars '.' p.data).length + 1 := by simp
  have hpos : ¬ ((splitChars '.' p.data ++ [sig.data]).map String.mk).length < 2 := by
    rw [hlen]
    have := splitChars_ne_nil '.' p.data
    have hp : 0 < (splitChars '.' p.data).length := List.length_pos.mpr this
    omega
  rw [if_neg hpos]
  simp only [Prod.mk.injEq]
  constructor
  · simp only [List.map_append, List.map_cons, List.map_nil,
      List.dropLast_concat, goJoin]
    have hid : (String.data ∘ String.mk) = fun x : List Char => x :=
      funext fun x => rfl
    rw [List.map_map, hid, List.map_id', joinChars_splitChars]
  · show (List.map String.mk (splitChars '.' p.data ++ [sig.data])).getLast?.getD "" = sig
    rw [List.map_append]
    simp only [List.map_cons, List.map_nil]
    rw [List.getLast?_concat]
    rfl

end Ftm

namespace Ftm

theorem hmacSha1_ne_nil (key msg : List Nat) : hmacSha1 key msg ≠ [] := by
  unfold hmacSha1
  exact sha1_ne_nil _

theorem signature_ne_empty (ns : Namespace) (plain : String)
    (hkey : ns.key ≠ []) (hplain : plain ≠ "") :
    ns.signature plain ≠ "" := by
  unfold Namespace.signature
  rw [if_neg (by simp [hkey, hplain])]
  exact hexEncode_ne_empty _ (hmacSha1_ne_nil _ _)

theorem signature_no_dot (ns : Namespace) (plain : String) :
    '.' ∉ (ns.signature plain).data := by
  unfold Namespace.signature
  split_ifs
  · simp
  · exact hexEncode_no_dot _

theorem sign_eq_concat (ns : Namespace) (entityID : String)
    (hkey : ns.key ≠ []) (hplain : (nsParse entityID).1 ≠ "") :
    ns.sign entityID =
      (nsParse entityID).1 ++ "." ++ ns.signature (nsParse entityID).1 := by
  have hsig := signature_ne_empty ns (nsParse entityID).1 hkey hplain
  show (if ns.key = [] then (nsParse entityID).1
    else if (nsParse entityID).1 = "" then ""
    else if ns.signature (nsParse entityID).1 = "" then (nsParse entityID).1
    else (nsParse entityID).1 ++ "." ++ ns.signature (nsParse entityID).1) = _
  rw [if_neg hkey, if_neg hplain, if_neg hsig]

/-- C10: for every namespace built from a non-empty name and every entity
ID whose plain part (before the final dot) is non-empty, `Verify` accepts
the output of `Sign`, and `Sign` is idempotent because it strips any
existing signature suffix before re-signing. -/
theorem c10_sign_verify (name entityID : String) (hname : name ≠ "")
    (hplain : (nsParse entityID).1 ≠ "") :
    (newNamespace name).verify ((newNamespace name).sign entityID) = true ∧
    (newNamespace name).sign ((newNamespace name).sign entityID) =
      (newNamespace name).sign entityID := by
  set ns := newNamespace name with hns
  have hkey : ns.key ≠ [] := by
    rw [hns]
    unfold newNamespace
    rw [if_neg hname]
    exact strBytes_ne_nil name hname
  set plain := (nsParse entityID).1 with hpl
  set sig := ns.signature plain with hsg
  have hsig : sig ≠ "" := signature_ne_empty ns plain hkey hplain
  have hdot : '.' ∉ sig.data := signature_no_dot ns plain
  have hsign : ns.sign entityID = plain ++ "." ++ sig :=
    sign_eq_concat ns entityID hkey hplain
  have hparse : nsParse (plain ++ "." ++ sig) = (plain, sig) :=
    nsParse_concat plain sig hdot hsig
  constructor
  · rw [hsign]
    unfold Namespace.verify
    rw [hparse]
    simp [hplain, hsig]
  · rw [hsign]
    have hplain2 : (nsParse (plain ++ "." ++ sig)).1 ≠ "" := by
      rw [hparse]
      exact hplain
    rw [sign_eq_concat ns _ hkey hplain2, hparse]

theorem c10_sign_verify_witness :
    "k" ≠ "" ∧ (nsParse "x").1 ≠ "" ∧
    ((newNamespace "k").verify ((newNamespace "k").sign "x") = true ∧
     (newNamespace "k").sign ((newNamespace "k").sign "x") =
       (newNamespace "k").sign "x") :=
  ⟨by decide, by decide, c10_sign_verify "k" "x" (by decide) (by decide)⟩

end Ftm

namespace Ftm

theorem nodupProps_props_eq (e2 e : EntityProxy) (h : e2.props = e.props)
    (hnd : NodupProps e) : NodupProps e2 := by
  intro n vs hv
  rw [h] at hv
  exact hnd n vs hv

theorem nodupProps_of_aset (e2 : EntityProxy)
    (l : List (String × List String)) (name : String) (vs : List String)
    (h : e2.props = aset l name vs)
    (hnd : ∀ n vs2, alookup l n = some vs2 → vs2.Nodup)
    (hvs : vs.Nodup) : NodupProps e2 := by
  intro n vs2 hv
  rw [h] at hv
  by_cases hn : n = name
  · subst hn
    rw [alookup_aset_self] at hv
    cases hv
    exact hvs
  · rw [alookup_aset_ne _ _ _ _ hn] at hv
    exact hnd n vs2 hv

theorem addRaw_inv (p : Property) (name : String) (fuzzy : Bool)
    (e : EntityProxy) (seen : List String) (v : String)
    (hlook : alookup e.props name = some seen)
    (hnd : NodupProps e) :
    alookup (addRaw p name fuzzy (e, seen) v).1.props name =
      some (addRaw p name fuzzy (e, seen) v).2 ∧
    NodupProps (addRaw p name fuzzy (e, seen) v).1 := by
  cases hcl : p.type.clean v fuzzy p.format (some e) with
  | mk cl ok =>
    simp only [addRaw, hcl]
    split_ifs with h1 h2 h3
    · exact ⟨hlook, hnd⟩
    · exact ⟨hlook, hnd⟩
    · exact ⟨hlook, hnd⟩
    · have hmem : cl ∉ seen := by simpa using h3
      have hseen : seen.Nodup := hnd name seen hlook
      constructor
      · show alookup (aset e.props name
            ((alookup e.props name).getD [] ++ [cl])) name = _
        rw [alookup_aset_self, hlook]
        rfl
      · exact nodupProps_of_aset _ e.props name
          ((alookup e.props name).getD [] ++ [cl]) rfl hnd
          (by rw [hlook]
              simp only [Option.getD_some]
              exact List.Nodup.append hseen (List.nodup_singleton cl)
                (by simpa using hmem))
  -- the conjunction is proven

theorem addRaw_fold_inv (p : Property) (name : String) (fuzzy : Bool)
    (values : List String) :
    ∀ (e : EntityProxy) (seen : List String),
    alookup e.props name = some seen → NodupProps e →
    alookup (values.foldl (addRaw p name fuzzy) (e, seen)).1.props name =
      some (values.foldl (addRaw p name fuzzy) (e, seen)).2 ∧
    NodupProps (values.foldl (addRaw p name fuzzy) (e, seen)).1 := by
  induction values with
  | nil =>
    intro e seen hlook hnd
    exact ⟨hlook, hnd⟩
  | cons v rest ih =>
    intro e seen hlook hnd
    rw [List.foldl_cons]
    have hstep := addRaw_inv p name fuzzy e seen v hlook hnd
    cases hres : addRaw p name fuzzy (e, seen) v with
    | mk e2 seen2 =>
      rw [hres] at hstep
      exact ih e2 seen2 hstep.1 hstep.2

theorem add_nodup (e : EntityProxy) (name : String) (values : List String)
    (fuzzy : Bool) (fmt : String) (e2 : EntityProxy)
    (hnd : NodupProps e)
    (hok : e.add name values fuzzy fmt = .ok e2) : NodupProps e2 := by
  cases hp : alookup e.schema.properties name with
  | none =>
    have herr : e.add name values fuzzy fmt =
        .error ("unknown property: " ++ name) := by
      simp [EntityProxy.add, EntityProxy.getProp, hp]
    rw [herr] at hok
    cases hok
  | some p =>
    by_cases hstub : p.stub
    · have herr : e.add name values fuzzy fmt =
          .error "stub property cannot be written" := by
        simp [EntityProxy.add, EntityProxy.getProp, hp, hstub]
      rw [herr] at hok
      cases hok
    · have hstub2 : p.stub = false := by simpa using hstub
      cases hb : alookup e.props name with
      | none =>
        rw [add_start_none e name p values fuzzy fmt hp hstub2 hb] at hok
        injection hok with h
        subst h
        have hinv := addRaw_fold_inv p name fuzzy values
          { e with props := aset e.props name [] } []
          (by show alookup (aset e.props name []) name = some []
              rw [alookup_aset_self])
          (nodupProps_of_aset _ e.props name [] rfl hnd List.nodup_nil)
        exact hinv.2
      | some vs =>
        rw [add_start_some e name p values fuzzy fmt vs hp hstub2 hb] at hok
        injection hok with h
        subst h
        exact (addRaw_fold_inv p name fuzzy values e vs hb hnd).2

end Ftm

namespace Ftm

theorem unsafeAdd_nodup (e : EntityProxy) (p : Property) (value : String)
    (fuzzy : Bool) (hnd : NodupProps e) :
    NodupProps (e.unsafeAdd p value fuzzy).1 := by
  cases hcl : p.type.clean value fuzzy p.format (some e) with
  | mk cl ok =>
    unfold EntityProxy.unsafeAdd
    rw [hcl]
    dsimp only
    by_cases h1 : ¬ ok = true ∨ cl = ""
    · rw [if_pos h1]
      exact hnd
    · rw [if_neg h1]
      by_cases hstub : p.stub = true
      · rw [if_pos hstub]
        exact hnd
      · rw [if_neg hstub]
        cases hb : alookup e.props p.name with
        | none =>
          simp only [hb, Option.isNone_none, if_true, alookup_aset_self,
            Option.getD_some]
          have hnd2 : NodupProps
              { e with props := aset e.props p.name [] } :=
            nodupProps_of_aset _ e.props p.name [] rfl hnd List.nodup_nil
          by_cases hcontain : ([] : List String).contains cl = true
          · rw [if_pos hcontain]
            exact hnd2
          · rw [if_neg hcontain]
            by_cases hcap : p.type.totalSize > 0 ∧
                p.type.totalSize < e.size + goLen cl
            · rw [if_pos hcap]
              exact hnd2
            · rw [if_neg hcap]
              exact nodupProps_of_aset _
                ({ e with props := aset e.props p.name [] } :
                  EntityProxy).props p.name ([] ++ [cl]) rfl hnd2
                (by simp)
        | some vs =>
          simp only [hb, Option.isNone_some, Bool.false_eq_true, if_false,
            Option.getD_some]
          by_cases hcontain : vs.contains cl = true
          · rw [if_pos hcontain]
            exact hnd
          · rw [if_neg hcontain]
            by_cases hcap : p.type.totalSize > 0 ∧
                p.type.totalSize < e.size + goLen cl
            · rw [if_pos hcap]
              exact hnd
            · rw [if_neg hcap]
              have hvs : vs.Nodup := hnd p.name vs hb
              have hmem : cl ∉ vs := by simpa using hcontain
              exact nodupProps_of_aset _ e.props p.name (vs ++ [cl]) rfl
                hnd
                (List.Nodup.append hvs (List.nodup_singleton cl)
                  (by simpa using hmem))

theorem ctxFold_props (l : List (String × String)) :
    ∀ e : EntityProxy,
    (l.foldl (fun e kv =>
      if (alookup e.context kv.1).isSome then e
      else { e with context := e.context ++ [kv] }) e).props = e.props := by
  induction l with
  | nil =>
    intro e
    rfl
  | cons kv rest ih =>
    intro e
    rw [List.foldl_cons]
    by_cases h : (alookup e.context kv.1).isSome
    · rw [if_pos h]
      exact ih e
    · rw [if_neg h]
      exact ih _

theorem propsFold_nodup (l : List (String × List String)) :
    ∀ e : EntityProxy, NodupProps e →
    NodupProps (l.foldl (fun e nv =>
      match e.add nv.1 nv.2 true "" with
      | .ok e2 => e2
      | .error _ => e) e) := by
  induction l with
  | nil =>
    intro e h
    exact h
  | cons nv rest ih =>
    intro e h
    rw [List.foldl_cons]
    cases hadd : e.add nv.1 nv.2 true "" with
    | ok e2 => exact ih e2 (add_nodup e nv.1 nv.2 true "" e2 h hadd)
    | error err => exact ih e h

theorem merge_nodup (e o : EntityProxy) (hnd : NodupProps e) :
    NodupProps (e.merge o).1 := by
  unfold EntityProxy.merge
  dsimp only
  have h1 : NodupProps
      { e with id := if e.id ≠ "" then e.id else o.id } :=
    nodupProps_props_eq _ e rfl hnd
  cases hcs : commonSchema (some e.schema) (some o.schema) with
  | error err =>
    exact h1
  | ok schema =>
    dsimp only
    apply propsFold_nodup
    apply nodupProps_props_eq _
      { schema := schema, id := if e.id ≠ "" then e.id else o.id,
        context := e.context, props := e.props, size := e.size }
      (ctxFold_props o.context _)
    exact nodupProps_props_eq _ e rfl hnd

end Ftm

namespace Ftm

/-- C6: after any sequence of `Add`, `Set`, `UnsafeAdd` and `Merge`
operations on an `EntityProxy` (from a fresh proxy), every property's
stored value list is duplicate-free. -/
theorem c6_nodup_values (e : EntityProxy) (h : Reach e) : NodupProps e := by
  induction h with
  | new schema id =>
    intro n vs hv
    cases hv
  | add e name values fuzzy format e2 h hok ih =>
    exact add_nodup e name values fuzzy format e2 ih hok
  | set e name values fuzzy format e2 h hok ih =>
    unfold EntityProxy.set at hok
    refine add_nodup _ name values fuzzy format e2 ?_ hok
    intro n vs hv
    by_cases hn : n = name
    · subst hn
      rw [show ({ e with props := adelete e.props n } :
          EntityProxy).props = adelete e.props n from rfl,
        alookup_adelete_self] at hv
      cases hv
    · rw [show ({ e with props := adelete e.props name } :
          EntityProxy).props = adelete e.props name from rfl,
        alookup_adelete_ne _ _ _ hn] at hv
      exact ih n vs hv
  | uadd e p value fuzzy h ih =>
    exact unsafeAdd_nodup e p value fuzzy ih
  | merge e o he ho ihe iho =>
    exact merge_nodup e o ihe

theorem c6_nodup_values_witness :
    alookup dedupeEntity.props "ident" = some ["a", "b"] ∧
    (["a", "b"] : List String).Nodup :=
  ⟨by decide,
    c6_nodup_values dedupeEntity
      (Reach.add (newEntityProxy thingSchema "w6") "ident" ["a", "b", "a"]
        false "" dedupeEntity (Reach.new thingSchema "w6") (by decide))
      "ident" ["a", "b"] (by decide)⟩

end Ftm

namespace Ftm

theorem string_mk_eq_empty (l : List Char) (h : String.mk l = "") :
    l = [] :=
  congrArg String.data h

theorem string_ne_empty_of_data (s : String) (h : s.data ≠ []) : s ≠ "" := by
  intro he
  rw [he] at h
  exact h rfl

theorem dropWhile_head_not {p : Char → Bool} {l : List Char} {a : Char}
    {t : List Char} (h : l.dropWhile p = a :: t) : p a = false := by
  induction l with
  | nil => cases h
  | cons c rest ih =>
    rw [List.dropWhile_cons] at h
    by_cases hc : p c
    · rw [if_pos hc] at h
      exact ih h
    · rw [if_neg hc] at h
      cases h
      simpa using hc

theorem dropWhile_concat_last {p : Char → Bool} (a : Char)
    (ha : p a = false) :
    ∀ z : List Char, ∃ w, (z ++ [a]).dropWhile p = w ++ [a] := by
  intro z
  induction z with
  | nil =>
    refine ⟨[], ?_⟩
    simp [List.dropWhile_cons, ha]
  | cons c z ih =>
    rw [List.cons_append, List.dropWhile_cons]
    by_cases hc : p c
    · rw [if_pos hc]
      exact ih
    · rw [if_neg hc]
      exact ⟨c :: z, rfl⟩

theorem trimSpaceChars_shape (l : List Char) (h : trimSpaceChars l ≠ []) :
    ∃ a w, trimSpaceChars l = a :: w ∧ isGoSpace a = false := by
  unfold trimSpaceChars at h ⊢
  cases hm : l.dropWhile isGoSpace with
  | nil =>
    rw [hm] at h
    simp at h
  | cons a t =>
    have ha : isGoSpace a = false := dropWhile_head_not hm
    rcases dropWhile_concat_last a ha t.reverse with ⟨w, hw⟩
    rw [show (a :: t).reverse = t.reverse ++ [a] by simp, hw]
    refine ⟨a, w.reverse, ?_, ha⟩
    simp

theorem trimSpaceChars_cons_nonspace (a : Char) (t : List Char)
    (ha : isGoSpace a = false) :
    ∃ w, trimSpaceChars (a :: t) = a :: w := by
  unfold trimSpaceChars
  rw [List.dropWhile_cons, if_neg (by simp [ha])]
  rcases dropWhile_concat_last a ha t.reverse with ⟨w, hw⟩
  rw [show (a :: t).reverse = t.reverse ++ [a] by simp, hw]
  exact ⟨w.reverse, by simp⟩

theorem string_eq_empty_of_data (s : String) (h : s.data = []) :
    s = "" := by
  cases s with
  | mk d =>
    cases h
    rfl

theorem sanitize_shape (s s0 : String)
    (h : sanitizeText s = (s0, true)) :
    ∃ a w, s0.data = a :: w ∧ isGoSpace a = false := by
  unfold sanitizeText at h
  by_cases h1 : s = ""
  · rw [if_pos h1] at h
    exact absurd (congrArg Prod.snd h) (by simp)
  · rw [if_neg h1] at h
    dsimp only at h
    set out := goTrimSpace (String.mk (sanitizeLoop s.data false)) with hout
    split_ifs at h with h2 h3
    · exact absurd (congrArg Prod.snd h) (by simp)
    · have hs0 : String.mk (out.data.take 10000) = s0 := congrArg Prod.fst h
      have hdata : out.data = trimSpaceChars (sanitizeLoop s.data false) := by
        rw [hout]
        rfl
      have hne : trimSpaceChars (sanitizeLoop s.data false) ≠ [] := by
        rw [← hdata]
        intro hnil
        exact h2 (string_eq_empty_of_data out hnil)
      rcases trimSpaceChars_shape _ hne with ⟨a, w, hw, ha⟩
      refine ⟨a, w.take 9999, ?_, ha⟩
      rw [← hs0]
      show out.data.take 10000 = a :: w.take 9999
      rw [hdata, hw]
      rfl
    · have hs0 : out = s0 := congrArg Prod.fst h
      have hdata : out.data = trimSpaceChars (sanitizeLoop s.data false) := by
        rw [hout]
        rfl
      have hne : trimSpaceChars (sanitizeLoop s.data false) ≠ [] := by
        rw [← hdata]
        intro hnil
        exact h2 (string_eq_empty_of_data out hnil)
      rcases trimSpaceChars_shape _ hne with ⟨a, w, hw, ha⟩
      refine ⟨a, w, ?_, ha⟩
      rw [← hs0, hdata, hw]

theorem sanitize_ok_ne (s s0 : String)
    (h : sanitizeText s = (s0, true)) : s0 ≠ "" := by
  rcases sanitize_shape s s0 h with ⟨a, w, hw, _⟩
  apply string_ne_empty_of_data
  rw [hw]
  simp

theorem sanitize_trim_ne (s s0 : String)
    (h : sanitizeText s = (s0, true)) : goTrimSpace s0 ≠ "" := by
  rcases sanitize_shape s s0 h with ⟨a, w, hw, ha⟩
  intro he
  have hd : (goTrimSpace s0).data = [] := by rw [he]
  unfold goTrimSpace at hd
  rw [show (String.mk (trimSpaceChars s0.data)).data =
    trimSpaceChars s0.data from rfl, hw] at hd
  rcases trimSpaceChars_cons_nonspace a w ha with ⟨w2, hw2⟩
  rw [hw2] at hd
  cases hd

end Ftm

namespace Ftm

theorem ne_empty_of_data_length (s : String) (n : Nat) (hn : n ≠ 0)
    (h : s.data.length = n) : s ≠ "" := by
  intro he
  rw [he] at h
  exact hn h.symm

theorem validate_last (V : String → Bool) (s c : String)
    (hV : V "" = false)
    (h : (if V s then (s, true) else ("", false)) = (c, true)) :
    c ≠ "" := by
  by_cases hs : V s = true
  · rw [if_pos hs] at h
    have hc : s = c := congrArg Prod.fst h
    intro he
    rw [he] at hc
    rw [hc] at hs
    rw [hV] at hs
    cases hs
  · rw [if_neg hs] at h
    exact absurd (congrArg Prod.snd h) (by simp)

theorem contains_last (L : List String) (code c : String)
    (hL : L.contains "" = false)
    (h : (if L.contains code then (code, true) else ("", false)) =
      (c, true)) : c ≠ "" := by
  by_cases hc : L.contains code = true
  · rw [if_pos hc] at h
    have hcc : code = c := congrArg Prod.fst h
    intro he
    rw [he] at hcc
    rw [hcc] at hc
    rw [hL] at hc
    cases hc
  · rw [if_neg hc] at h
    exact absurd (congrArg Prod.snd h) (by simp)

theorem gender_last (code c : String)
    (h : (if code = "male" ∨ code = "female" ∨ code = "other" then
      (code, true) else ("", false)) = (c, true)) : c ≠ "" := by
  by_cases hc : code = "male" ∨ code = "female" ∨ code = "other"
  · rw [if_pos hc] at h
    have hcc : code = c := congrArg Prod.fst h
    intro he
    rw [he] at hcc
    rcases hc with h1 | h1 | h1 <;> rw [hcc] at h1 <;>
      exact absurd h1 (by decide)
  · rw [if_neg hc] at h
    exact absurd (congrArg Prod.snd h) (by simp)

theorem dateClean_ok_ne (t c : String) (h : dateClean t = (c, true)) :
    c ≠ "" := by
  unfold dateClean at h
  cases hs : sanitizeText t with
  | mk s0 ok0 =>
    rw [hs] at h
    dsimp only at h
    cases ok0 with
    | false => simp at h
    | true =>
      rw [if_neg (by simp)] at h
      exact validate_last dateValidate _ c (by decide) h

theorem numberClean_ok_ne (t c : String) (h : numberClean t = (c, true)) :
    c ≠ "" := by
  unfold numberClean at h
  cases hs : sanitizeText t with
  | mk s0 ok0 =>
    rw [hs] at h
    dsimp only at h
    cases ok0 with
    | false => simp at h
    | true =>
      rw [if_neg (by simp)] at h
      exact validate_last parseFloatOk _ c (by decide) h

theorem countryClean_ok_ne (t c : String) (h : countryClean t = (c, true)) :
    c ≠ "" := by
  unfold countryClean at h
  cases hs : sanitizeText t with
  | mk s0 ok0 =>
    rw [hs] at h
    dsimp only at h
    cases ok0 with
    | false => simp at h
    | true =>
      rw [if_neg (by simp)] at h
      exact validate_last countryValidate _ c (by decide) h

theorem checksumClean_ok_ne (t c : String)
    (h : checksumClean t = (c, true)) : c ≠ "" := by
  unfold checksumClean at h
  cases hs : sanitizeText t with
  | mk s0 ok0 =>
    rw [hs] at h
    dsimp only at h
    cases ok0 with
    | false => simp at h
    | true =>
      rw [if_neg (by simp)] at h
      exact validate_last sha1HexMatch _ c (by decide) h

theorem languageClean_ok_ne (t c : String)
    (h : languageClean t = (c, true)) : c ≠ "" := by
  unfold languageClean at h
  dsimp only at h
  exact contains_last languageWhitelist _ c (by decide) h

theorem topicClean_ok_ne (t c : String) (h : topicClean t = (c, true)) :
    c ≠ "" := by
  unfold topicClean at h
  dsimp only at h
  exact contains_last topicKeys _ c (by decide) h

theorem genderClean_ok_ne (t c : String) (h : genderClean t = (c, true)) :
    c ≠ "" := by
  unfold genderClean at h
  dsimp only at h
  exact gender_last _ c h

theorem nameClean_ok_ne (t c : String) (h : nameClean t = (c, true)) :
    c ≠ "" := by
  unfold nameClean at h
  exact sanitize_ok_ne _ c h

theorem mimeClean_ok_ne (t c : String) (h : mimeClean t = (c, true)) :
    c ≠ "" := by
  unfold mimeClean at h
  cases hs : sanitizeText t with
  | mk s0 ok0 =>
    rw [hs] at h
    dsimp only at h
    cases ok0 with
    | false => simp at h
    | true =>
      rw [if_neg (by simp)] at h
      by_cases h1 : goToLower (goTrimSpace s0) = "" ∨
          goToLower (goTrimSpace s0) = "application/octet-stream"
      · rw [if_pos h1] at h
        exact absurd (congrArg Prod.snd h) (by simp)
      · rw [if_neg h1] at h
        by_cases h2 : mimeMatch (goToLower (goTrimSpace s0)) = true
        · rw [if_pos h2] at h
          have hc : goToLower (goTrimSpace s0) = c := congrArg Prod.fst h
          intro he
          rw [he] at hc
          exact h1 (Or.inl hc)
        · rw [if_neg h2] at h
          exact absurd (congrArg Prod.snd h) (by simp)

theorem jsonClean_ok_ne (t c : String) (h : jsonClean t = (c, true)) :
    c ≠ "" := by
  unfold jsonClean at h
  cases hs : sanitizeText t with
  | mk s0 ok0 =>
    rw [hs] at h
    dsimp only at h
    cases ok0 with
    | false => simp at h
    | true =>
      rw [if_neg (by simp)] at h
      by_cases h1 : jsonValidTop s0 = true
      · rw [if_pos h1] at h
        have hc : s0 = c := congrArg Prod.fst h
        rw [← hc]
        exact sanitize_ok_ne t s0 hs
      · rw [if_neg h1] at h
        have hc : jsonQuote s0 = c := congrArg Prod.fst h
        rw [← hc]
        apply string_ne_empty_of_data
        simp [jsonQuote]

end Ftm

namespace Ftm

theorem cond_last (P : Prop) [Decidable P] (u c : String)
    (himp : P → u ≠ "")
    (h : (if P then (u, true) else ("", false)) = (c, true)) : c ≠ "" := by
  by_cases hp : P
  · rw [if_pos hp] at h
    rw [← show u = c from congrArg Prod.fst h]
    exact himp hp
  · rw [if_neg hp] at h
    exact absurd (congrArg Prod.snd h) (by simp)

set_option maxHeartbeats 1000000 in
theorem identifierClean_ok_ne (t fmt c : String)
    (h : identifierClean t fmt = (c, true)) : c ≠ "" := by
  unfold identifierClean at h
  cases hs : sanitizeText t with
  | mk s0 ok0 =>
    rw [hs] at h
    dsimp only at h
    cases ok0 with
    | false => simp at h
    | true =>
      rw [if_neg (by simp)] at h
      by_cases f1 : goToLower fmt = "iban"
      · rw [if_pos f1] at h
        exact cond_last _ _ c (fun hk => hk) h
      rw [if_neg f1] at h
      by_cases f2 : goToLower fmt = "lei"
      · rw [if_pos f2] at h
        exact cond_last _ _ c
          (fun hk => ne_empty_of_data_length _ 20 (by decide) hk.1) h
      rw [if_neg f2] at h
      by_cases f3 : goToLower fmt = "bic"
      · rw [if_pos f3] at h
        refine cond_last _ _ c (fun hk he => ?_) h
        rw [he] at hk
        exact absurd hk (by decide)
      rw [if_neg f3] at h
      by_cases f4 : goToLower fmt = "isin"
      · rw [if_pos f4] at h
        refine cond_last _ _ c (fun hk he => ?_) h
        rw [he] at hk
        exact absurd hk (by decide)
      rw [if_neg f4] at h
      by_cases f5 : goToLower fmt = "figi"
      · rw [if_pos f5] at h
        exact cond_last _ _ c
          (fun hk => ne_empty_of_data_length _ 12 (by decide) hk.1) h
      rw [if_neg f5] at h
      by_cases f6 : goToLower fmt = "ssn"
      · rw [if_pos f6] at h
        exact cond_last _ _ c
          (fun hk => ne_empty_of_data_length _ 9 (by decide) hk) h
      rw [if_neg f6] at h
      by_cases f7 : goToLower fmt = "uscc"
      · rw [if_pos f7] at h
        exact cond_last _ _ c
          (fun hk => ne_empty_of_data_length _ 18 (by decide) hk.1) h
      rw [if_neg f7] at h
      by_cases f8 : goToLower fmt = "inn"
      · rw [if_pos f8] at h
        refine cond_last _ _ c (fun hk => ?_) h
        rcases hk with hk | hk
        · exact ne_empty_of_data_length _ 10 (by decide) hk
        · exact ne_empty_of_data_length _ 12 (by decide) hk
      rw [if_neg f8] at h
      by_cases f9 : goToLower fmt = "ogrn"
      · rw [if_pos f9] at h
        refine cond_last _ _ c (fun hk => ?_) h
        rcases hk with hk | hk
        · exact ne_empty_of_data_length _ 13 (by decide) hk
        · exact ne_empty_of_data_length _ 15 (by decide) hk
      rw [if_neg f9] at h
      by_cases f10 : goToLower fmt = "uei"
      · rw [if_pos f10] at h
        exact cond_last _ _ c
          (fun hk => ne_empty_of_data_length _ 12 (by decide) hk.1) h
      rw [if_neg f10] at h
      by_cases f11 : goToLower fmt = "npi"
      · rw [if_pos f11] at h
        exact cond_last _ _ c
          (fun hk => ne_empty_of_data_length _ 10 (by decide) hk) h
      rw [if_neg f11] at h
      by_cases f12 : goToLower fmt = "imo"
      · rw [if_pos f12] at h
        exact cond_last _ _ c
          (fun hk => ne_empty_of_data_length _ 7 (by decide) hk) h
      rw [if_neg f12] at h
      by_cases f13 : goToLower fmt = "qid"
      · rw [if_pos f13] at h
        refine cond_last _ _ c (fun hk he => ?_) h
        rw [he] at hk
        exact absurd hk (by decide)
      rw [if_neg f13] at h
      rw [← show goTrimSpace s0 = c from congrArg Prod.fst h]
      exact sanitize_trim_ne t s0 hs

theorem parseIPv4_shape (s : String) (oct : List Nat)
    (h : parseIPv4 s = some oct) : ∃ a b c d, oct = [a, b, c, d] := by
  unfold parseIPv4 at h
  split at h
  · dsimp only at h
    split at h
    · injection h with h2
      exact ⟨_, _, _, _, h2.symm⟩
    · cases h
  · cases h

theorem ipString4_ne (a b c d : Nat) : ipString [a, b, c, d] ≠ "" := by
  intro he
  have hd := congrArg String.data he
  simp [ipString, goJoin, joinChars] at hd

theorem ipClean_ok_ne (t c : String) (h : ipClean t = (c, true)) :
    c ≠ "" := by
  unfold ipClean at h
  cases hs : sanitizeText t with
  | mk s0 ok0 =>
    rw [hs] at h
    dsimp only at h
    cases ok0 with
    | false => simp at h
    | true =>
      rw [if_neg (by simp)] at h
      cases hp : parseIPv4 (goTrimSpace s0) with
      | none =>
        rw [hp] at h
        simp at h
      | some oct =>
        rw [hp] at h
        dsimp only at h
        rcases parseIPv4_shape _ _ hp with ⟨a, b, x, d, rfl⟩
        rw [← show _ = c from congrArg Prod.fst h]
        exact ipString4_ne a b x d

theorem phoneClean_ok_ne (t : String) (cs : List String) (c : String)
    (h : phoneClean t cs = (c, true)) : c ≠ "" := by
  unfold phoneClean at h
  cases hs : sanitizeText t with
  | mk s0 ok0 =>
    rw [hs] at h
    dsimp only at h
    cases ok0 with
    | false => simp at h
    | true =>
      rw [if_neg (by simp)] at h
      split at h
      · rw [← show _ = c from congrArg Prod.fst h]
        intro he
        have hd := congrArg String.data he
        simp at hd
      · exact absurd (congrArg Prod.snd h) (by simp)

end Ftm

namespace Ftm

theorem string_append_eq_empty_iff (a b : String) :
    a ++ b = "" ↔ a = "" ∧ b = "" := by
  constructor
  · intro h
    have hd : a.data ++ b.data = [] := congrArg String.data h
    rcases List.append_eq_nil.mp hd with ⟨ha, hb⟩
    exact ⟨string_eq_empty_of_data a ha, string_eq_empty_of_data b hb⟩
  · rintro ⟨ha, hb⟩
    rw [ha, hb]
    rfl

theorem goToLower_eq_empty (s : String) (h : goToLower s = "") : s = "" := by
  have hd : (goToLower s).data = [] := by rw [h]
  apply string_eq_empty_of_data
  exact List.map_eq_nil.mp hd

theorem urlString_all_empty (v : URLRec) (h : urlString v = "") :
    v.scheme = "" ∧ v.opq = "" ∧ v.host = "" ∧ v.path = "" ∧
    v.rawQuery = "" ∧ v.fragment = "" := by
  unfold urlString at h
  dsimp only at h
  split_ifs at h <;>
    simp_all [string_append_eq_empty_iff]

theorem urlClean_ok_ne (t c : String) (h : urlClean t = (c, true)) :
    c ≠ "" := by
  unfold urlClean at h
  cases hs : sanitizeText t with
  | mk s0 ok0 =>
    rw [hs] at h
    dsimp only at h
    cases ok0 with
    | false => simp at h
    | true =>
      rw [if_neg (by simp)] at h
      split at h
      · exact absurd (congrArg Prod.snd h) (by simp)
      · rename_i u hu
        split_ifs at h with hv
        swap
        · exact absurd (congrArg Prod.snd h) (by simp)
        · rw [← show _ = c from congrArg Prod.fst h]
          intro he
          rcases urlString_all_empty _ he with ⟨h1, h2, h3, h4, h5, h6⟩
          cases u with
          | mk sc op ho pa rq fr =>
            dsimp at h1 h2 h3 h4 h5 h6
            have hho : ho = "" := goToLower_eq_empty _ h3
            subst h1
            subst h2
            subst h4
            subst h5
            subst h6
            subst hho
            exact absurd hv (by decide)

set_option maxHeartbeats 2000000 in
theorem emailClean_ok_ne (t c : String) (h : emailClean t = (c, true)) :
    c ≠ "" := by
  unfold emailClean at h
  cases hs : sanitizeText t with
  | mk s0 ok0 =>
    rw [hs] at h
    dsimp only at h
    cases ok0 with
    | false => simp at h
    | true =>
      rw [if_neg (by simp)] at h
      split_ifs at h
      all_goals try split at h
      all_goals try split_ifs at h
      all_goals first
        | exact absurd (congrArg Prod.snd h) Bool.false_ne_true
        | (rw [← show _ = c from congrArg Prod.fst h]
           intro he
           have hd := congrArg String.data he
           rw [String.data_append, String.data_append] at hd
           simp at hd)

end Ftm

namespace Ftm

theorem addressClean_ok_ne (t c : String)
    (h : addressClean t = (c, true)) : c ≠ "" := by
  unfold addressClean at h
  cases hs : sanitizeText t with
  | mk s0 ok0 =>
    rw [hs] at h
    dsimp only at h
    cases ok0 with
    | false => simp at h
    | true =>
      rw [if_neg (by simp)] at h
      split_ifs at h with h1
      · exact absurd (congrArg Prod.snd h) Bool.false_ne_true
      · rw [← show _ = c from congrArg Prod.fst h]
        intro he
        exact h1 (string_mk_eq_empty _ he)

/-- C9: for every property type in the registry, `Clean` is total (a Lean
function), signals rejection only through its boolean, and an accepted
value is never the empty string. -/
theorem c9_clean_nonempty (t : PType) (ht : t ∈ registryTypes)
    (txt fmt : String) (fuzzy : Bool) (proxy : Option EntityProxy)
    (c : String) (hok : t.clean txt fuzzy fmt proxy = (c, true)) :
    c ≠ "" := by
  cases t with
  | string => exact sanitize_ok_ne txt c hok
  | text => exact sanitize_ok_ne txt c hok
  | html => exact sanitize_ok_ne txt c hok
  | name => exact nameClean_ok_ne txt c hok
  | date => exact dateClean_ok_ne txt c hok
  | number => exact numberClean_ok_ne txt c hok
  | url => exact urlClean_ok_ne txt c hok
  | country => exact countryClean_ok_ne txt c hok
  | email => exact emailClean_ok_ne txt c hok
  | ip => exact ipClean_ok_ne txt c hok
  | phone => exact phoneClean_ok_ne txt _ c hok
  | address => exact addressClean_ok_ne txt c hok
  | language => exact languageClean_ok_ne txt c hok
  | mimetype => exact mimeClean_ok_ne txt c hok
  | checksum => exact checksumClean_ok_ne txt c hok
  | identifier => exact identifierClean_ok_ne txt fmt c hok
  | entity => exact sanitize_ok_ne txt c hok
  | topic => exact topicClean_ok_ne txt c hok
  | gender => exact genderClean_ok_ne txt c hok
  | json => exact jsonClean_ok_ne txt c hok

theorem c9_clean_nonempty_witness :
    PType.name ∈ registryTypes ∧
    PType.name.clean "Bob" false "" none = ("Bob", true) ∧
    ("Bob" : String) ≠ "" :=
  ⟨by decide, by decide,
    c9_clean_nonempty PType.name (by decide) "Bob" "" false none "Bob"
      (by decide)⟩

end Ftm

namespace Ftm

theorem aset_aset {α : Type} (l : List (String × α)) (k : String)
    (v1 v2 : α) : aset (aset l k v1) k v2 = aset l k v2 := by
  induction l with
  | nil => simp [aset]
  | cons kv rest ih =>
    cases kv with
    | mk k0 v0 =>
      by_cases h : k0 = k
      · simp [aset, h]
      · simp [aset, h, ih]

theorem aset_lookup_self {α : Type} (l : List (String × α)) (k : String)
    (v : α) (h : alookup l k = some v) : aset l k v = l := by
  induction l with
  | nil => cases h
  | cons kv rest ih =>
    cases kv with
    | mk k0 v0 =>
      by_cases hk : k0 = k
      · simp only [alookup, if_pos hk] at h
        injection h with h2
        simp [aset, hk, h2]
      · simp only [alookup, if_neg hk] at h
        simp [aset, hk, ih h]

theorem aset_not_mem_append {α : Type} (l : List (String × α)) (k : String)
    (v : α) (h : alookup l k = none) : aset l k v = l ++ [(k, v)] := by
  induction l with
  | nil => rfl
  | cons kv rest ih =>
    cases kv with
    | mk k0 v0 =>
      by_cases hk : k0 = k
      · simp [alookup, hk] at h
      · simp only [alookup, if_neg hk] at h
        simp [aset, hk, ih h]

theorem alookup_none_of_not_mem_keys {α : Type} (l : List (String × α))
    (k : String) (h : k ∉ l.map Prod.fst) : alookup l k = none := by
  induction l with
  | nil => rfl
  | cons kv rest ih =>
    cases kv with
    | mk k0 v0 =>
      have hk : k0 ≠ k := by
        intro he
        exact h (by simp [he])
      simp only [alookup, if_neg hk]
      exact ih (fun hm => h (by simp [hm]))

theorem entStatement_groupKey (e : EntityProxy) (ds fs ls : String)
    (ext : Bool) (org : String) (prop value : String) :
    (entStatement e ds fs ls ext org prop value).groupKey = e.id := by
  unfold entStatement Statement.makeKey Statement.groupKey
  dsimp only
  exact ite_self e.id

theorem sfe_eq (e : EntityProxy) (ds fs ls : String) (ext : Bool)
    (org : String) (hid : e.id ≠ "") :
    statementsFromEntity e ds fs ls ext org =
      entStatement e ds fs ls ext org BaseID e.id ::
      e.props.flatMap (fun nv =>
        nv.2.map (entStatement e ds fs ls ext org nv.1)) := by
  unfold statementsFromEntity
  rw [if_neg hid]
  rfl

theorem insertByKey_append (s : Statement) (l : List Statement)
    (h : ∀ t ∈ l, s.groupKey = t.groupKey) :
    insertByKey s l = l ++ [s] := by
  induction l with
  | nil => rfl
  | cons t ts ih =>
    rw [insertByKey]
    rw [if_pos (by
      rw [h t (List.mem_cons_self t ts)]
      simp [goStrLt_irrefl])]
    rw [ih (fun t2 ht2 => h t2 (List.mem_cons_of_mem t ht2))]
    rfl

theorem sortStatements_aux (k : String) :
    ∀ (l acc : List Statement), (∀ s ∈ l, s.groupKey = k) →
    (∀ s ∈ acc, s.groupKey = k) →
    l.foldl (fun acc s => insertByKey s acc) acc = acc ++ l := by
  intro l
  induction l with
  | nil =>
    intro acc _ _
    simp
  | cons s rest ih =>
    intro acc hl hacc
    rw [List.foldl_cons]
    rw [insertByKey_append s acc (fun t ht =>
      (hl s (List.mem_cons_self s rest)).trans (hacc t ht).symm)]
    rw [ih (acc ++ [s])
      (fun t ht => hl t (List.mem_cons_of_mem s ht))
      (fun t ht => by
        rcases List.mem_append.mp ht with h1 | h1
        · exact hacc t h1
        · rw [List.mem_singleton.mp h1]
          exact hl s (List.mem_cons_self s rest))]
    simp

theorem sortStatements_const_key (k : String) (l : List Statement)
    (h : ∀ s ∈ l, s.groupKey = k) : sortStatements l = l := by
  unfold sortStatements
  rw [sortStatements_aux k l [] h (by simp)]
  simp

theorem aggLoop_start (m : Model) (s : Statement) (rest : List Statement)
    (out : List EntityProxy) (sc : Schema)
    (hms : m.get s.schema = some sc) (hbase : s.prop = BaseID) :
    aggLoop m (s :: rest) none out =
      aggLoop m rest (some (newEntityProxy sc s.groupKey, s.groupKey))
        out := by
  rw [aggLoop]
  dsimp only
  rw [hms]
  dsimp only
  rw [if_pos hbase]

theorem aggLoop_const_key (m : Model) (k : String) :
    ∀ (sts : List Statement) (c : EntityProxy) (out : List EntityProxy),
    (∀ s ∈ sts, s.groupKey = k) →
    aggLoop m sts (some (c, k)) out =
      out ++ [sts.foldl (fun c s =>
        if s.prop = BaseID then c else addQuiet c s.prop s.value) c] := by
  intro sts
  induction sts with
  | nil =>
    intro c out _
    rfl
  | cons s rest ih =>
    intro c out h
    rw [aggLoop]
    dsimp only
    rw [if_pos (h s (List.mem_cons_self s rest))]
    rw [List.foldl_cons]
    exact ih _ out (fun t ht => h t (List.mem_cons_of_mem s ht))

end Ftm

namespace Ftm

theorem addQuiet_first (c : EntityProxy) (name : String) (p : Property)
    (v : String)
    (hp : alookup c.schema.properties name = some p)
    (hstub : p.stub = false)
    (hsize : p.type.totalSize = 0)
    (hlook : alookup c.props name = none)
    (hclean : ∀ ctx, p.type.clean v true p.format ctx = (v, true))
    (hne : v ≠ "") :
    addQuiet c name v =
      { c with props := aset c.props name [v],
               size := c.size + goLen v } := by
  unfold addQuiet
  rw [add_start_none c name p [v] true "" hp hstub hlook]
  rw [List.foldl_cons,
    addRaw_append p name true { c with props := aset c.props name [] } []
      v v (hclean _) hne (Or.inl hsize) (by simp),
    List.foldl_nil]
  dsimp only
  rw [show alookup ({ c with props := aset c.props name [] } :
      EntityProxy).props name = some [] from alookup_aset_self _ _ _]
  rw [show aset ({ c with props := aset c.props name [] } :
      EntityProxy).props name ((some ([] : List String)).getD [] ++ [v]) =
      aset c.props name [v] from by
    rw [show ((some ([] : List String)).getD [] ++ [v]) = [v] from rfl]
    exact aset_aset c.props name [] [v]]

theorem addQuiet_step (c : EntityProxy) (name : String) (p : Property)
    (v : String) (pref : List String)
    (hp : alookup c.schema.properties name = some p)
    (hstub : p.stub = false)
    (hsize : p.type.totalSize = 0)
    (hlook : alookup c.props name = some pref)
    (hclean : ∀ ctx, p.type.clean v true p.format ctx = (v, true))
    (hne : v ≠ "") (hnotmem : v ∉ pref) :
    addQuiet c name v =
      { c with props := aset c.props name (pref ++ [v]),
               size := c.size + goLen v } := by
  unfold addQuiet
  rw [add_start_some c name p [v] true "" pref hp hstub hlook]
  rw [List.foldl_cons,
    addRaw_append p name true c pref v v (hclean _) hne (Or.inl hsize)
      hnotmem,
    List.foldl_nil]
  dsimp only
  rw [hlook]
  rfl

theorem addQuiet_fold (name : String) (p : Property) :
    ∀ (rest : List String) (pref : List String) (c : EntityProxy),
    alookup c.schema.properties name = some p →
    p.stub = false → p.type.totalSize = 0 →
    alookup c.props name = some pref →
    (pref ++ rest).Nodup →
    (∀ v ∈ rest, v ≠ "" ∧
      ∀ ctx, p.type.clean v true p.format ctx = (v, true)) →
    (rest.foldl (fun c v => addQuiet c name v) c).props =
      aset c.props name (pref ++ rest) ∧
    (rest.foldl (fun c v => addQuiet c name v) c).schema = c.schema ∧
    (rest.foldl (fun c v => addQuiet c name v) c).id = c.id := by
  intro rest
  induction rest with
  | nil =>
    intro pref c hp hstub hsize hlook hnodup hvals
    rw [List.foldl_nil, List.append_nil, aset_lookup_self _ _ _ hlook]
    exact ⟨rfl, rfl, rfl⟩
  | cons v rest ih =>
    intro pref c hp hstub hsize hlook hnodup hvals
    have hnotmem : v ∉ pref := by
      rcases List.nodup_append.mp hnodup with ⟨-, -, hdisj⟩
      intro hmem
      exact hdisj hmem (List.mem_cons_self v rest)
    have hv := hvals v (List.mem_cons_self v rest)
    rw [List.foldl_cons,
      addQuiet_step c name p v pref hp hstub hsize hlook hv.2 hv.1 hnotmem]
    have hres := ih (pref ++ [v])
      { c with props := aset c.props name (pref ++ [v]),
               size := c.size + goLen v }
      hp hstub hsize
      (alookup_aset_self _ _ _)
      (by rw [List.append_assoc]
          exact hnodup)
      (fun v2 hv2 => hvals v2 (List.mem_cons_of_mem v hv2))
    refine ⟨?_, hres.2.1, hres.2.2⟩
    rw [hres.1]
    show aset (aset c.props name (pref ++ [v])) name ((pref ++ [v]) ++ rest)
      = aset c.props name (pref ++ v :: rest)
    rw [aset_aset, List.append_assoc]
    rfl

theorem addQuiet_entry (name : String) (p : Property) (vs : List String)
    (c : EntityProxy)
    (hp : alookup c.schema.properties name = some p)
    (hstub : p.stub = false) (hsize : p.type.totalSize = 0)
    (hlook : alookup c.props name = none)
    (hnodup : vs.Nodup)
    (hvals : ∀ v ∈ vs, v ≠ "" ∧
      ∀ ctx, p.type.clean v true p.format ctx = (v, true)) :
    (vs.foldl (fun c v => addQuiet c name v) c).props =
      (if vs.isEmpty then c.props else c.props ++ [(name, vs)]) ∧
    (vs.foldl (fun c v => addQuiet c name v) c).schema = c.schema ∧
    (vs.foldl (fun c v => addQuiet c name v) c).id = c.id := by
  cases vs with
  | nil => exact ⟨rfl, rfl, rfl⟩
  | cons v vs =>
    have hv := hvals v (List.mem_cons_self v vs)
    rw [List.foldl_cons,
      addQuiet_first c name p v hp hstub hsize hlook hv.2 hv.1]
    have hres := addQuiet_fold name p vs [v]
      { c with props := aset c.props name [v], size := c.size + goLen v }
      hp hstub hsize
      (alookup_aset_self _ _ _)
      (by simpa using hnodup)
      (fun v2 hv2 => hvals v2 (List.mem_cons_of_mem v hv2))
    refine ⟨?_, hres.2.1, hres.2.2⟩
    rw [hres.1]
    show aset (aset c.props name [v]) name ([v] ++ vs) = _
    rw [aset_aset]
    rw [show ([v] ++ vs) = v :: vs from rfl]
    rw [aset_not_mem_append _ _ _ hlook]
    rfl

end Ftm

namespace Ftm

theorem foldl_flatMap {α β γ : Type} (f : β → List γ) (g : α → γ → α) :
    ∀ (l : List β) (a : α),
    (l.flatMap f).foldl g a = l.foldl (fun a b => (f b).foldl g a) a := by
  intro l
  induction l with
  | nil =>
    intro a
    rfl
  | cons b rest ih =>
    intro a
    rw [List.flatMap_cons, List.foldl_append, ih, List.foldl_cons]

theorem entries_fold (sc : Schema) :
    ∀ (entries : List (String × List String)) (c : EntityProxy),
    c.schema = sc →
    (∀ nv ∈ entries, C1Conds sc nv) →
    ((entries.map Prod.fst).Nodup) →
    (∀ nv ∈ entries, alookup c.props nv.1 = none) →
    (entries.foldl (fun c nv =>
        nv.2.foldl (fun c v => addQuiet c nv.1 v) c) c).props =
      c.props ++ entries.filter (fun nv => !nv.2.isEmpty) ∧
    (entries.foldl (fun c nv =>
        nv.2.foldl (fun c v => addQuiet c nv.1 v) c) c).schema = c.schema ∧
    (entries.foldl (fun c nv =>
        nv.2.foldl (fun c v => addQuiet c nv.1 v) c) c).id = c.id := by
  intro entries
  induction entries with
  | nil =>
    intro c _ _ _ _
    simp
  | cons nv rest ih =>
    intro c hcs hconds hkeys hnone
    rcases hconds nv (List.mem_cons_self nv rest) with
      ⟨p, hp, hstub, hsize, hname, hnodup, hvals⟩
    have hentry := addQuiet_entry nv.1 p nv.2 c (by rw [hcs]; exact hp)
      hstub hsize (hnone nv (List.mem_cons_self nv rest)) hnodup hvals
    rw [List.foldl_cons]
    have hkey_not : nv.1 ∉ (rest.map Prod.fst) := by
      have := hkeys
      simp only [List.map_cons, List.nodup_cons] at this
      exact this.1
    have hih := ih (nv.2.foldl (fun c v => addQuiet c nv.1 v) c)
      (by rw [hentry.2.1, hcs])
      (fun nv2 h2 => hconds nv2 (List.mem_cons_of_mem nv h2))
      (by
        have := hkeys
        simp only [List.map_cons, List.nodup_cons] at this
        exact this.2)
      (fun nv2 h2 => by
        rw [hentry.1]
        by_cases hemp : nv.2.isEmpty
        · rw [if_pos hemp]
          exact hnone nv2 (List.mem_cons_of_mem nv h2)
        · rw [if_neg hemp]
          rw [alookup_append]
          rw [hnone nv2 (List.mem_cons_of_mem nv h2)]
          have hne12 : nv2.1 ≠ nv.1 := by
            intro he
            apply hkey_not
            rw [← he]
            exact List.mem_map_of_mem Prod.fst h2
          simp only [alookup, Option.none_orElse]
          rw [if_neg (fun he => hne12 he.symm)]
          rfl)
    refine ⟨?_, ?_, ?_⟩
    · rw [hih.1, hentry.1]
      by_cases hemp : nv.2.isEmpty
      · rw [if_pos hemp]
        rw [List.filter_cons]
        rw [show (!nv.2.isEmpty) = false by simp [hemp]]
        simp
      · rw [if_neg hemp]
        rw [List.filter_cons]
        rw [show (!nv.2.isEmpty) = true by simp [hemp]]
        simp
    · rw [hih.2.1, hentry.2.1]
    · rw [hih.2.2, hentry.2.2]

end Ftm

namespace Ftm

/-- C1 (amended): the `StatementsFromEntity` / batch re-aggregation
round-trip reconstructs the entity's ID, schema and property values
exactly when the stored values are fixed points of their types' `Clean`
(and the props are well-formed against the schema); property entries
with an empty value list are dropped. -/
theorem c1_roundtrip (m : Model) (e : EntityProxy) (ds fs ls : String)
    (ext : Bool) (org : String)
    (hid : e.id ≠ "")
    (hsc : m.get e.schema.name = some e.schema)
    (hkeys : (e.props.map Prod.fst).Nodup)
    (hconds : ∀ nv ∈ e.props, C1Conds e.schema nv) :
    ∃ e2, aggregateSortedStatements m
        (statementsFromEntity e ds fs ls ext org) = [e2] ∧
      e2.id = e.id ∧ e2.schema = e.schema ∧
      e2.props = e.props.filter (fun nv => !nv.2.isEmpty) := by
  rw [sfe_eq e ds fs ls ext org hid]
  unfold aggregateSortedStatements
  rw [if_neg (List.cons_ne_nil _ _)]
  have hkeysall : ∀ s ∈ entStatement e ds fs ls ext org BaseID e.id ::
      e.props.flatMap (fun nv =>
        nv.2.map (entStatement e ds fs ls ext org nv.1)),
      s.groupKey = e.id := by
    intro s hs
    rcases List.mem_cons.mp hs with rfl | hs2
    · exact entStatement_groupKey e ds fs ls ext org BaseID e.id
    · rcases List.mem_flatMap.mp hs2 with ⟨nv, _, hsm⟩
      rcases List.mem_map.mp hsm with ⟨v, _, rfl⟩
      exact entStatement_groupKey e ds fs ls ext org nv.1 v
  rw [sortStatements_const_key e.id _ hkeysall]
  rw [aggLoop_start m _ _ [] e.schema
    (by rw [show (entStatement e ds fs ls ext org BaseID e.id).schema =
        e.schema.name from rfl]
        exact hsc)
    rfl]
  rw [show (entStatement e ds fs ls ext org BaseID e.id).groupKey = e.id
    from entStatement_groupKey e ds fs ls ext org BaseID e.id]
  rw [aggLoop_const_key m e.id _ _ []
    (fun s hs => hkeysall s (List.mem_cons_of_mem _ hs))]
  rw [foldl_flatMap]
  have hstep := List.foldl_ext
    (fun (a : EntityProxy) (b : String × List String) =>
      (b.2.map (entStatement e ds fs ls ext org b.1)).foldl
        (fun c s => if s.prop = BaseID then c
          else addQuiet c s.prop s.value) a)
    (fun (a : EntityProxy) (b : String × List String) =>
      b.2.foldl (fun c v => addQuiet c b.1 v) a)
    (newEntityProxy e.schema e.id)
    (fun a nv hnv => by
      dsimp only
      rw [List.foldl_map]
      refine List.foldl_ext _ _ a (fun a2 v hv => ?_)
      show (if (entStatement e ds fs ls ext org nv.1 v).prop = BaseID
        then a2
        else addQuiet a2 (entStatement e ds fs ls ext org nv.1 v).prop
          (entStatement e ds fs ls ext org nv.1 v).value) =
        addQuiet a2 nv.1 v
      rcases hconds nv hnv with ⟨p, -, -, -, hname, -, -⟩
      rw [show (entStatement e ds fs ls ext org nv.1 v).prop = nv.1
        from rfl]
      rw [if_neg hname]
      rfl)
  rw [hstep]
  have hfold := entries_fold e.schema e.props
    (newEntityProxy e.schema e.id) rfl hconds hkeys
    (fun nv _ => rfl)
  refine ⟨_, rfl, ?_, ?_, ?_⟩
  · exact hfold.2.2
  · exact hfold.2.1
  · rw [hfold.1]
    rfl

/-- C1 counterexample: an entity holding the cleaned address `", ,"`
(the output of cleaning `",,,"`) round-trips to an entity holding `","`
instead — the stored value is not a fixed point of `AddressType.Clean`,
so decompose-then-aggregate does not reproduce the property values. -/
theorem c1_counterexample :
    cex1Entity.id = "t1" ∧
    cex1Entity.props = [("address", [", ,"])] ∧
    (aggregateSortedStatements thingModel
      (statementsFromEntity cex1Entity "ds" "" "" false "")).map
        (fun e2 => e2.props) = [[("address", [","])]] := by
  decide

theorem c1_roundtrip_witness :
    c1Entity.id ≠ "" ∧
    personModel.get c1Entity.schema.name = some c1Entity.schema ∧
    (∃ e2, aggregateSortedStatements personModel
        (statementsFromEntity c1Entity "ds" "" "" false "") = [e2] ∧
      e2.id = c1Entity.id ∧ e2.schema = c1Entity.schema ∧
      e2.props = c1Entity.props.filter (fun nv => !nv.2.isEmpty)) :=
  ⟨by decide, by decide,
    c1_roundtrip personModel c1Entity "ds" "" "" false "" (by decide)
      (by decide) (by decide)
      (by
        intro nv hnv
        rw [show c1Entity.props = [("name", ["Ana"])] from rfl] at hnv
        rcases List.mem_singleton.mp hnv with rfl
        exact ⟨c1NameProp,
          by decide, by decide, by decide, by decide, by decide,
          fun v hv => by
            rcases List.mem_singleton.mp hv with rfl
            exact ⟨by decide, fun ctx => rfl⟩⟩)⟩

end Ftm

namespace Ftm

theorem indexProp_id (n : String) (m : Model) (p : String × PropertySpec)
    (hr : p.2.range = "") (hv : p.2.reverse = none) :
    indexProp n m p = m := by
  unfold indexProp
  rw [hr, hv]
  simp

theorem indexFold_id (n : String) :
    ∀ (props : List (String × PropertySpec)) (m : Model),
    (∀ p ∈ props, p.2.range = "" ∧ p.2.reverse = none) →
    props.foldl (indexProp n) m = m := by
  intro props
  induction props with
  | nil =>
    intro m _
    rfl
  | cons p rest ih =>
    intro m h
    rw [List.foldl_cons,
      indexProp_id n m p (h p (List.mem_cons_self p rest)).1
        (h p (List.mem_cons_self p rest)).2]
    exact ih m (fun q hq => h q (List.mem_cons_of_mem p hq))

theorem registerSpec_eval (m : Model) (name : String) (spec : SchemaSpec)
    (hdup : alookup m.schemata name = none)
    (hprops : ∀ p ∈ spec.properties, p.2.range = "" ∧ p.2.reverse = none) :
    registerSpec m (name, spec) = .ok
      (if spec.parents ≠ [] then
        { m with schemata := m.schemata ++ [(name, newSchema name spec)],
                 extendsNames := aset m.extendsNames name
                   ((alookup m.extendsNames name).getD [] ++ spec.parents) }
      else
        { m with schemata := m.schemata ++ [(name, newSchema name spec)] })
      := by
  unfold registerSpec
  dsimp only
  rw [hdup]
  dsimp only [Option.isSome_none]
  rw [if_neg (by simp)]
  by_cases hpar : spec.parents ≠ []
  · rw [if_pos hpar]
    rw [indexFold_id name spec.properties _ hprops]
  · rw [if_neg hpar]
    rw [indexFold_id name spec.properties _ hprops]

end Ftm

namespace Ftm

theorem resolveOneProp_id (m : Model) (sn pn : String)
    (hr : m.rangeIndex = []) (hv : m.reverseIndex = []) :
    resolveOneProp m sn pn = m := by
  unfold resolveOneProp
  split
  · rfl
  · rename_i s hs0
    split
    · rfl
    · rename_i prop hp0
      rw [hr, hv]
      by_cases ht : prop.type.typeName ≠ PType.entity.typeName
      · rw [if_pos ht]
      · rw [if_neg ht]
        dsimp only
        rw [show (if prop.range.isNone then
            match alookup ([] : List (String × String)) prop.qname with
            | some rngName =>
              if rngName ≠ "" ∧ (alookup m.schemata rngName).isSome then
                { prop with range := some rngName }
              else prop
            | none => prop
          else prop) = prop from by
          rw [show alookup ([] : List (String × String)) prop.qname = none
            from rfl]
          exact ite_self prop]
        rw [aset_lookup_self _ _ _ hp0]
        rw [show ({ s with properties := s.properties } : Schema) = s
          from rfl]
        rw [aset_lookup_self _ _ _ hs0]
        have hrec : ({ schemata := m.schemata, properties := m.properties, qnames := m.qnames, extendsIndex := m.extendsIndex, rangeIndex := [], reverseIndex := [], extendsNames := m.extendsNames } : Model) = m := by
          rw [← hr, ← hv]
        rw [hrec]
        by_cases hrev : prop.reverse.isSome
        · rw [if_pos hrev]
        · rw [if_neg hrev]
          rfl

theorem resolveFold_id (sn : String) :
    ∀ (l : List String) (m : Model),
    m.rangeIndex = [] → m.reverseIndex = [] →
    l.foldl (fun m pn => resolveOneProp m sn pn) m = m := by
  intro l
  induction l with
  | nil =>
    intro m _ _
    rfl
  | cons pn rest ih =>
    intro m hr hv
    rw [List.foldl_cons, resolveOneProp_id m sn pn hr hv]
    exact ih m hr hv

theorem generateSchema_succ (fuel : Nat) (m : Model) (name : String)
    (s : Schema) (hs : alookup m.schemata name = some s)
    (hmemo : s.generatedMemo = false) :
    generateSchema (fuel + 1) m name =
      (let m2 := ((alookup m.extendsIndex name).getD []).foldl
        (fun m pname =>
          mergeParent (generateSchema fuel m pname) name pname) m
      let m3 := match alookup m2.schemata name with
        | none => m2
        | some s1 => (s1.properties.map Prod.fst).foldl
            (fun m pn => resolveOneProp m name pn) m2
      match alookup m3.schemata name with
      | none => m3
      | some s2 => { m3 with schemata := aset m3.schemata name ({ s2 with generatedMemo := true }) }) := by
  conv_lhs => rw [generateSchema]
  rw [hs]
  dsimp only
  rw [if_neg (by rw [hmemo]; simp)]

theorem generateSchema_memo (fuel : Nat) (m : Model) (name : String)
    (s : Schema) (hs : alookup m.schemata name = some s)
    (hmemo : s.generatedMemo = true) :
    generateSchema (fuel + 1) m name = m := by
  conv_lhs => rw [generateSchema]
  rw [hs]
  dsimp only
  rw [if_pos hmemo]

theorem qnameInnerFold_schemata (pl : List (String × Property)) :
    ∀ m : Model,
    (pl.foldl (fun m p =>
      { m with qnames := aset m.qnames p.2.qname p.2,
               properties := aset m.properties p.2.qname p.2 }) m).schemata
      = m.schemata := by
  induction pl with
  | nil =>
    intro m
    rfl
  | cons p rest ih =>
    intro m
    rw [List.foldl_cons]
    exact ih _

theorem qnameFold_schemata (l : List (String × Schema)) :
    ∀ m : Model,
    (l.foldl (fun m sp =>
      sp.2.properties.foldl (fun m p =>
        { m with qnames := aset m.qnames p.2.qname p.2,
                 properties := aset m.properties p.2.qname p.2 }) m) m).schemata
      = m.schemata := by
  induction l with
  | nil =>
    intro m
    rfl
  | cons sp rest ih =>
    intro m
    rw [List.foldl_cons]
    rw [ih, qnameInnerFold_schemata]

end Ftm

namespace Ftm

theorem except_bind_ok {ε α β : Type} (a : α) (f : α → Except ε β) :
    (Except.ok (ε := ε) a >>= f) = f a := rfl

theorem c2_loadAll (pa pb pc : SchemaSpec)
    (ha : ∀ p ∈ pa.properties, p.2.range = "" ∧ p.2.reverse = none)
    (hb : ∀ p ∈ pb.properties, p.2.range = "" ∧ p.2.reverse = none)
    (hc : ∀ p ∈ pc.properties, p.2.range = "" ∧ p.2.reverse = none) :
    loadAll (c2Specs pa pb pc) = .ok (c2Loaded pa pb pc) := by
  have h1 : registerSpec {} ("A", c2SpecA pa) = .ok ({ schemata := [("A", newSchema "A" (c2SpecA pa))], extendsNames := [("A", ["B"])] } : Model) := by
    rw [registerSpec_eval {} "A" (c2SpecA pa) rfl ha]
    rfl
  have h2 : registerSpec ({ schemata := [("A", newSchema "A" (c2SpecA pa))], extendsNames := [("A", ["B"])] } : Model) ("B", c2SpecB pb) = .ok ({ schemata := [("A", newSchema "A" (c2SpecA pa)), ("B", newSchema "B" (c2SpecB pb))], extendsNames := [("A", ["B"]), ("B", ["C"])] } : Model) := by
    rw [registerSpec_eval ({ schemata := [("A", newSchema "A" (c2SpecA pa))], extendsNames := [("A", ["B"])] } : Model) "B" (c2SpecB pb) rfl hb]
    rfl
  have h3 : registerSpec ({ schemata := [("A", newSchema "A" (c2SpecA pa)), ("B", newSchema "B" (c2SpecB pb))], extendsNames := [("A", ["B"]), ("B", ["C"])] } : Model) ("C", c2SpecC pc) = .ok ({ schemata := [("A", newSchema "A" (c2SpecA pa)), ("B", newSchema "B" (c2SpecB pb)), ("C", newSchema "C" (c2SpecC pc))], extendsNames := [("A", ["B"]), ("B", ["C"])] } : Model) := by
    rw [registerSpec_eval ({ schemata := [("A", newSchema "A" (c2SpecA pa)), ("B", newSchema "B" (c2SpecB pb))], extendsNames := [("A", ["B"]), ("B", ["C"])] } : Model) "C" (c2SpecC pc) rfl hc]
    rfl
  unfold loadAll c2Specs
  rw [List.foldlM_cons, h1, except_bind_ok, List.foldlM_cons, h2,
    except_bind_ok, List.foldlM_cons, h3, except_bind_ok, List.foldlM_nil]
  rfl

end Ftm

namespace Ftm

theorem alookup_cons_ne {α : Type} (k0 : String) (v0 : α)
    (rest : List (String × α)) (k : String) (h : k0 ≠ k) :
    alookup ((k0, v0) :: rest) k = alookup rest k := by
  simp [alookup, h]

theorem mergeProps_lookup (k : String) :
    ∀ (parent child : List (String × Property)),
    alookup (mergeProps child parent) k =
      ((alookup child k).orElse (fun _ => alookup parent k)) := by
  intro parent
  induction parent with
  | nil =>
    intro child
    unfold mergeProps
    rw [List.foldl_nil]
    cases alookup child k <;> rfl
  | cons p ps ih =>
    intro child
    unfold mergeProps
    rw [List.foldl_cons]
    by_cases hb : (alookup child p.1).isSome
    · rw [if_pos hb]
      rw [show List.foldl (fun ps p =>
        if (alookup ps p.1).isSome = true then ps else ps ++ [p]) child ps
        = mergeProps child ps from rfl, ih]
      by_cases hk : p.1 = k
      · subst hk
        cases hck : alookup child p.1 with
        | none =>
          rw [hck] at hb
          simp at hb
        | some v =>
          rfl
      · cases p with
        | mk k0 v0 =>
          rw [alookup_cons_ne k0 v0 ps k hk]
    · rw [if_neg hb]
      rw [show List.foldl (fun ps p =>
        if (alookup ps p.1).isSome = true then ps else ps ++ [p])
        (child ++ [p]) ps = mergeProps (child ++ [p]) ps from rfl, ih]
      rw [alookup_append]
      have hcn : alookup child p.1 = none :=
        Option.not_isSome_iff_eq_none.mp (by simpa using hb)
      by_cases hk : p.1 = k
      · subst hk
        rw [hcn]
        cases p with
        | mk k0 v0 =>
          simp [alookup]
      · cases p with
        | mk k0 v0 =>
          rw [alookup_cons_ne k0 v0 ps k hk]
          rw [show alookup [(k0, v0)] k = none from by simp [alookup, hk]]
          cases hck : alookup child k <;> rfl

theorem ownProps_fold_qname (n : String) :
    ∀ (l : List (String × PropertySpec)) (ps : List (String × Property)),
    (∀ k2 v, alookup ps k2 = some v → v.qname = n ++ ":" ++ k2) →
    ∀ k v, alookup (l.foldl (fun ps q =>
      aset ps q.1 (newProperty n q.1 q.2)) ps) k = some v →
      v.qname = n ++ ":" ++ k := by
  intro l
  induction l with
  | nil =>
    intro ps hinv k v h
    exact hinv k v h
  | cons q rest ih =>
    intro ps hinv k v h
    rw [List.foldl_cons] at h
    refine ih _ ?_ k v h
    intro k2 v2 h2
    by_cases hk : k2 = q.1
    · subst hk
      rw [alookup_aset_self] at h2
      injection h2 with h3
      rw [← h3]
      rfl
    · rw [alookup_aset_ne _ _ _ _ hk] at h2
      exact hinv k2 v2 h2

theorem newSchema_prop_qname (n : String) (spec : SchemaSpec) (k : String)
    (p : Property)
    (h : alookup (newSchema n spec).properties k = some p) :
    p.qname = n ++ ":" ++ k := by
  refine ownProps_fold_qname n spec.properties [] ?_ k p h
  intro k2 v h2
  cases h2

theorem ownProps_fold_mem (n : String) :
    ∀ (l : List (String × PropertySpec)) (ps : List (String × Property))
    (k : String),
    (k ∈ l.map Prod.fst ∨ (alookup ps k).isSome) →
    (alookup (l.foldl (fun ps q =>
      aset ps q.1 (newProperty n q.1 q.2)) ps) k).isSome := by
  intro l
  induction l with
  | nil =>
    intro ps k h
    rcases h with h | h
    · simp at h
    · exact h
  | cons q rest ih =>
    intro ps k h
    rw [List.foldl_cons]
    refine ih _ k ?_
    rcases h with h | h
    · rw [List.map_cons] at h
      rcases List.mem_cons.mp h with h2 | h2
      · right
        rw [h2, alookup_aset_self]
        rfl
      · left
        exact h2
    · by_cases hk : k = q.1
      · right
        rw [hk, alookup_aset_self]
        rfl
      · right
        rw [alookup_aset_ne _ _ _ _ hk]
        exact h

theorem newSchema_prop_mem (n : String) (spec : SchemaSpec) (k : String)
    (h : k ∈ spec.properties.map Prod.fst) :
    (alookup (newSchema n spec).properties k).isSome :=
  ownProps_fold_mem n spec.properties [] k (Or.inl h)

theorem ownProps_fold_not_mem (n : String) :
    ∀ (l : List (String × PropertySpec)) (ps : List (String × Property))
    (k : String),
    k ∉ l.map Prod.fst → alookup ps k = none →
    alookup (l.foldl (fun ps q =>
      aset ps q.1 (newProperty n q.1 q.2)) ps) k = none := by
  intro l
  induction l with
  | nil =>
    intro ps k _ h
    exact h
  | cons q rest ih =>
    intro ps k hmem h
    rw [List.foldl_cons]
    refine ih _ k (fun h2 => hmem (by simp [h2])) ?_
    have hk : k ≠ q.1 := by
      intro he
      exact hmem (by simp [he])
    rw [alookup_aset_ne _ _ _ _ hk]
    exact h

theorem newSchema_prop_not_mem (n : String) (spec : SchemaSpec) (k : String)
    (h : k ∉ spec.properties.map Prod.fst) :
    alookup (newSchema n spec).properties k = none :=
  ownProps_fold_not_mem n spec.properties [] k h rfl

end Ftm

namespace Ftm

theorem c2_genC (pa pb pc : SchemaSpec) :
    generateSchema 2 (c2Loaded pa pb pc) "C" = ({ schemata := [("A", c2SA0 pa), ("B", c2SB0 pb), ("C", c2SC1 pc)], extendsNames := [("A", ["B"]), ("B", ["C"])], extendsIndex := [("A", ["B"]), ("B", ["C"])] } : Model) := by
  rw [show (2 : Nat) = 1 + 1 from rfl]
  rw [generateSchema_succ 1 (c2Loaded pa pb pc) "C"
    (newSchema "C" (c2SpecC pc)) rfl rfl]
  dsimp only
  rw [show (alookup (c2Loaded pa pb pc).extendsIndex "C").getD [] =
    ([] : List String) from rfl]
  rw [List.foldl_nil]
  rw [show alookup (c2Loaded pa pb pc).schemata "C" =
    some (newSchema "C" (c2SpecC pc)) from rfl]
  dsimp only
  rw [resolveFold_id "C" _ _ rfl rfl]
  rfl

theorem c2_genB (pa pb pc : SchemaSpec) :
    generateSchema 3 (c2Loaded pa pb pc) "B" = ({ schemata := [("A", c2SA0 pa), ("B", c2SB2 pb pc), ("C", c2SC2 pc)], extendsNames := [("A", ["B"]), ("B", ["C"])], extendsIndex := [("A", ["B"]), ("B", ["C"])] } : Model) := by
  rw [show (3 : Nat) = 2 + 1 from rfl]
  rw [generateSchema_succ 2 (c2Loaded pa pb pc) "B"
    (newSchema "B" (c2SpecB pb)) rfl rfl]
  dsimp only
  rw [show (alookup (c2Loaded pa pb pc).extendsIndex "B").getD [] =
    (["C"] : List String) from rfl]
  rw [List.foldl_cons, List.foldl_nil]
  rw [c2_genC pa pb pc]
  rw [show mergeParent ({ schemata := [("A", c2SA0 pa), ("B", c2SB0 pb), ("C", c2SC1 pc)], extendsNames := [("A", ["B"]), ("B", ["C"])], extendsIndex := [("A", ["B"]), ("B", ["C"])] } : Model) "B" "C" = ({ schemata := [("A", c2SA0 pa), ("B", c2SB1 pb pc), ("C", c2SC2 pc)], extendsNames := [("A", ["B"]), ("B", ["C"])], extendsIndex := [("A", ["B"]), ("B", ["C"])] } : Model) from rfl]
  rw [show alookup ([("A", c2SA0 pa), ("B", c2SB1 pb pc), ("C", c2SC2 pc)] : List (String × Schema)) "B" = some (c2SB1 pb pc) from rfl]
  dsimp only
  rw [resolveFold_id "B" _ _ rfl rfl]
  rfl

theorem c2_genA (pa pb pc : SchemaSpec) :
    generateSchema 4 (c2Loaded pa pb pc) "A" = ({ schemata := [("A", c2SA2 pa pb pc), ("B", c2SB3 pb pc), ("C", c2SC3 pc)], extendsNames := [("A", ["B"]), ("B", ["C"])], extendsIndex := [("A", ["B"]), ("B", ["C"])] } : Model) := by
  rw [show (4 : Nat) = 3 + 1 from rfl]
  rw [generateSchema_succ 3 (c2Loaded pa pb pc) "A"
    (newSchema "A" (c2SpecA pa)) rfl rfl]
  dsimp only
  rw [show (alookup (c2Loaded pa pb pc).extendsIndex "A").getD [] =
    (["B"] : List String) from rfl]
  rw [List.foldl_cons, List.foldl_nil]
  rw [c2_genB pa pb pc]
  rw [show mergeParent ({ schemata := [("A", c2SA0 pa), ("B", c2SB2 pb pc), ("C", c2SC2 pc)], extendsNames := [("A", ["B"]), ("B", ["C"])], extendsIndex := [("A", ["B"]), ("B", ["C"])] } : Model) "A" "B" = ({ schemata := [("A", c2SA1 pa pb pc), ("B", c2SB3 pb pc), ("C", c2SC3 pc)], extendsNames := [("A", ["B"]), ("B", ["C"])], extendsIndex := [("A", ["B"]), ("B", ["C"])] } : Model) from rfl]
  rw [show alookup ([("A", c2SA1 pa pb pc), ("B", c2SB3 pb pc), ("C", c2SC3 pc)] : List (String × Schema)) "A" = some (c2SA1 pa pb pc) from rfl]
  dsimp only
  rw [resolveFold_id "A" _ _ rfl rfl]
  rfl

end Ftm

namespace Ftm

theorem c2_generateModel (pa pb pc : SchemaSpec) :
    (generateModel (c2Loaded pa pb pc)).schemata =
      [("A", c2SA2 pa pb pc), ("B", c2SB3 pb pc), ("C", c2SC3 pc)] := by
  unfold generateModel
  dsimp only
  rw [show (c2Loaded pa pb pc).schemata.map Prod.fst = ["A", "B", "C"]
    from rfl]
  rw [List.foldl_cons, List.foldl_cons, List.foldl_cons, List.foldl_nil]
  rw [show (["A", "B", "C"] : List String).length + 1 = 4 from rfl]
  rw [c2_genA pa pb pc]
  rw [show (4 : Nat) = 3 + 1 from rfl]
  rw [generateSchema_memo 3 ({ schemata := [("A", c2SA2 pa pb pc), ("B", c2SB3 pb pc), ("C", c2SC3 pc)], extendsNames := [("A", ["B"]), ("B", ["C"])], extendsIndex := [("A", ["B"]), ("B", ["C"])] } : Model) "B" (c2SB3 pb pc) rfl rfl]
  rw [generateSchema_memo 3 ({ schemata := [("A", c2SA2 pa pb pc), ("B", c2SB3 pb pc), ("C", c2SC3 pc)], extendsNames := [("A", ["B"]), ("B", ["C"])], extendsIndex := [("A", ["B"]), ("B", ["C"])] } : Model) "C" (c2SC3 pc) rfl rfl]
  rw [qnameFold_schemata]

/-- C2: in the resolved three-schema chain model (`A` extends `B` extends
`C`, arbitrary property specifications without range/reverse
declarations), `A.IsA("C")` holds, every property declared on `C` is
visible on `A`, and a same-named property declared on `A` (first) or `B`
(second) shadows `C`'s declaration, as witnessed by the surviving
property's qualified name. -/
theorem c2_inheritance (pa pb pc : SchemaSpec)
    (ha : ∀ p ∈ pa.properties, p.2.range = "" ∧ p.2.reverse = none)
    (hb : ∀ p ∈ pb.properties, p.2.range = "" ∧ p.2.reverse = none)
    (hc : ∀ p ∈ pc.properties, p.2.range = "" ∧ p.2.reverse = none) :
    ∃ mF, loadModel (c2Specs pa pb pc) = .ok mF ∧
      ∃ sA, mF.get "A" = some sA ∧
        sA.isA "C" = true ∧
        ∀ pn, pn ∈ pc.properties.map Prod.fst →
          ∃ p, sA.get pn = some p ∧
            p.qname = (if pn ∈ pa.properties.map Prod.fst then "A:" ++ pn
              else if pn ∈ pb.properties.map Prod.fst then "B:" ++ pn
              else "C:" ++ pn) := by
  refine ⟨generateModel (c2Loaded pa pb pc), ?_, ?_⟩
  · unfold loadModel
    rw [show (do
        let m ← loadAll (c2Specs pa pb pc)
        pure (generateModel m) : Except String Model) =
      (loadAll (c2Specs pa pb pc) >>= fun m => pure (generateModel m))
      from rfl]
    rw [c2_loadAll pa pb pc ha hb hc, except_bind_ok]
    rfl
  · refine ⟨c2SA2 pa pb pc, ?_, rfl, ?_⟩
    · unfold Model.get
      rw [c2_generateModel pa pb pc]
      rfl
    · intro pn hpn
      have hlook : alookup (c2SA2 pa pb pc).properties pn =
          ((alookup (c2SA0 pa).properties pn).orElse
            (fun _ => (alookup (c2SB0 pb).properties pn).orElse
              (fun _ => alookup (c2SC0 pc).properties pn))) := by
        rw [show (c2SA2 pa pb pc).properties =
          mergeProps (c2SA0 pa).properties (c2SB1 pb pc).properties
          from rfl]
        rw [mergeProps_lookup]
        rw [show (c2SB1 pb pc).properties =
          mergeProps (c2SB0 pb).properties (c2SC0 pc).properties from rfl]
        rw [mergeProps_lookup]
      by_cases hma : pn ∈ pa.properties.map Prod.fst
      · have hsome : (alookup (c2SA0 pa).properties pn).isSome = true :=
          newSchema_prop_mem "A" (c2SpecA pa) pn hma
        cases hck : alookup (c2SA0 pa).properties pn with
        | none =>
          rw [hck] at hsome
          simp at hsome
        | some p =>
          refine ⟨p, ?_, ?_⟩
          · show alookup (c2SA2 pa pb pc).properties pn = some p
            rw [hlook, hck]
            rfl
          · rw [if_pos hma]
            rw [newSchema_prop_qname "A" (c2SpecA pa) pn p hck]
            rfl
      · have hnone_a : alookup (c2SA0 pa).properties pn = none :=
          newSchema_prop_not_mem "A" (c2SpecA pa) pn hma
        by_cases hmb : pn ∈ pb.properties.map Prod.fst
        · have hsome : (alookup (c2SB0 pb).properties pn).isSome = true :=
            newSchema_prop_mem "B" (c2SpecB pb) pn hmb
          cases hck : alookup (c2SB0 pb).properties pn with
          | none =>
            rw [hck] at hsome
            simp at hsome
          | some p =>
            refine ⟨p, ?_, ?_⟩
            · show alookup (c2SA2 pa pb pc).properties pn = some p
              rw [hlook, hnone_a, hck]
              rfl
            · rw [if_neg hma, if_pos hmb]
              rw [newSchema_prop_qname "B" (c2SpecB pb) pn p hck]
              rfl
        · have hnone_b : alookup (c2SB0 pb).properties pn = none :=
            newSchema_prop_not_mem "B" (c2SpecB pb) pn hmb
          have hsome : (alookup (c2SC0 pc).properties pn).isSome = true :=
            newSchema_prop_mem "C" (c2SpecC pc) pn hpn
          cases hck : alookup (c2SC0 pc).properties pn with
          | none =>
            rw [hck] at hsome
            simp at hsome
          | some p =>
            refine ⟨p, ?_, ?_⟩
            · show alookup (c2SA2 pa pb pc).properties pn = some p
              rw [hlook, hnone_a, hnone_b, hck]
              rfl
            · rw [if_neg hma, if_neg hmb]
              rw [newSchema_prop_qname "C" (c2SpecC pc) pn p hck]
              rfl

end Ftm

namespace Ftm

theorem c2_inheritance_witness :
    (∀ p ∈ c2WSpecA.properties, p.2.range = "" ∧ p.2.reverse = none) ∧
    (∀ p ∈ c2WSpecB.properties, p.2.range = "" ∧ p.2.reverse = none) ∧
    (∀ p ∈ c2WSpecC.properties, p.2.range = "" ∧ p.2.reverse = none) ∧
    (∃ mF, loadModel (c2Specs c2WSpecA c2WSpecB c2WSpecC) = .ok mF ∧
      ∃ sA, mF.get "A" = some sA ∧
        sA.isA "C" = true ∧
        ∀ pn, pn ∈ c2WSpecC.properties.map Prod.fst →
          ∃ p, sA.get pn = some p ∧
            p.qname =
              (if pn ∈ c2WSpecA.properties.map Prod.fst then "A:" ++ pn
              else if pn ∈ c2WSpecB.properties.map Prod.fst then
                "B:" ++ pn
              else "C:" ++ pn)) :=
  ⟨by decide, by decide, by decide,
    c2_inheritance c2WSpecA c2WSpecB c2WSpecC (by decide) (by decide)
      (by decide)⟩

end Ftm
